import Mathlib

/-!
Verification of the mesh-generation and plane-clipping core of the Dice
repository (`src/geometry.rs`).

The embedding is a shallow one over exact real arithmetic: the source's
`f32` scalars are modelled by `ℝ` (so every algebraic identity that the
source establishes only up to floating-point rounding holds exactly here),
`Vec3`/`[f32; 3]` by a three-field real structure, a bevy `Mesh` by its
position attribute together with its index buffer (normals and the render
bookkeeping carried by bevy's `Mesh` are not part of the model; the `u32`
casts in `construct_mesh` are lossless for every buffer this program
builds, so indices stay `Nat`), and the `HashMap`/`HashSet` caches by
association lists, inserting at the head exactly where the source inserts.
Rust `for` loops become structural recursions processing the elements in
the same order, and every function that can panic or return an error in
the source (`assert!`, `expect`, the backward walk of the retriangulation,
which the source runs as an unbounded `while`) is modelled with `Option`,
`none` standing for the aborted (or diverging) run.
-/

namespace Dice

/-- A 3D vector over exact reals, modelling both glam's `Vec3` and the
`[f32; 3]` vertex representation of `geometry.rs` (the source converts
between the two with `to_array`/`from_array`, which are the identity
here). -/
@[ext] structure Vec3 where
  x : ℝ
  y : ℝ
  z : ℝ

instance : Zero Vec3 := ⟨⟨0, 0, 0⟩⟩

instance : Add Vec3 := ⟨fun a b => ⟨a.x + b.x, a.y + b.y, a.z + b.z⟩⟩

instance : Sub Vec3 := ⟨fun a b => ⟨a.x - b.x, a.y - b.y, a.z - b.z⟩⟩

instance : Neg Vec3 := ⟨fun a => ⟨-a.x, -a.y, -a.z⟩⟩

instance : SMul ℝ Vec3 := ⟨fun r a => ⟨r * a.x, r * a.y, r * a.z⟩⟩

/-- `Vec3::dot`. -/
def dot (a b : Vec3) : ℝ := a.x * b.x + a.y * b.y + a.z * b.z

/-- Euclidean length of a vector (`Vec3::length`). -/
noncomputable def norm3 (v : Vec3) : ℝ := Real.sqrt (dot v v)

/-- `Vec3::distance`. -/
noncomputable def dist3 (a b : Vec3) : ℝ := norm3 (a - b)

/-- glam's `Vec3::angle_between`: the arc cosine of the normalized dot
product (`Real.arccos` already clamps its argument to `[-1, 1]` the way
glam does). -/
noncomputable def angle_between (a b : Vec3) : ℝ :=
  Real.arccos (dot a b / (norm3 a * norm3 b))

/-- A 2D texture coordinate (one entry of the UV array). -/
structure UV where
  u : ℝ
  v : ℝ

/-- A mesh buffer: position attribute plus triangle index list.  This is
the part of bevy's `Mesh` that `geometry.rs` reads and writes through
`extract_mesh_attributes`/`construct_mesh`. -/
structure Mesh where
  vertices : List Vec3
  indices : List Nat

/-- `construct_mesh`: packs a vertex buffer and an index buffer into a
mesh (the `u32` cast of the source is lossless at the sizes this program
produces, so it is not modelled). -/
def construct_mesh (vertices : List Vec3) (indices : List Nat) : Mesh :=
  ⟨vertices, indices⟩

/-- `extract_mesh_attributes`: in the model a mesh always carries both
attributes, so extraction always succeeds. -/
def extract_mesh_attributes (mesh : Mesh) : Option (List Vec3 × List Nat) :=
  some (mesh.vertices, mesh.indices)

/-- The golden ratio used for the icosahedron coordinates. -/
noncomputable def phi : ℝ := (1 + Real.sqrt 5) / 2

/-- The 12 vertices of `generate_regular_icosahedron`, in source order
(lu, ld, ru, rd, uf, ub, df, db, fl, fr, bl, br). -/
noncomputable def icosahedronVertices : List Vec3 :=
  [⟨-phi, 1, 0⟩, ⟨-phi, -1, 0⟩, ⟨phi, 1, 0⟩, ⟨phi, -1, 0⟩,
   ⟨0, phi, 1⟩, ⟨0, phi, -1⟩, ⟨0, -phi, 1⟩, ⟨0, -phi, -1⟩,
   ⟨-1, 0, phi⟩, ⟨1, 0, phi⟩, ⟨-1, 0, -phi⟩, ⟨1, 0, -phi⟩]

/-- The 20 triangles of `generate_regular_icosahedron`, flattened in
source order. -/
def icosahedronIndices : List Nat :=
  [5, 4, 2,  5, 2, 11,  5, 11, 10,  5, 10, 0,  5, 0, 4,
   8, 4, 0,  8, 9, 4,  9, 2, 4,  9, 3, 2,  3, 11, 2,
   3, 7, 11,  7, 10, 11,  7, 1, 10,  1, 0, 10,  1, 8, 0,
   6, 7, 3,  6, 3, 9,  6, 9, 8,  6, 8, 1,  6, 1, 7]

/-- `generate_regular_icosahedron`. -/
noncomputable def generate_regular_icosahedron : Mesh :=
  construct_mesh icosahedronVertices icosahedronIndices

/-- `project_to_unit_circle`: divide a vertex by its Euclidean length. -/
noncomputable def project_to_unit_circle (vertex : Vec3) : Vec3 :=
  let length := Real.sqrt (vertex.x * vertex.x + vertex.y * vertex.y + vertex.z * vertex.z)
  ⟨vertex.x / length, vertex.y / length, vertex.z / length⟩

/-- The raw (unnormalized) midpoint of two vertices, as built inside
`create_midpoint` before projection. -/
noncomputable def vmid (a b : Vec3) : Vec3 :=
  ⟨(a.x + b.x) / 2, (a.y + b.y) / 2, (a.z + b.z) / 2⟩

/-- The midpoint cache of one subdivision round (`HashMap<(usize, usize),
usize>` in the source), as an association list; fresh entries are put at
the head. -/
abbrev Cache := List ((Nat × Nat) × Nat)

/-- The normalized cache key for an unordered index pair
(`(min(p1, p2), max(p1, p2))` in the source). -/
def ekey (p1 p2 : Nat) : Nat × Nat := (min p1 p2, max p1 p2)

/-- `create_midpoint`: return the cached vertex for the edge, or else
average the endpoints, project the average onto the unit sphere, append
it and cache its index.  The mutation of the buffers is modelled by
returning them. -/
noncomputable def create_midpoint (p1 p2 : Nat) (vertices : List Vec3)
    (index_cache : Cache) : Nat × List Vec3 × Cache :=
  let key := ekey p1 p2
  match index_cache.lookup key with
  | some index => (index, vertices, index_cache)
  | none =>
    let v1 := vertices.getD p1 0
    let v2 := vertices.getD p2 0
    let midpoint : Vec3 := vmid v1 v2
    let index := vertices.length
    (index, vertices ++ [project_to_unit_circle midpoint], (key, index) :: index_cache)

/-- The body of one subdivision round of `create_icosphere`: walk the
index list three entries at a time, split each triangle 1-to-4 through
the cached midpoints.  Returns the new index list together with the grown
vertex buffer and cache. -/
noncomputable def subdivideTriangles :
    List Nat → List Vec3 → Cache → List Nat × List Vec3 × Cache
  | p1 :: p2 :: p3 :: rest, vertices, index_cache =>
    let r1 := create_midpoint p1 p2 vertices index_cache
    let m1 := r1.1
    let r2 := create_midpoint p2 p3 r1.2.1 r1.2.2
    let m2 := r2.1
    let r3 := create_midpoint p3 p1 r2.2.1 r2.2.2
    let m3 := r3.1
    let rest' := subdivideTriangles rest r3.2.1 r3.2.2
    ([p1, m1, m3, p2, m2, m1, p3, m3, m2, m1, m2, m3] ++ rest'.1, rest'.2)
  | _, vertices, index_cache => ([], vertices, index_cache)

/-- The subdivision loop of `create_icosphere` (`for _ in 0..iterations`),
with a fresh cache per round. -/
noncomputable def icosphereRounds : Nat → List Vec3 × List Nat → List Vec3 × List Nat
  | 0, state => state
  | n + 1, state =>
    let r := subdivideTriangles state.2 state.1 []
    icosphereRounds n (r.2.1, r.1)

/-- The mesh `create_icosphere` builds once the iteration guard has
passed: the normalized icosahedron, subdivided `iterations` times. -/
noncomputable def icosphereMesh (iterations : Nat) : Mesh :=
  let start := (icosahedronVertices.map project_to_unit_circle, icosahedronIndices)
  let result := icosphereRounds iterations start
  construct_mesh result.1 result.2

/-- `create_icosphere`: the `assert!(iterations <= 8)` guard is modelled
by returning `none` (the panicked run) for out-of-range inputs, before
any construction work. -/
noncomputable def create_icosphere (iterations : Nat) : Option Mesh :=
  if iterations ≤ 8 then some (icosphereMesh iterations) else none

/-- `f32::EPSILON`, the machine epsilon of the source's scalar type,
as an exact rational constant. -/
noncomputable def EPSILON : ℝ := 1 / 2 ^ 23

/-- `intersect_line_with_plane`: parametric segment/plane intersection,
`none` for (epsilon-)parallel edges and for intersection parameters
outside `[0, 1]`. -/
noncomputable def intersect_line_with_plane (l1 l2 plane_point plane_normal : Vec3) :
    Option Vec3 :=
  let line := l2 - l1
  let d := dot plane_normal line
  if |d| ≤ EPSILON then none
  else
    let factor := dot plane_normal (l1 - plane_point) / -d
    if factor < 0 ∨ 1 < factor then none
    else some (l1 + factor • line)

/-- `intersect_triangle_with_plane`: one intersection attempt per directed
edge of the triangle (wrapping). -/
noncomputable def intersect_triangle_with_plane (vertices : List Vec3)
    (indices : List Nat) (plane_point plane_normal : Vec3) : List (Option Vec3) :=
  (List.range indices.length).map fun index =>
    intersect_line_with_plane
      (vertices.getD (indices.getD index 0) 0)
      (vertices.getD (indices.getD ((index + 1) % indices.length) 0) 0)
      plane_point plane_normal

/-- `needs_triangulation`: strictly more than one edge produced an
intersection. -/
def needs_triangulation (collisions : List (Option Vec3)) : Bool :=
  decide (1 < collisions.countP fun c => c.isSome)

/-- One iteration of the slot-building loop of
`intersect_mesh_with_plane` (`for i in 0..3` over the cut triangle): per
edge, a cache hit yields the cached intersection vertex; otherwise a
fresh intersection point is appended and cached; an uncut edge yields an
undefined slot. -/
def slotStep (tri : List Nat) (ints : List (Option Vec3)) (i : Nat)
    (vertices : List Vec3) (cache : Cache) :
    (Nat × Option Nat) × List Vec3 × Cache :=
  let i1 := tri.getD i 0
  let i2 := tri.getD ((i + 1) % 3) 0
  let key := ekey i1 i2
  match cache.lookup key with
  | some index => ((i1, some index), vertices, cache)
  | none =>
    match ints.getD i none with
    | some intersection =>
      let new_index := vertices.length
      ((i1, some new_index), vertices ++ [intersection], (key, new_index) :: cache)
    | none => ((i1, none), vertices, cache)

/-- The slot list for the positions `[0, 1, 2]`, threading the vertex
buffer and the cache through the three `slotStep`s in order. -/
def buildSlots (tri : List Nat) (ints : List (Option Vec3)) :
    List Nat → List Vec3 → Cache → List (Nat × Option Nat) × List Vec3 × Cache
  | [], vertices, cache => ([], vertices, cache)
  | i :: rest, vertices, cache =>
    let s := slotStep tri ints i vertices cache
    let r := buildSlots tri ints rest s.2.1 s.2.2
    (s.1 :: r.1, r.2)

/-- The backward walk of the retriangulation (`while triangle[x].1 == None
{ x = (x + 2) % 3 }` followed by reading the found slot).  The source's
loop is unbounded; with fuel `3` the walk visits every slot once, so
running out of fuel is exactly the configuration in which the source's
loop never terminates, modelled as `none`. -/
def walkBack (slots : List (Nat × Option Nat)) : Nat → Nat → Option Nat
  | _, 0 => none
  | x, fuel + 1 =>
    match (slots.getD x (0, none)).2 with
    | some index => some index
    | none => walkBack slots ((x + 2) % 3) fuel

/-- The emission loop of the retriangulation (`for t in 0..3`): triangle
`t` keeps its corner, takes its slot's intersection vertex (or the next
corner when the slot is undefined), and closes with the first defined
slot found walking backward. -/
def emitOne (tri : List Nat) (slots : List (Nat × Option Nat)) (t : Nat) :
    Option (List Nat) :=
  let i1 := tri.getD t 0
  let i2 := match (slots.getD t (0, none)).2 with
    | some index => index
    | none => (slots.getD ((t + 1) % 3) (0, none)).1
  match walkBack slots ((t + 2) % 3) 3 with
  | some i3 => some [i1, i2, i3]
  | none => none

/-- All three emitted triangles of one retriangulated source triangle. -/
def emitTriangles (tri : List Nat) (slots : List (Nat × Option Nat)) :
    Option (List Nat) :=
  match emitOne tri slots 0, emitOne tri slots 1, emitOne tri slots 2 with
  | some t0, some t1, some t2 => some (t0 ++ t1 ++ t2)
  | _, _, _ => none

/-- The per-triangle loop of `intersect_mesh_with_plane`: triangles with
at most one cut edge pass through verbatim, the rest are retriangulated
through the intersection-vertex cache.  `none` models the diverging
backward walk. -/
noncomputable def clipTriangles (plane_point plane_normal : Vec3) :
    List Nat → List Vec3 → Cache → Option (List Vec3 × Cache × List Nat)
  | i1 :: i2 :: i3 :: rest, vertices, cache =>
    let triangle_indices := [i1, i2, i3]
    let ints := intersect_triangle_with_plane vertices triangle_indices
      plane_point plane_normal
    if needs_triangulation ints then
      let built := buildSlots triangle_indices ints [0, 1, 2] vertices cache
      match emitTriangles triangle_indices built.1 with
      | some tris =>
        (clipTriangles plane_point plane_normal rest built.2.1 built.2.2).map
          fun r => (r.1, r.2.1, tris ++ r.2.2)
      | none => none
    else
      (clipTriangles plane_point plane_normal rest vertices cache).map
        fun r => (r.1, r.2.1, triangle_indices ++ r.2.2)
  | _, vertices, cache => some (vertices, cache, [])

/-- `intersect_mesh_with_plane`: clip every triangle against the plane,
with a fresh intersection-vertex cache for the pass. -/
noncomputable def intersect_mesh_with_plane (mesh : Mesh)
    (plane_point plane_normal : Vec3) : Option Mesh :=
  (clipTriangles plane_point plane_normal mesh.indices mesh.vertices []).map
    fun r => construct_mesh r.1 r.2.2

/-- The triangle list view of a flat index buffer: consecutive triples,
in order (the `(0..len).step_by(3)` traversal shared by all the loops of
`geometry.rs`). -/
def tri3 : List Nat → List (Nat × Nat × Nat)
  | p1 :: p2 :: p3 :: rest => (p1, p2, p3) :: tri3 rest
  | _ => []

/-- The Mesh Buffer invariant of the data model: the index list length is
a multiple of three and every index is in bounds of the vertex buffer. -/
def MeshInv (m : Mesh) : Prop :=
  m.indices.length % 3 = 0 ∧ ∀ i ∈ m.indices, i < m.vertices.length

/-- The vertex loop of `remove_if`, over the position-annotated vertex
list: removed positions and per-position offsets (`removed.len()` at push
time) accumulate on the left, surviving vertices and their UVs on the
right. -/
def removeLoop (pred : Vec3 → Bool) (uvs : List UV) :
    List (Nat × Vec3) → List Nat → List Nat → List Vec3 → List UV →
      List Nat × List Nat × List Vec3 × List UV
  | [], removed, offsets, new_vertices, new_uvs =>
    (removed, offsets, new_vertices, new_uvs)
  | (v, vertex) :: rest, removed, offsets, new_vertices, new_uvs =>
    if pred vertex then
      removeLoop pred uvs rest (removed ++ [v]) (offsets ++ [removed.length + 1])
        new_vertices new_uvs
    else
      removeLoop pred uvs rest removed (offsets ++ [removed.length])
        (new_vertices ++ [vertex]) (new_uvs ++ [uvs.getD v ⟨0, 0⟩])

/-- The triangle loop of `remove_if`: a triangle survives exactly when
none of its corners was removed, and every surviving corner is shifted
down by its running removed-so-far offset. -/
def removeTris (removed : List Nat) (offsets : List Nat) : List Nat → List Nat
  | a :: b :: c :: rest =>
    (if !removed.contains a && !removed.contains b && !removed.contains c then
      [a - offsets.getD a 0, b - offsets.getD b 0, c - offsets.getD c 0]
    else []) ++ removeTris removed offsets rest
  | _ => []

/-- `remove_if`: prune every vertex matching the predicate, drop every
triangle referencing a removed vertex, compact the index buffer, and keep
the UV array parallel to the vertex buffer. -/
def remove_if (mesh : Mesh) (pred : Vec3 → Bool) (uvs : List UV) : Mesh × List UV :=
  let r := removeLoop pred uvs mesh.vertices.enum [] [] [] []
  (construct_mesh r.2.2.1 (removeTris r.1 r.2.1 mesh.indices), r.2.2.2)

/-- The removed positions of one `remove_if` call, counted from `k`
(specification-level closed form of the `removed` set). -/
def remPos (pred : Vec3 → Bool) : Nat → List Vec3 → List Nat
  | _, [] => []
  | k, v :: vs =>
    if pred v then k :: remPos pred (k + 1) vs else remPos pred (k + 1) vs

/-- The per-position offset entries of one `remove_if` call starting from
`c` already-removed vertices (closed form of `index_offsets`). -/
def offsEntries (pred : Vec3 → Bool) : Nat → List Vec3 → List Nat
  | _, [] => []
  | c, v :: vs =>
    if pred v then (c + 1) :: offsEntries pred (c + 1) vs
    else c :: offsEntries pred c vs

/-- The surviving UV entries of one `remove_if` call (closed form of the
`new_uvs` accumulator), reading the incoming UV array at the surviving
absolute positions from `k` on. -/
def uvPicks (pred : Vec3 → Bool) (uvs : List UV) : Nat → List Vec3 → List UV
  | _, [] => []
  | k, v :: vs =>
    if pred v then uvPicks pred uvs (k + 1) vs
    else uvs.getD k ⟨0, 0⟩ :: uvPicks pred uvs (k + 1) vs

/-- The compacted position of surviving vertex `i`: its original position
minus the number of vertices removed up to and including `i` (the
`index_offsets` subtraction of the source). -/
def rankAfter (pred : Vec3 → Bool) (vertices : List Vec3) (i : Nat) : Nat :=
  i - (vertices.take (i + 1)).countP pred

/-- The boundary-ring duplicates appended by the first loop of
`fill_circle` (`for i in start_index..len { vertices.push(vertices[i]) }`). -/
def fcDup (mesh : Mesh) (start_index : Nat) : List Vec3 :=
  mesh.vertices.drop start_index

/-- The vertex buffer of `fill_circle` after the duplication loop. -/
def fcVertices (mesh : Mesh) (start_index : Nat) : List Vec3 :=
  mesh.vertices ++ fcDup mesh start_index

/-- The value of the mutated `start_index` after the duplication loop
(`start_index = i + 1` at each iteration, so the original length when the
loop ran, the original value otherwise). -/
def fcStart (mesh : Mesh) (start_index : Nat) : Nat :=
  max start_index mesh.vertices.length

/-- The positions of the duplicated ring, which the second loop of
`fill_circle` walks (`for index in start_index..vertices.len()`). -/
def fcRing (mesh : Mesh) (start_index : Nat) : List Nat :=
  List.range' (fcStart mesh start_index)
    ((fcVertices mesh start_index).length - fcStart mesh start_index)

/-- The half-plane test of `fill_circle`: a ring vertex is on the
clockwise side when it is closer to `center + clockwise_normal` than to
`center - clockwise_normal`. -/
noncomputable def isClockwise (vertices : List Vec3) (center clockwise_normal : Vec3)
    (index : Nat) : Bool :=
  decide (dist3 (vertices.getD index 0) (center + clockwise_normal) <
    dist3 (vertices.getD index 0) (center - clockwise_normal))

/-- The sort key of `fill_circle`'s `sort_by_angle`: the angle between
the (shadowed, center-offset) reference point and the vertex position. -/
noncomputable def angleKey (vertices : List Vec3) (reference : Vec3) (index : Nat) : ℝ :=
  angle_between reference (vertices.getD index 0)

/-- The clockwise half of the duplicated ring, sorted by descending angle
(the source sorts with the arguments of the comparator swapped). -/
noncomputable def fcClockwise (mesh : Mesh) (center reference clockwise_normal : Vec3)
    (start_index : Nat) : List Nat :=
  ((fcRing mesh start_index).filter
      (isClockwise (fcVertices mesh start_index) center clockwise_normal)).mergeSort
    fun a b => decide (angleKey (fcVertices mesh start_index) (center + reference) b ≤
      angleKey (fcVertices mesh start_index) (center + reference) a)

/-- The counter-clockwise half of the duplicated ring, sorted by
ascending angle. -/
noncomputable def fcCounter (mesh : Mesh) (center reference clockwise_normal : Vec3)
    (start_index : Nat) : List Nat :=
  ((fcRing mesh start_index).filter
      (fun index => !isClockwise (fcVertices mesh start_index) center clockwise_normal
        index)).mergeSort
    fun a b => decide (angleKey (fcVertices mesh start_index) (center + reference) a ≤
      angleKey (fcVertices mesh start_index) (center + reference) b)

/-- The angularly ordered ring traversal of `fill_circle`: the
counter-clockwise half followed by the clockwise half. -/
noncomputable def fcSorted (mesh : Mesh) (center reference clockwise_normal : Vec3)
    (start_index : Nat) : List Nat :=
  fcCounter mesh center reference clockwise_normal start_index ++
    fcClockwise mesh center reference clockwise_normal start_index

/-- One iteration of the fan-emission loop of `fill_circle`: emit the
triangle `(v_i, v_{i+1}, center)` (wrapping) and overwrite `v_i`'s UV
from its unwrapped angle (angles in the clockwise half are reflected to
`2π - angle`). -/
noncomputable def fanStep (vertices : List Vec3) (sorted : List Nat)
    (counter_len center_index : Nat) (center reference : Vec3)
    (acc : List Nat × List UV) (i : Nat) : List Nat × List UV :=
  let v1 := sorted.getD i 0
  let v2 := sorted.getD ((i + 1) % sorted.length) 0
  let angle0 := angle_between (center + reference - center)
    (vertices.getD v1 0 - center)
  let angle := if counter_len ≤ i then 2 * Real.pi - angle0 else angle0
  (acc.1 ++ [v1, v2, center_index],
   acc.2.set v1 ⟨(-Real.sin angle + 1) / 2, 1 - (Real.cos angle + 1) / 2⟩)

/-- `fill_circle`: duplicate the boundary ring, partition it into two
angular halves, sort them into one ring traversal, emit the triangle fan
around the appended center vertex and assign the circularly unwrapped
UVs; the center vertex receives UV `(0.5, 0.5)`. -/
noncomputable def fill_circle (mesh : Mesh) (params : Vec3 × Vec3 × Vec3)
    (start_index : Nat) (uvs : List UV) : Mesh × List UV :=
  let center := params.1
  let reference := params.2.1
  let clockwise_normal := params.2.2
  let vertices := fcVertices mesh start_index
  let uvs1 := uvs ++ List.replicate (fcDup mesh start_index).length ⟨0, 0⟩
  let sorted := fcSorted mesh center reference clockwise_normal start_index
  let counter_len := (fcCounter mesh center reference clockwise_normal start_index).length
  let center_index := vertices.length
  let fan := (List.range sorted.length).foldl
    (fanStep vertices sorted counter_len center_index center reference)
    (mesh.indices, uvs1)
  (construct_mesh (vertices ++ [center]) fan.1, fan.2 ++ [⟨1 / 2, 1 / 2⟩])

/-- The six die faces of `create_d6`, in source order (left, right, up,
down, front, back): die face number, plane normal, UV reference axis and
clockwise axis. -/
noncomputable def orientations : List (Nat × Vec3 × Vec3 × Vec3) :=
  [(2, ⟨-1, 0, 0⟩, ⟨0, 0, 1⟩, ⟨0, -1, 0⟩),
   (5, ⟨1, 0, 0⟩, ⟨0, 0, 1⟩, ⟨0, 1, 0⟩),
   (6, ⟨0, 1, 0⟩, ⟨0, 0, -1⟩, ⟨1, 0, 0⟩),
   (1, ⟨0, -1, 0⟩, ⟨0, 0, 1⟩, ⟨1, 0, 0⟩),
   (4, ⟨0, 0, 1⟩, ⟨0, 1, 0⟩, ⟨1, 0, 0⟩),
   (3, ⟨0, 0, -1⟩, ⟨0, 1, 0⟩, ⟨-1, 0, 0⟩)]

/-- The per-face UV retiling loop of `create_d6`
(`for i in uvs.len() - circle_count - 1..uvs.len()`): pack the face's cap
UVs into its sixth of the texture atlas. -/
noncomputable def uvRemap (die_face : Nat) (circle_count : Nat) (uvs : List UV) :
    List UV :=
  (List.range' (uvs.length - circle_count - 1)
      (uvs.length - (uvs.length - circle_count - 1))).foldl
    (fun acc i =>
      acc.set i ⟨((die_face : ℝ) - 1) * 1 / 6 + (acc.getD i ⟨0, 0⟩).u / 6,
        (acc.getD i ⟨0, 0⟩).v⟩)
    uvs

/-- One iteration of the face loop of `create_d6`: clip at the face
plane, pad the UV array for the fresh intersection vertices, fill the
newly created boundary ring as a cap and retile that face's UVs.  `none`
is the propagated clipping failure (`expect("valid mesh")`). -/
noncomputable def d6Face (threshold : ℝ) (state : Mesh × List UV)
    (orient : Nat × Vec3 × Vec3 × Vec3) : Option (Mesh × List UV) :=
  let die_face := orient.1
  let plane_normal := orient.2.1
  let reference := orient.2.2.1
  let clockwise_normal := orient.2.2.2
  let center := threshold • plane_normal
  let circle_start_index := state.1.vertices.length
  (intersect_mesh_with_plane state.1 center plane_normal).map fun d6 =>
    let circle_count := d6.vertices.length - circle_start_index
    let uvs := state.2 ++ List.replicate circle_count ⟨0, 0⟩
    let r := fill_circle d6
      (center, threshold • reference, threshold • clockwise_normal)
      circle_start_index uvs
    (r.1, uvRemap die_face circle_count r.2)

/-- The vertex predicate of `create_d6`'s terminal prune
(`vertex.iter().any(|c| c.abs() > threshold)`). -/
noncomputable def d6Prune (threshold : ℝ) (vertex : Vec3) : Bool :=
  decide (|vertex.x| > threshold ∨ |vertex.y| > threshold ∨ |vertex.z| > threshold)

/-- `create_d6`: icosphere, six rounds of clip-and-cap with per-face UV
tiles, terminal prune of everything outside the rounded cube, and rescale
by `size / (2 * threshold)`.  The computed normals of the source are not
part of the mesh model; the UV array is returned alongside. -/
noncomputable def create_d6 (depth : Nat) (threshold size : ℝ) :
    Option (Mesh × List UV) :=
  (create_icosphere depth).bind fun d6 =>
    (orientations.foldlM (d6Face threshold)
        (d6, List.replicate d6.vertices.length (⟨0, 0⟩ : UV))).map fun r =>
      let pruned := remove_if r.1 (d6Prune threshold) r.2
      let scale_factor := size / (2 * threshold)
      (construct_mesh
        (pruned.1.vertices.map fun v =>
          ⟨v.x * scale_factor, v.y * scale_factor, v.z * scale_factor⟩)
        pruned.1.indices, pruned.2)

/-- Every vertex of the buffer lies on the unit sphere (stated on the
squared norm). -/
def UnitVerts (vs : List Vec3) : Prop := ∀ v ∈ vs, dot v v = 1

/-- Every triangle of the flat index list is in bounds and its corners
pairwise have strictly positive inner product; in particular no two
corners of a triangle are antipodal, so every edge midpoint stays away
from the origin and its normalization is well defined. -/
def TriAcute (vs : List Vec3) (idx : List Nat) : Prop :=
  ∀ t ∈ tri3 idx, t.1 < vs.length ∧ t.2.1 < vs.length ∧ t.2.2 < vs.length ∧
    0 < dot (vs.getD t.1 0) (vs.getD t.2.1 0) ∧
    0 < dot (vs.getD t.2.1 0) (vs.getD t.2.2 0) ∧
    0 < dot (vs.getD t.2.2 0) (vs.getD t.1 0)

/-- The midpoint-cache invariant of one subdivision round: every entry
maps an in-bounds index pair to an in-bounds index that holds the
normalized midpoint of the pair's vertices. -/
def CacheMid (vs : List Vec3) (c : Cache) : Prop :=
  ∀ kv ∈ c, kv.1.1 < vs.length ∧ kv.1.2 < vs.length ∧ kv.2 < vs.length ∧
    vs.getD kv.2 0 = project_to_unit_circle
      (vmid (vs.getD kv.1.1 0) (vs.getD kv.1.2 0))

/-- Buffer extension: the buffer only grows and the old prefix is
unchanged. -/
def ExtendsV (vs vs' : List Vec3) : Prop :=
  vs.length ≤ vs'.length ∧ ∀ i, i < vs.length → vs'.getD i 0 = vs.getD i 0

/-- The three undirected, key-normalized edges of one triangle. -/
def edgesOf (t : Nat × Nat × Nat) : List (Nat × Nat) :=
  [ekey t.1 t.2.1, ekey t.2.1 t.2.2, ekey t.2.2 t.1]

/-- All (normalized) edges of a flat index list, with multiplicity. -/
def allEdges (idx : List Nat) : List (Nat × Nat) :=
  (tri3 idx).flatMap edgesOf

/-- The key list of a midpoint cache. -/
def ckeys (c : Cache) : List (Nat × Nat) := c.map Prod.fst

/-- How many entries of `ks` are new relative to the accumulating key
set started at `K`: the number of cache misses of one subdivision round,
scanned left to right. -/
def countNew (K : List (Nat × Nat)) : List (Nat × Nat) → Nat
  | [] => 0
  | k :: ks => (if k ∈ K then 0 else 1) + countNew (k :: K) ks

/-- The 12 output indices a single 1-to-4 triangle split emits, given
the midpoint index `M e` of every edge `e`. -/
def splitPat (M : Nat × Nat → Nat) (t : Nat × Nat × Nat) : List Nat :=
  [t.1, M (ekey t.1 t.2.1), M (ekey t.2.2 t.1),
   t.2.1, M (ekey t.2.1 t.2.2), M (ekey t.1 t.2.1),
   t.2.2, M (ekey t.2.2 t.1), M (ekey t.2.1 t.2.2),
   M (ekey t.1 t.2.1), M (ekey t.2.1 t.2.2), M (ekey t.2.2 t.1)]

/-- The four child triangles of a 1-to-4 split. -/
def children (M : Nat × Nat → Nat) (t : Nat × Nat × Nat) :
    List (Nat × Nat × Nat) :=
  [(t.1, M (ekey t.1 t.2.1), M (ekey t.2.2 t.1)),
   (t.2.1, M (ekey t.2.1 t.2.2), M (ekey t.1 t.2.1)),
   (t.2.2, M (ekey t.2.2 t.1), M (ekey t.2.1 t.2.2)),
   (M (ekey t.1 t.2.1), M (ekey t.2.1 t.2.2), M (ekey t.2.2 t.1))]

/-- The well-formed-topology invariant of the subdivision: every
triangle is in bounds with pairwise-distinct corners, every undirected
edge lies in exactly 0 or 2 triangle slots (counted with multiplicity
over the flat list), and no two triangle slots share two distinct
edges. -/
def MeshTopo (n : Nat) (idx : List Nat) : Prop :=
  (∀ t ∈ tri3 idx, t.1 < n ∧ t.2.1 < n ∧ t.2.2 < n ∧
    t.1 ≠ t.2.1 ∧ t.2.1 ≠ t.2.2 ∧ t.2.2 ≠ t.1) ∧
  (∀ e, (allEdges idx).count e = 0 ∨ (allEdges idx).count e = 2) ∧
  (∀ e f, e ≠ f →
    (tri3 idx).countP (fun t => decide (e ∈ edgesOf t ∧ f ∈ edgesOf t)) ≤ 1)

end Dice

namespace Dice

@[simp] theorem add_x (a b : Vec3) : (a + b).x = a.x + b.x := rfl

@[simp] theorem add_y (a b : Vec3) : (a + b).y = a.y + b.y := rfl

@[simp] theorem add_z (a b : Vec3) : (a + b).z = a.z + b.z := rfl

@[simp] theorem sub_x (a b : Vec3) : (a - b).x = a.x - b.x := rfl

@[simp] theorem sub_y (a b : Vec3) : (a - b).y = a.y - b.y := rfl

@[simp] theorem sub_z (a b : Vec3) : (a - b).z = a.z - b.z := rfl

@[simp] theorem neg_x (a : Vec3) : (-a).x = -a.x := rfl

@[simp] theorem neg_y (a : Vec3) : (-a).y = -a.y := rfl

@[simp] theorem neg_z (a : Vec3) : (-a).z = -a.z := rfl

@[simp] theorem smul_x (r : ℝ) (a : Vec3) : (r • a).x = r * a.x := rfl

@[simp] theorem smul_y (r : ℝ) (a : Vec3) : (r • a).y = r * a.y := rfl

@[simp] theorem smul_z (r : ℝ) (a : Vec3) : (r • a).z = r * a.z := rfl

@[simp] theorem zero_x : (0 : Vec3).x = 0 := rfl

@[simp] theorem zero_y : (0 : Vec3).y = 0 := rfl

@[simp] theorem zero_z : (0 : Vec3).z = 0 := rfl

/-- Claim C10 helper: `create_icosphere` is guarded, the icosphere body is
evaluated only under `iterations ≤ 8`. -/
theorem create_icosphere_eq (iterations : Nat) :
    create_icosphere iterations =
      if iterations ≤ 8 then some (icosphereMesh iterations) else none := rfl

/-- Claim C10: `create_icosphere iterations` fails (the modelled panic,
`none`) exactly when `iterations > 8`, the guard firing before any mesh
construction; for `iterations ≤ 8` it returns a mesh. -/
theorem claim_C10 (iterations : Nat) :
    (8 < iterations → create_icosphere iterations = none) ∧
    (iterations ≤ 8 → create_icosphere iterations = some (icosphereMesh iterations)) := by
  constructor
  · intro h
    simp [create_icosphere, Nat.not_le.mpr h]
  · intro h
    simp [create_icosphere, h]

/-- Witness for claim C10, at `iterations = 9` (the panic side) and
`iterations = 0` (the in-range side). -/
theorem claim_C10_witness :
    (8 < 9 ∧ create_icosphere 9 = none) ∧
    (0 ≤ 8 ∧ create_icosphere 0 = some (icosphereMesh 0)) :=
  ⟨⟨by decide, (claim_C10 9).1 (by decide)⟩, ⟨by decide, (claim_C10 0).2 (by decide)⟩⟩

theorem countP_pos_getD {α : Type} (l : List α) (p : α → Bool) (d : α)
    (h : 0 < l.countP p) : ∃ j, j < l.length ∧ p (l.getD j d) = true := by
  obtain ⟨a, ha, hpa⟩ := List.countP_pos_iff.mp h
  obtain ⟨j, hj, rfl⟩ := List.mem_iff_getElem.mp ha
  exact ⟨j, hj, by rwa [List.getD_eq_getElem l d hj]⟩

theorem intersect_triangle_length (vertices : List Vec3) (indices : List Nat)
    (plane_point plane_normal : Vec3) :
    (intersect_triangle_with_plane vertices indices plane_point plane_normal).length =
      indices.length := by
  simp [intersect_triangle_with_plane]

theorem slotStep_isSome (tri : List Nat) (ints : List (Option Vec3)) (i : Nat)
    (vertices : List Vec3) (cache : Cache)
    (h : (ints.getD i none).isSome = true) :
    ((slotStep tri ints i vertices cache).1.2).isSome = true := by
  simp only [slotStep]
  split
  · simp
  · split
    · simp
    · rename_i hnone
      rw [hnone] at h
      simp at h

theorem buildSlots_length (tri : List Nat) (ints : List (Option Vec3))
    (ps : List Nat) (vertices : List Vec3) (cache : Cache) :
    (buildSlots tri ints ps vertices cache).1.length = ps.length := by
  induction ps generalizing vertices cache with
  | nil => rfl
  | cons i rest ih => simp [buildSlots, ih]

theorem buildSlots_isSome (tri : List Nat) (ints : List (Option Vec3))
    (ps : List Nat) (vertices : List Vec3) (cache : Cache) (k : Nat)
    (hk : k < ps.length)
    (h : (ints.getD (ps.getD k 0) none).isSome = true) :
    (((buildSlots tri ints ps vertices cache).1.getD k (0, none)).2).isSome = true := by
  induction ps generalizing vertices cache k with
  | nil => simp at hk
  | cons i rest ih =>
    cases k with
    | zero =>
      simp only [List.getD_cons_zero] at h
      simpa [buildSlots] using slotStep_isSome tri ints i vertices cache h
    | succ k =>
      simp only [List.getD_cons_succ] at h
      simp only [List.length_cons, Nat.succ_lt_succ_iff] at hk
      simpa [buildSlots] using
        ih (slotStep tri ints i vertices cache).2.1
          (slotStep tri ints i vertices cache).2.2 k hk h

theorem walkBack_none_step (slots : List (Nat × Option Nat)) (x n : Nat)
    (h : walkBack slots x (n + 1) = none) :
    (slots.getD x (0, none)).2 = none ∧ walkBack slots ((x + 2) % 3) n = none := by
  unfold walkBack at h
  rcases hs : (slots.getD x (0, none)).2 with _ | v
  · rw [hs] at h
    exact ⟨rfl, h⟩
  · rw [hs] at h
    simp at h

theorem walkBack_finds (slots : List (Nat × Option Nat)) (x j : Nat)
    (hx : x < 3) (hj : j < 3)
    (h : ((slots.getD j (0, none)).2).isSome = true) :
    (walkBack slots x 3).isSome = true := by
  by_contra hn
  have hnone : walkBack slots x 3 = none := by
    rcases hw : walkBack slots x 3 with _ | v
    · rfl
    · rw [hw] at hn
      simp at hn
  have h1 := walkBack_none_step slots x 2 hnone
  have h2 := walkBack_none_step slots ((x + 2) % 3) 1 h1.2
  have h3 := walkBack_none_step slots (((x + 2) % 3 + 2) % 3) 0 h2.2
  interval_cases x <;> interval_cases j <;> simp_all

theorem emitOne_of_walk (tri : List Nat) (slots : List (Nat × Option Nat)) (t : Nat)
    (h : (walkBack slots ((t + 2) % 3) 3).isSome = true) :
    ∃ l, emitOne tri slots t = some l ∧ l.length = 3 := by
  obtain ⟨v, hv⟩ := Option.isSome_iff_exists.mp h
  unfold emitOne
  rw [hv]
  exact ⟨_, rfl, rfl⟩

theorem emitTriangles_of_walks (tri : List Nat) (slots : List (Nat × Option Nat))
    (h : ∀ t, t < 3 → (walkBack slots ((t + 2) % 3) 3).isSome = true) :
    ∃ tris, emitTriangles tri slots = some tris ∧ tris.length = 9 := by
  obtain ⟨l0, h0, hl0⟩ := emitOne_of_walk tri slots 0 (h 0 (by decide))
  obtain ⟨l1, h1, hl1⟩ := emitOne_of_walk tri slots 1 (h 1 (by decide))
  obtain ⟨l2, h2, hl2⟩ := emitOne_of_walk tri slots 2 (h 2 (by decide))
  refine ⟨l0 ++ l1 ++ l2, ?_, by simp [hl0, hl1, hl2]⟩
  unfold emitTriangles
  rw [h0, h1, h2]

/-- Claim C5: a triangle is retriangulated exactly when strictly more
than one of its three edges intersects the plane; a triangle with at most
one edge intersection is passed through to the output index list
verbatim, with the vertex buffer and the intersection cache untouched. -/
theorem claim_C5 (plane_point plane_normal : Vec3) (vertices : List Vec3)
    (cache : Cache) (i1 i2 i3 : Nat) (rest : List Nat) :
    (needs_triangulation
        (intersect_triangle_with_plane vertices [i1, i2, i3] plane_point plane_normal) = true ↔
      1 < (intersect_triangle_with_plane vertices [i1, i2, i3] plane_point
            plane_normal).countP fun c => c.isSome) ∧
    ((intersect_triangle_with_plane vertices [i1, i2, i3] plane_point
        plane_normal).countP (fun c => c.isSome) ≤ 1 →
      clipTriangles plane_point plane_normal (i1 :: i2 :: i3 :: rest) vertices cache =
        (clipTriangles plane_point plane_normal rest vertices cache).map
          fun r => (r.1, r.2.1, [i1, i2, i3] ++ r.2.2)) := by
  constructor
  · exact decide_eq_true_iff
  · intro h
    have hneed : needs_triangulation
        (intersect_triangle_with_plane vertices [i1, i2, i3] plane_point plane_normal)
          = false := by
      simp [needs_triangulation, Nat.not_lt.mpr h]
    simp only [clipTriangles]
    rw [hneed]
    simp

/-- Witness for claim C5: with an empty vertex buffer all three edges
degenerate to the zero segment, which is epsilon-parallel to any plane,
so the triangle passes through unchanged. -/
theorem claim_C5_witness :
    (intersect_triangle_with_plane [] [0, 1, 2] ⟨0, 0, 0⟩ ⟨0, 0, 1⟩).countP
        (fun c => c.isSome) ≤ 1 ∧
    clipTriangles ⟨0, 0, 0⟩ ⟨0, 0, 1⟩ [0, 1, 2] [] [] =
      (clipTriangles ⟨0, 0, 0⟩ ⟨0, 0, 1⟩ [] [] []).map
        fun r => (r.1, r.2.1, [0, 1, 2] ++ r.2.2) := by
  have h : (intersect_triangle_with_plane [] [0, 1, 2] ⟨0, 0, 0⟩ ⟨0, 0, 1⟩).countP
      (fun c => c.isSome) ≤ 1 := by
    have : intersect_triangle_with_plane [] [0, 1, 2] ⟨0, 0, 0⟩ ⟨0, 0, 1⟩ =
        [none, none, none] := by
      simp only [intersect_triangle_with_plane, intersect_line_with_plane]
      norm_num [List.range_succ, dot, EPSILON]
    rw [this]
    decide
  exact ⟨h, (claim_C5 ⟨0, 0, 0⟩ ⟨0, 0, 1⟩ [] [] 0 1 2 []).2 h⟩

/-- Claim C6: when a triangle needs retriangulation (more than one edge
intersection), at least one of its three slots holds a defined
intersection vertex, the backward walk of every emission step terminates
with a defined slot, and exactly three new triangles (nine indices) are
emitted for the triangle. -/
theorem claim_C6 (plane_point plane_normal : Vec3) (vertices : List Vec3)
    (cache : Cache) (i1 i2 i3 : Nat) (rest : List Nat)
    (h : needs_triangulation
      (intersect_triangle_with_plane vertices [i1, i2, i3] plane_point plane_normal) = true) :
    (∃ j, j < 3 ∧
      ((((buildSlots [i1, i2, i3]
          (intersect_triangle_with_plane vertices [i1, i2, i3] plane_point plane_normal)
          [0, 1, 2] vertices cache).1.getD j (0, none)).2).isSome = true)) ∧
    (∃ tris, emitTriangles [i1, i2, i3]
        (buildSlots [i1, i2, i3]
          (intersect_triangle_with_plane vertices [i1, i2, i3] plane_point plane_normal)
          [0, 1, 2] vertices cache).1 = some tris ∧
      tris.length = 9 ∧
      clipTriangles plane_point plane_normal (i1 :: i2 :: i3 :: rest) vertices cache =
        (clipTriangles plane_point plane_normal rest
            (buildSlots [i1, i2, i3]
              (intersect_triangle_with_plane vertices [i1, i2, i3] plane_point plane_normal)
              [0, 1, 2] vertices cache).2.1
            (buildSlots [i1, i2, i3]
              (intersect_triangle_with_plane vertices [i1, i2, i3] plane_point plane_normal)
              [0, 1, 2] vertices cache).2.2).map
          fun r => (r.1, r.2.1, tris ++ r.2.2)) := by
  set ints := intersect_triangle_with_plane vertices [i1, i2, i3] plane_point plane_normal
    with hints
  have hcount : 1 < ints.countP fun c => c.isSome := decide_eq_true_iff.mp h
  obtain ⟨j, hj, hjs⟩ := countP_pos_getD ints (fun c => c.isSome) none
    (Nat.lt_of_lt_of_le Nat.zero_lt_one (Nat.le_of_lt hcount))
  have hlen3 : ints.length = 3 := by
    rw [hints]
    rw [intersect_triangle_length]
    rfl
  have hjlen : j < 3 := hlen3 ▸ hj
  have hget : ([0, 1, 2] : List Nat).getD j 0 = j := by
    interval_cases j <;> rfl
  have hslot := buildSlots_isSome [i1, i2, i3] ints [0, 1, 2] vertices cache j
    (by simpa using hjlen) (by rwa [hget])
  have hwalks : ∀ t, t < 3 →
      (walkBack (buildSlots [i1, i2, i3] ints [0, 1, 2] vertices cache).1
        ((t + 2) % 3) 3).isSome = true := by
    intro t ht
    exact walkBack_finds _ ((t + 2) % 3) j (Nat.mod_lt _ (by decide)) hjlen hslot
  obtain ⟨tris, htris, hlen⟩ := emitTriangles_of_walks [i1, i2, i3]
    (buildSlots [i1, i2, i3] ints [0, 1, 2] vertices cache).1 hwalks
  refine ⟨⟨j, hjlen, hslot⟩, tris, htris, hlen, ?_⟩
  simp only [clipTriangles]
  rw [← hints, h]
  simp only [if_true]
  rw [htris]

/-- Witness for claim C6: the triangle `(0,0,-1), (0,0,1), (1,0,1)` is cut
by the plane `z = 0` in two of its three edges. -/
theorem claim_C6_witness :
    needs_triangulation
      (intersect_triangle_with_plane [⟨0, 0, -1⟩, ⟨0, 0, 1⟩, ⟨1, 0, 1⟩] [0, 1, 2]
        ⟨0, 0, 0⟩ ⟨0, 0, 1⟩) = true ∧
    (∃ tris, emitTriangles [0, 1, 2]
        (buildSlots [0, 1, 2]
          (intersect_triangle_with_plane [⟨0, 0, -1⟩, ⟨0, 0, 1⟩, ⟨1, 0, 1⟩] [0, 1, 2]
            ⟨0, 0, 0⟩ ⟨0, 0, 1⟩)
          [0, 1, 2] [⟨0, 0, -1⟩, ⟨0, 0, 1⟩, ⟨1, 0, 1⟩] []).1 = some tris ∧
      tris.length = 9) := by
  have he0 : intersect_line_with_plane ⟨0, 0, -1⟩ ⟨0, 0, 1⟩ ⟨0, 0, 0⟩ ⟨0, 0, 1⟩ =
      some ⟨0, 0, 0⟩ := by
    simp only [intersect_line_with_plane, dot, sub_x, sub_y, sub_z]
    norm_num [EPSILON]
    ext <;> simp <;> norm_num
  have he1 : intersect_line_with_plane ⟨0, 0, 1⟩ ⟨1, 0, 1⟩ ⟨0, 0, 0⟩ ⟨0, 0, 1⟩ =
      none := by
    simp only [intersect_line_with_plane, dot, sub_x, sub_y, sub_z]
    norm_num [EPSILON]
  have he2 : intersect_line_with_plane ⟨1, 0, 1⟩ ⟨0, 0, -1⟩ ⟨0, 0, 0⟩ ⟨0, 0, 1⟩ =
      some ⟨1 / 2, 0, 0⟩ := by
    simp only [intersect_line_with_plane, dot, sub_x, sub_y, sub_z]
    norm_num [EPSILON]
    ext <;> simp <;> norm_num
  have hints : intersect_triangle_with_plane [⟨0, 0, -1⟩, ⟨0, 0, 1⟩, ⟨1, 0, 1⟩] [0, 1, 2]
      ⟨0, 0, 0⟩ ⟨0, 0, 1⟩ =
      [some ⟨0, 0, 0⟩, none, some ⟨1 / 2, 0, 0⟩] := by
    simp only [intersect_triangle_with_plane]
    norm_num [List.range_succ]
    exact ⟨he0, he1, he2⟩
  have h : needs_triangulation
      (intersect_triangle_with_plane [⟨0, 0, -1⟩, ⟨0, 0, 1⟩, ⟨1, 0, 1⟩] [0, 1, 2]
        ⟨0, 0, 0⟩ ⟨0, 0, 1⟩) = true := by
    rw [hints]
    rfl
  obtain ⟨hslots, tris, htris, hlen, _⟩ :=
    claim_C6 ⟨0, 0, 0⟩ ⟨0, 0, 1⟩ [⟨0, 0, -1⟩, ⟨0, 0, 1⟩, ⟨1, 0, 1⟩] [] 0 1 2 [] h
  exact ⟨h, tris, htris, hlen⟩

/-- Claim C4: for a directed edge `(l1, l2)` and a plane, the segment
intersection is `none` for an epsilon-parallel edge; otherwise, with
`t = n⬝(l1 - p) / -(n⬝(l2 - l1))`, it is the point `l1 + t • (l2 - l1)`
exactly when `0 ≤ t ≤ 1` and `none` when `t < 0` or `t > 1`. -/
theorem claim_C4 (l1 l2 plane_point plane_normal : Vec3) :
    (|dot plane_normal (l2 - l1)| ≤ EPSILON →
      intersect_line_with_plane l1 l2 plane_point plane_normal = none) ∧
    (EPSILON < |dot plane_normal (l2 - l1)| →
      (let t := dot plane_normal (l1 - plane_point) / -(dot plane_normal (l2 - l1))
       (0 ≤ t ∧ t ≤ 1 →
         intersect_line_with_plane l1 l2 plane_point plane_normal =
           some (l1 + t • (l2 - l1))) ∧
       (t < 0 ∨ 1 < t →
         intersect_line_with_plane l1 l2 plane_point plane_normal = none))) := by
  refine ⟨fun h => ?_, fun h => ⟨fun ht => ?_, fun ht => ?_⟩⟩
  · simp [intersect_line_with_plane, h]
  · have h' : ¬ |dot plane_normal (l2 - l1)| ≤ EPSILON := not_le.mpr h
    have ht' : ¬ (dot plane_normal (l1 - plane_point) / -(dot plane_normal (l2 - l1)) < 0 ∨
        1 < dot plane_normal (l1 - plane_point) / -(dot plane_normal (l2 - l1))) := by
      push_neg
      exact ⟨ht.1, ht.2⟩
    simp only [intersect_line_with_plane]
    rw [if_neg h', if_neg ht']
  · have h' : ¬ |dot plane_normal (l2 - l1)| ≤ EPSILON := not_le.mpr h
    simp only [intersect_line_with_plane]
    rw [if_neg h', if_pos ht]

/-- Witness for claim C4: the segment from `(0,0,-1)` to `(0,0,1)` meets
the plane `z = 0` at the origin with parameter `1/2`. -/
theorem claim_C4_witness :
    EPSILON < |dot ⟨0, 0, 1⟩ ((⟨0, 0, 1⟩ : Vec3) - ⟨0, 0, -1⟩)| ∧
    (0 : ℝ) ≤ dot ⟨0, 0, 1⟩ ((⟨0, 0, -1⟩ : Vec3) - ⟨0, 0, 0⟩) /
        -(dot ⟨0, 0, 1⟩ ((⟨0, 0, 1⟩ : Vec3) - ⟨0, 0, -1⟩)) ∧
    intersect_line_with_plane ⟨0, 0, -1⟩ ⟨0, 0, 1⟩ ⟨0, 0, 0⟩ ⟨0, 0, 1⟩ =
      some ((⟨0, 0, -1⟩ : Vec3) +
        (dot ⟨0, 0, 1⟩ ((⟨0, 0, -1⟩ : Vec3) - ⟨0, 0, 0⟩) /
          -(dot ⟨0, 0, 1⟩ ((⟨0, 0, 1⟩ : Vec3) - ⟨0, 0, -1⟩))) •
          ((⟨0, 0, 1⟩ : Vec3) - ⟨0, 0, -1⟩)) := by
  have hd : dot ⟨0, 0, 1⟩ ((⟨0, 0, 1⟩ : Vec3) - ⟨0, 0, -1⟩) = 2 := by
    simp [dot, Sub.sub]
    norm_num
  have hn : dot ⟨0, 0, 1⟩ ((⟨0, 0, -1⟩ : Vec3) - ⟨0, 0, 0⟩) = -1 := by
    simp [dot, Sub.sub]
  have heps : EPSILON < |dot ⟨0, 0, 1⟩ ((⟨0, 0, 1⟩ : Vec3) - ⟨0, 0, -1⟩)| := by
    rw [hd]
    rw [EPSILON]
    rw [abs_of_pos (by norm_num)]
    norm_num
  have ht0 : (0 : ℝ) ≤ dot ⟨0, 0, 1⟩ ((⟨0, 0, -1⟩ : Vec3) - ⟨0, 0, 0⟩) /
      -(dot ⟨0, 0, 1⟩ ((⟨0, 0, 1⟩ : Vec3) - ⟨0, 0, -1⟩)) := by
    rw [hd, hn]
    norm_num
  have ht1 : dot ⟨0, 0, 1⟩ ((⟨0, 0, -1⟩ : Vec3) - ⟨0, 0, 0⟩) /
      -(dot ⟨0, 0, 1⟩ ((⟨0, 0, 1⟩ : Vec3) - ⟨0, 0, -1⟩)) ≤ 1 := by
    rw [hd, hn]
    norm_num
  exact ⟨heps, ht0,
    (((claim_C4 ⟨0, 0, -1⟩ ⟨0, 0, 1⟩ ⟨0, 0, 0⟩ ⟨0, 0, 1⟩).2 heps).1 ⟨ht0, ht1⟩)⟩

theorem contains_iff_mem {a : Nat} {l : List Nat} : l.contains a = true ↔ a ∈ l := by
  simp

theorem removeLoop_eq (pred : Vec3 → Bool) (uvs : List UV) (vs : List Vec3) :
    ∀ (k : Nat) (removed offsets : List Nat) (nvs : List Vec3) (nuvs : List UV),
    removeLoop pred uvs (List.enumFrom k vs) removed offsets nvs nuvs =
      (removed ++ remPos pred k vs,
       offsets ++ offsEntries pred removed.length vs,
       nvs ++ vs.filter (fun v => !pred v),
       nuvs ++ uvPicks pred uvs k vs) := by
  induction vs with
  | nil => intro k removed offsets nvs nuvs; simp [removeLoop, remPos, offsEntries, uvPicks]
  | cons v vs ih =>
    intro k removed offsets nvs nuvs
    show removeLoop pred uvs ((k, v) :: List.enumFrom (k + 1) vs) removed offsets nvs nuvs = _
    by_cases hp : pred v = true
    · rw [removeLoop, if_pos hp, ih]
      simp [remPos, offsEntries, uvPicks, hp]
    · rw [removeLoop, if_neg hp, ih]
      simp only [Bool.not_eq_true] at hp
      simp [remPos, offsEntries, uvPicks, hp]

theorem remPos_mem (pred : Vec3 → Bool) (vs : List Vec3) :
    ∀ (k a : Nat), a ∈ remPos pred k vs ↔
      ∃ i, i < vs.length ∧ a = k + i ∧ pred (vs.getD i 0) = true := by
  induction vs with
  | nil => intro k a; simp [remPos]
  | cons v vs ih =>
    intro k a
    by_cases hp : pred v = true
    · rw [remPos, if_pos hp]
      constructor
      · intro h
        rcases List.mem_cons.mp h with rfl | h
        · exact ⟨0, by simp, by simp, by simpa⟩
        · obtain ⟨i, hi, rfl, hpi⟩ := (ih (k + 1) a).mp h
          exact ⟨i + 1, by simpa using hi, by omega, by simpa using hpi⟩
      · rintro ⟨i, hi, rfl, hpi⟩
        cases i with
        | zero => simp
        | succ i =>
          refine List.mem_cons_of_mem _ ((ih (k + 1) (k + (i + 1))).mpr ⟨i, ?_, by omega, ?_⟩)
          · simpa using hi
          · simpa using hpi
    · rw [remPos, if_neg hp]
      simp only [Bool.not_eq_true] at hp
      constructor
      · intro h
        obtain ⟨i, hi, rfl, hpi⟩ := (ih (k + 1) a).mp h
        exact ⟨i + 1, by simpa using hi, by omega, by simpa using hpi⟩
      · rintro ⟨i, hi, rfl, hpi⟩
        cases i with
        | zero => simp at hpi; rw [hp] at hpi; exact absurd hpi (by simp)
        | succ i =>
          refine (ih (k + 1) (k + (i + 1))).mpr ⟨i, ?_, by omega, ?_⟩
          · simpa using hi
          · simpa using hpi

theorem remPos_contains (pred : Vec3 → Bool) (vs : List Vec3) (a : Nat)
    (ha : a < vs.length) :
    (remPos pred 0 vs).contains a = pred (vs.getD a 0) := by
  by_cases hp : pred (vs.getD a 0) = true
  · rw [hp]
    exact contains_iff_mem.mpr ((remPos_mem pred vs 0 a).mpr ⟨a, ha, by omega, hp⟩)
  · simp only [Bool.not_eq_true] at hp
    rw [hp]
    rw [← Bool.not_eq_true]
    intro hc
    obtain ⟨i, hi, hai, hpi⟩ := (remPos_mem pred vs 0 a).mp (contains_iff_mem.mp hc)
    rw [show a = i by omega] at hp
    rw [hp] at hpi
    exact absurd hpi (by simp)

theorem offsEntries_getD (pred : Vec3 → Bool) (vs : List Vec3) :
    ∀ (c i : Nat), i < vs.length →
      (offsEntries pred c vs).getD i 0 = c + (vs.take (i + 1)).countP pred := by
  induction vs with
  | nil => intro c i hi; simp at hi
  | cons v vs ih =>
    intro c i hi
    by_cases hp : pred v = true
    · rw [offsEntries, if_pos hp]
      cases i with
      | zero => simp [List.countP_cons, hp]
      | succ i =>
        rw [List.getD_cons_succ, ih (c + 1) i (by simpa using hi)]
        simp [List.countP_cons, hp]
        omega
    · rw [offsEntries, if_neg hp]
      simp only [Bool.not_eq_true] at hp
      cases i with
      | zero => simp [List.countP_cons, hp]
      | succ i =>
        rw [List.getD_cons_succ, ih c i (by simpa using hi)]
        simp [List.countP_cons, hp]

theorem uvPicks_length (pred : Vec3 → Bool) (uvs : List UV) (vs : List Vec3) :
    ∀ (k : Nat), (uvPicks pred uvs k vs).length = (vs.filter (fun v => !pred v)).length := by
  induction vs with
  | nil => intro k; simp [uvPicks]
  | cons v vs ih =>
    intro k
    by_cases hp : pred v = true
    · rw [uvPicks, if_pos hp]
      simp [List.filter_cons, hp, ih]
    · rw [uvPicks, if_neg hp]
      simp only [Bool.not_eq_true] at hp
      simp [List.filter_cons, hp, ih]

theorem removeTris_tri3 (removed offsets : List Nat) :
    ∀ (I : List Nat),
    tri3 (removeTris removed offsets I) =
      ((tri3 I).filter (fun t => !removed.contains t.1 && !removed.contains t.2.1 &&
          !removed.contains t.2.2)).map
        (fun t => (t.1 - offsets.getD t.1 0, t.2.1 - offsets.getD t.2.1 0,
          t.2.2 - offsets.getD t.2.2 0))
  | a :: b :: c :: rest => by
    rw [removeTris]
    by_cases h : (!removed.contains a && !removed.contains b && !removed.contains c) = true
    · rw [if_pos h]
      show tri3 (_ :: _ :: _ :: removeTris removed offsets rest) = _
      rw [tri3, removeTris_tri3 removed offsets rest]
      rw [tri3, List.filter_cons]
      simp only [h]
      simp
    · rw [if_neg h]
      show tri3 (removeTris removed offsets rest) = _
      rw [removeTris_tri3 removed offsets rest]
      rw [tri3, List.filter_cons]
      simp only [Bool.not_eq_true] at h
      simp only [h]
      simp
  | [] => rfl
  | [a] => rfl
  | [a, b] => rfl

theorem tri3_mem_flat {I : List Nat} :
    ∀ {t : Nat × Nat × Nat}, t ∈ tri3 I → t.1 ∈ I ∧ t.2.1 ∈ I ∧ t.2.2 ∈ I := by
  induction I using tri3.induct with
  | case1 a b c rest ih =>
    intro t ht
    rcases List.mem_cons.mp ht with rfl | ht
    · exact ⟨by simp, by simp, by simp⟩
    · obtain ⟨h1, h2, h3⟩ := ih ht
      exact ⟨by simp [List.mem_cons, h1], by simp [List.mem_cons, h2],
        by simp [List.mem_cons, h3]⟩
  | case2 I h =>
    intro t ht
    rw [tri3] at ht
    · simp at ht
    · exact h

/-- Claim C8: after `remove_if`, the vertex buffer is exactly the
predicate-failing vertices in order, the surviving triangle list is
exactly the input triangles none of whose corners was removed, in order,
each corner shifted down by its removed-so-far offset (so winding is
preserved and no triangle references a removed vertex), and the UV array
stays parallel to the vertex buffer. -/
theorem claim_C8 (mesh : Mesh) (pred : Vec3 → Bool) (uvs : List UV)
    (huv : uvs.length = mesh.vertices.length)
    (hb : ∀ i ∈ mesh.indices, i < mesh.vertices.length) :
    (remove_if mesh pred uvs).1.vertices = mesh.vertices.filter (fun v => !pred v) ∧
    tri3 (remove_if mesh pred uvs).1.indices =
      ((tri3 mesh.indices).filter (fun t =>
        !pred (mesh.vertices.getD t.1 0) && !pred (mesh.vertices.getD t.2.1 0) &&
          !pred (mesh.vertices.getD t.2.2 0))).map (fun t =>
        (rankAfter pred mesh.vertices t.1, rankAfter pred mesh.vertices t.2.1,
          rankAfter pred mesh.vertices t.2.2)) ∧
    (remove_if mesh pred uvs).2.length = (remove_if mesh pred uvs).1.vertices.length := by
  have henum : mesh.vertices.enum = List.enumFrom 0 mesh.vertices := rfl
  have hloop := removeLoop_eq pred uvs mesh.vertices 0 [] [] [] []
  rw [← henum] at hloop
  have hv : (remove_if mesh pred uvs).1.vertices = mesh.vertices.filter (fun v => !pred v) := by
    simp [remove_if, hloop, construct_mesh]
  refine ⟨hv, ?_, ?_⟩
  · have hind : (remove_if mesh pred uvs).1.indices =
        removeTris (remPos pred 0 mesh.vertices) (offsEntries pred 0 mesh.vertices)
          mesh.indices := by
      simp [remove_if, hloop, construct_mesh]
    rw [hind, removeTris_tri3]
    have hcond : ∀ t ∈ tri3 mesh.indices,
        (!(remPos pred 0 mesh.vertices).contains t.1 &&
          !(remPos pred 0 mesh.vertices).contains t.2.1 &&
          !(remPos pred 0 mesh.vertices).contains t.2.2) =
        (!pred (mesh.vertices.getD t.1 0) && !pred (mesh.vertices.getD t.2.1 0) &&
          !pred (mesh.vertices.getD t.2.2 0)) := by
      intro t ht
      obtain ⟨h1, h2, h3⟩ := tri3_mem_flat ht
      rw [remPos_contains pred mesh.vertices t.1 (hb _ h1),
        remPos_contains pred mesh.vertices t.2.1 (hb _ h2),
        remPos_contains pred mesh.vertices t.2.2 (hb _ h3)]
    rw [List.filter_congr hcond]
    refine List.map_congr_left ?_
    intro t ht
    obtain ⟨h1, h2, h3⟩ := tri3_mem_flat (List.mem_of_mem_filter ht)
    rw [offsEntries_getD pred mesh.vertices 0 t.1 (hb _ h1),
      offsEntries_getD pred mesh.vertices 0 t.2.1 (hb _ h2),
      offsEntries_getD pred mesh.vertices 0 t.2.2 (hb _ h3)]
    simp [rankAfter]
  · have huvs : (remove_if mesh pred uvs).2 = uvPicks pred uvs 0 mesh.vertices := by
      simp [remove_if, hloop]
    rw [huvs, hv, uvPicks_length]

/-- Witness for claim C8, on a one-vertex mesh with a single degenerate
triangle and an everywhere-false predicate. -/
theorem claim_C8_witness :
    ([⟨0, 0⟩] : List UV).length = ([⟨0, 0, 0⟩] : List Vec3).length ∧
    (∀ i ∈ [0, 0, 0], i < ([⟨0, 0, 0⟩] : List Vec3).length) ∧
    (remove_if ⟨[⟨0, 0, 0⟩], [0, 0, 0]⟩ (fun _ => false) [⟨0, 0⟩]).1.vertices =
      ([⟨0, 0, 0⟩] : List Vec3).filter (fun v => !(fun _ => false) v) ∧
    (remove_if ⟨[⟨0, 0, 0⟩], [0, 0, 0]⟩ (fun _ => false) [⟨0, 0⟩]).2.length =
      (remove_if ⟨[⟨0, 0, 0⟩], [0, 0, 0]⟩ (fun _ => false) [⟨0, 0⟩]).1.vertices.length := by
  have h := claim_C8 ⟨[⟨0, 0, 0⟩], [0, 0, 0]⟩ (fun _ => false) [⟨0, 0⟩] rfl
    (by intro i hi; simp at hi; subst hi; norm_num)
  exact ⟨rfl, by intro i hi; simp at hi; subst hi; norm_num, h.1, h.2.2⟩

theorem phi_pos : 0 < phi := by
  rw [phi]
  have := Real.sqrt_nonneg 5
  linarith

theorem sqrt5_lt : Real.sqrt 5 < 9 / 4 := by
  nlinarith [Real.sq_sqrt (by norm_num : (0 : ℝ) ≤ 5), Real.sqrt_nonneg 5]

theorem phi_lt : phi < 13 / 8 := by
  rw [phi]
  have := sqrt5_lt
  linarith

theorem one_le_phi : 1 ≤ phi := by
  rw [phi]
  have h1 : 1 ≤ Real.sqrt 5 := by
    nlinarith [Real.sq_sqrt (by norm_num : (0 : ℝ) ≤ 5), Real.sqrt_nonneg 5]
  linarith

theorem absdiv_lt (c : ℝ) (hc : |c| ≤ phi) :
    |c / Real.sqrt (phi ^ 2 + 1)| < 99 / 100 := by
  have hL2 : Real.sqrt (phi ^ 2 + 1) ^ 2 = phi ^ 2 + 1 :=
    Real.sq_sqrt (by positivity)
  have hL0 : 0 ≤ Real.sqrt (phi ^ 2 + 1) := Real.sqrt_nonneg _
  have hLpos : 0 < Real.sqrt (phi ^ 2 + 1) := by
    nlinarith [phi_pos]
  have hφ2 : phi ^ 2 < (13 / 8) ^ 2 := by
    nlinarith [phi_pos, phi_lt]
  have hsq : (100 * phi) ^ 2 < (99 * Real.sqrt (phi ^ 2 + 1)) ^ 2 := by
    have hexp : (99 * Real.sqrt (phi ^ 2 + 1)) ^ 2 = 9801 * (phi ^ 2 + 1) := by
      rw [mul_pow, hL2]
      ring
    rw [hexp]
    nlinarith [hφ2]
  have key : 100 * phi < 99 * Real.sqrt (phi ^ 2 + 1) :=
    lt_of_pow_lt_pow_left 2 (by positivity) hsq
  rw [abs_div, abs_of_pos hLpos, div_lt_iff hLpos]
  nlinarith [hc, phi_pos]

theorem proj_bound (a b c : ℝ) (ha : |a| ≤ phi) (hb : |b| ≤ phi) (hc : |c| ≤ phi)
    (hsum : a * a + b * b + c * c = phi ^ 2 + 1) :
    |(project_to_unit_circle ⟨a, b, c⟩).x| < 99 / 100 ∧
    |(project_to_unit_circle ⟨a, b, c⟩).y| < 99 / 100 ∧
    |(project_to_unit_circle ⟨a, b, c⟩).z| < 99 / 100 := by
  have hx : project_to_unit_circle ⟨a, b, c⟩ =
      ⟨a / Real.sqrt (phi ^ 2 + 1), b / Real.sqrt (phi ^ 2 + 1),
       c / Real.sqrt (phi ^ 2 + 1)⟩ := by
    rw [project_to_unit_circle]
    dsimp only
    rw [hsum]
  rw [hx]
  exact ⟨absdiv_lt a ha, absdiv_lt b hb, absdiv_lt c hc⟩

theorem icosa_proj_bound :
    ∀ v ∈ icosahedronVertices.map project_to_unit_circle,
      |v.x| < 99 / 100 ∧ |v.y| < 99 / 100 ∧ |v.z| < 99 / 100 := by
  intro v hv
  obtain ⟨u, hu, rfl⟩ := List.mem_map.mp hv
  have habs_phi : |phi| ≤ phi := le_of_eq (abs_of_pos phi_pos)
  have habs_nphi : |(-phi)| ≤ phi := by
    rw [abs_neg]
    exact habs_phi
  have habs_one : |(1 : ℝ)| ≤ phi := by
    rw [abs_one]
    exact one_le_phi
  have habs_none : |(-1 : ℝ)| ≤ phi := by
    rw [abs_neg]
    exact habs_one
  have habs_zero : |(0 : ℝ)| ≤ phi := by
    rw [abs_zero]
    exact le_of_lt phi_pos
  fin_cases hu
  · exact proj_bound _ _ _ habs_nphi habs_one habs_zero (by ring)
  · exact proj_bound _ _ _ habs_nphi habs_none habs_zero (by ring)
  · exact proj_bound _ _ _ habs_phi habs_one habs_zero (by ring)
  · exact proj_bound _ _ _ habs_phi habs_none habs_zero (by ring)
  · exact proj_bound _ _ _ habs_zero habs_phi habs_one (by ring)
  · exact proj_bound _ _ _ habs_zero habs_phi habs_none (by ring)
  · exact proj_bound _ _ _ habs_zero habs_nphi habs_one (by ring)
  · exact proj_bound _ _ _ habs_zero habs_nphi habs_none (by ring)
  · exact proj_bound _ _ _ habs_none habs_zero habs_phi (by ring)
  · exact proj_bound _ _ _ habs_one habs_zero habs_phi (by ring)
  · exact proj_bound _ _ _ habs_none habs_zero habs_nphi (by ring)
  · exact proj_bound _ _ _ habs_one habs_zero habs_nphi (by ring)

theorem dot_sub_right (a b c : Vec3) : dot a (b - c) = dot a b - dot a c := by
  simp only [dot, sub_x, sub_y, sub_z]
  ring

theorem dot_smul_right (r : ℝ) (a b : Vec3) : dot a (r • b) = r * dot a b := by
  simp only [dot, smul_x, smul_y, smul_z]
  ring

theorem line_none (l1 l2 plane_point plane_normal : Vec3)
    (h1 : dot plane_normal (l1 - plane_point) < 0)
    (h2 : dot plane_normal (l2 - plane_point) < 0) :
    intersect_line_with_plane l1 l2 plane_point plane_normal = none := by
  rw [intersect_line_with_plane]
  dsimp only
  by_cases hd : |dot plane_normal (l2 - l1)| ≤ EPSILON
  · rw [if_pos hd]
  · rw [if_neg hd, if_pos]
    have hdd : dot plane_normal (l2 - l1) =
        dot plane_normal (l2 - plane_point) - dot plane_normal (l1 - plane_point) := by
      simp only [dot, sub_x, sub_y, sub_z]
      ring
    rcases lt_trichotomy (dot plane_normal (l2 - l1)) 0 with hlt | heq | hgt
    · left
      exact div_neg_of_neg_of_pos h1 (by linarith)
    · exfalso
      apply hd
      rw [heq, abs_zero, EPSILON]
      positivity
    · right
      rw [lt_div_iff_of_neg (by linarith : -dot plane_normal (l2 - l1) < 0)]
      rw [hdd]
      linarith

theorem intersect_triangle_none (vs : List Vec3) (i1 i2 i3 : Nat)
    (plane_point plane_normal : Vec3)
    (h1 : dot plane_normal (vs.getD i1 0 - plane_point) < 0)
    (h2 : dot plane_normal (vs.getD i2 0 - plane_point) < 0)
    (h3 : dot plane_normal (vs.getD i3 0 - plane_point) < 0) :
    intersect_triangle_with_plane vs [i1, i2, i3] plane_point plane_normal =
      [none, none, none] := by
  simp only [intersect_triangle_with_plane]
  norm_num [List.range_succ]
  exact ⟨line_none _ _ _ _ (by simpa using h1) (by simpa using h2),
    line_none _ _ _ _ (by simpa using h2) (by simpa using h3),
    line_none _ _ _ _ (by simpa using h3) (by simpa using h1)⟩

theorem clipTriangles_passthrough (plane_point plane_normal : Vec3) :
    ∀ (I : List Nat) (vs : List Vec3) (c : Cache), I.length % 3 = 0 →
    (∀ i : Nat, dot plane_normal (vs.getD i 0 - plane_point) < 0) →
    clipTriangles plane_point plane_normal I vs c = some (vs, c, I)
  | i1 :: i2 :: i3 :: rest, vs, c => by
    intro hmod hside
    have hints := intersect_triangle_none vs i1 i2 i3 plane_point plane_normal
      (hside i1) (hside i2) (hside i3)
    have hneeds : needs_triangulation
        (intersect_triangle_with_plane vs [i1, i2, i3] plane_point plane_normal)
          = false := by
      rw [hints]
      rfl
    simp only [clipTriangles]
    rw [hneeds]
    simp only [Bool.false_eq_true, if_false]
    rw [clipTriangles_passthrough plane_point plane_normal rest vs c
      (by simp only [List.length_cons] at hmod; omega) hside]
    rfl
  | [], vs, c => by
    intro _ _
    rfl
  | [a], vs, c => by
    intro hmod _
    simp at hmod
  | [a, b], vs, c => by
    intro hmod _
    simp at hmod

theorem intersect_passthrough (m : Mesh) (plane_point plane_normal : Vec3)
    (hmod : m.indices.length % 3 = 0)
    (hside : ∀ i : Nat, dot plane_normal (m.vertices.getD i 0 - plane_point) < 0) :
    intersect_mesh_with_plane m plane_point plane_normal = some m := by
  rw [intersect_mesh_with_plane,
    clipTriangles_passthrough plane_point plane_normal m.indices m.vertices [] hmod hside]
  rfl

theorem fill_circle_empty (m : Mesh) (center reference clockwise_normal : Vec3)
    (uvs : List UV) :
    fill_circle m (center, reference, clockwise_normal) m.vertices.length uvs =
      (⟨m.vertices ++ [center], m.indices⟩, uvs ++ [⟨1 / 2, 1 / 2⟩]) := by
  have hdup : fcDup m m.vertices.length = [] := by
    simp [fcDup]
  have hvert : fcVertices m m.vertices.length = m.vertices := by
    simp [fcVertices, hdup]
  have hring : fcRing m m.vertices.length = [] := by
    rw [fcRing, fcStart, hvert]
    simp
  have hsorted : fcSorted m center reference clockwise_normal m.vertices.length = [] := by
    rw [fcSorted, fcCounter, fcClockwise, hring]
    simp
  rw [fill_circle]
  dsimp only
  rw [hsorted, hvert, hdup]
  simp [construct_mesh]

theorem uvRemap_length (die_face circle_count : Nat) (uvs : List UV) :
    (uvRemap die_face circle_count uvs).length = uvs.length := by
  rw [uvRemap]
  generalize List.range' (uvs.length - circle_count - 1)
    (uvs.length - (uvs.length - circle_count - 1)) = L
  induction L generalizing uvs with
  | nil => rfl
  | cons a L ih =>
    rw [List.foldl_cons]
    rw [ih]
    exact List.length_set ..

theorem d6Face_easy (t : ℝ) (m : Mesh) (uvs : List UV) (die_face : Nat)
    (pn ref cw : Vec3) (ht : 0 < t) (hpn : dot pn pn = 1)
    (hside : ∀ v ∈ m.vertices, dot pn v < t) (hmod : m.indices.length % 3 = 0) :
    d6Face t (m, uvs) (die_face, pn, ref, cw) =
      some (⟨m.vertices ++ [t • pn], m.indices⟩,
        uvRemap die_face 0 (uvs ++ [⟨1 / 2, 1 / 2⟩])) := by
  have hclip : intersect_mesh_with_plane m (t • pn) pn = some m := by
    apply intersect_passthrough m (t • pn) pn hmod
    intro i
    rw [dot_sub_right, dot_smul_right, hpn, mul_one]
    by_cases hi : i < m.vertices.length
    · have hv : m.vertices.getD i 0 ∈ m.vertices := by
        rw [List.getD_eq_getElem _ _ hi]
        exact List.getElem_mem _
      have := hside _ hv
      linarith
    · rw [List.getD_eq_default _ _ (Nat.le_of_not_lt hi)]
      have hzero : dot pn (0 : Vec3) = 0 := by
        simp [dot]
      rw [hzero]
      linarith
  rw [d6Face]
  dsimp only
  rw [hclip]
  simp only [Option.map_some']
  rw [Nat.sub_self]
  simp only [List.replicate_zero, List.append_nil]
  rw [fill_circle_empty]

theorem remPos_all_false (pred : Vec3 → Bool) :
    ∀ (vs : List Vec3), (∀ v ∈ vs, pred v = false) → ∀ k, remPos pred k vs = [] := by
  intro vs
  induction vs with
  | nil => intro _ k; rfl
  | cons v vs ih =>
    intro h k
    rw [remPos, if_neg (by simp [h v (by simp)])]
    exact ih (fun w hw => h w (by simp [List.mem_cons, hw])) (k + 1)

theorem offsEntries_all_false (pred : Vec3 → Bool) :
    ∀ (vs : List Vec3), (∀ v ∈ vs, pred v = false) →
      offsEntries pred 0 vs = List.replicate vs.length 0 := by
  intro vs
  induction vs with
  | nil => intro _; rfl
  | cons v vs ih =>
    intro h
    rw [offsEntries, if_neg (by simp [h v (by simp)])]
    rw [ih (fun w hw => h w (by simp [List.mem_cons, hw]))]
    rfl

theorem getD_replicate_zero : ∀ (n i : Nat), (List.replicate n (0 : Nat)).getD i 0 = 0 := by
  intro n
  induction n with
  | zero => intro i; rfl
  | succ n ih =>
    intro i
    cases i with
    | zero => rfl
    | succ i => exact ih i

theorem removeTris_id (offsets : List Nat) (hoff : ∀ i, offsets.getD i 0 = 0) :
    ∀ (I : List Nat), I.length % 3 = 0 → removeTris [] offsets I = I
  | a :: b :: c :: rest => by
    intro hmod
    rw [removeTris]
    have hcont : ∀ x : Nat, (List.contains [] x) = false := fun x => rfl
    rw [if_pos (by rw [hcont a, hcont b, hcont c]; rfl)]
    rw [hoff a, hoff b, hoff c]
    rw [removeTris_id offsets hoff rest (by simp only [List.length_cons] at hmod; omega)]
    simp
  | [] => fun _ => rfl
  | [a] => by
    intro hmod
    simp at hmod
  | [a, b] => by
    intro hmod
    simp at hmod

theorem uvPicks_all_false (pred : Vec3 → Bool) (uvs : List UV) :
    ∀ (vs : List Vec3) (k : Nat), (∀ v ∈ vs, pred v = false) →
      uvs.length = k + vs.length → uvPicks pred uvs k vs = uvs.drop k := by
  intro vs
  induction vs with
  | nil =>
    intro k _ hlen
    simp only [List.length_nil] at hlen
    rw [uvPicks, List.drop_eq_nil_of_le (by omega)]
  | cons v vs ih =>
    intro k h hlen
    rw [uvPicks, if_neg (by simp [h v (by simp)])]
    rw [ih (k + 1) (fun w hw => h w (by simp [List.mem_cons, hw]))
      (by simp only [List.length_cons] at hlen; omega)]
    have hk : k < uvs.length := by
      simp only [List.length_cons] at hlen
      omega
    rw [List.drop_eq_getElem_cons hk, List.getD_eq_getElem _ _ hk]

theorem remove_if_id (m : Mesh) (pred : Vec3 → Bool) (uvs : List UV)
    (hv : ∀ v ∈ m.vertices, pred v = false) (hmod : m.indices.length % 3 = 0)
    (huv : uvs.length = m.vertices.length) :
    remove_if m pred uvs = (⟨m.vertices, m.indices⟩, uvs) := by
  have henum : m.vertices.enum = List.enumFrom 0 m.vertices := rfl
  have hloop := removeLoop_eq pred uvs m.vertices 0 [] [] [] []
  rw [← henum] at hloop
  rw [remove_if, hloop]
  dsimp only
  simp only [List.length_nil, List.nil_append]
  rw [remPos_all_false pred m.vertices hv 0, offsEntries_all_false pred m.vertices hv]
  rw [removeTris_id _ (getD_replicate_zero m.vertices.length) m.indices hmod]
  rw [uvPicks_all_false pred uvs m.vertices 0 hv (by omega)]
  rw [List.drop_zero, List.filter_eq_self.mpr (by
    intro v hvv
    simp [hv v hvv])]
  rfl

theorem foldlM_step {α σ : Type} (f : σ → α → Option σ) (s s' : σ) (a : α)
    (l : List α) (h : f s a = some s') :
    List.foldlM f s (a :: l) = List.foldlM f s' l := by
  rw [show List.foldlM f s (a :: l) = f s a >>= fun x => List.foldlM f x l from rfl]
  rw [h]
  rfl

theorem create_icosphere_zero :
    create_icosphere 0 = some (construct_mesh
      (icosahedronVertices.map project_to_unit_circle) icosahedronIndices) := by
  rw [create_icosphere, if_pos (by norm_num)]
  rfl

theorem axis_dots (v : Vec3)
    (hx : |v.x| < 99 / 100) (hy : |v.y| < 99 / 100) (hz : |v.z| < 99 / 100) :
    dot ⟨-1, 0, 0⟩ v < 99 / 100 ∧ dot ⟨1, 0, 0⟩ v < 99 / 100 ∧
    dot ⟨0, 1, 0⟩ v < 99 / 100 ∧ dot ⟨0, -1, 0⟩ v < 99 / 100 ∧
    dot ⟨0, 0, 1⟩ v < 99 / 100 ∧ dot ⟨0, 0, -1⟩ v < 99 / 100 := by
  rw [abs_lt] at hx hy hz
  refine ⟨?_, ?_, ?_, ?_, ?_, ?_⟩ <;> simp [dot] <;>
    linarith [hx.1, hx.2, hy.1, hy.2, hz.1, hz.2]

theorem create_d6_concrete (size : ℝ) :
    ∃ uvsF : List UV,
      create_d6 0 (99 / 100) size = some
        (construct_mesh
          (((icosahedronVertices.map project_to_unit_circle) ++
            [(99 / 100 : ℝ) • (⟨-1, 0, 0⟩ : Vec3), (99 / 100 : ℝ) • (⟨1, 0, 0⟩ : Vec3),
             (99 / 100 : ℝ) • (⟨0, 1, 0⟩ : Vec3), (99 / 100 : ℝ) • (⟨0, -1, 0⟩ : Vec3),
             (99 / 100 : ℝ) • (⟨0, 0, 1⟩ : Vec3), (99 / 100 : ℝ) • (⟨0, 0, -1⟩ : Vec3)]).map
            (fun v => (⟨v.x * (size / (2 * (99 / 100))),
              v.y * (size / (2 * (99 / 100))), v.z * (size / (2 * (99 / 100)))⟩ : Vec3)))
          icosahedronIndices, uvsF) := by
  have hbound := icosa_proj_bound
  have hmod60 : icosahedronIndices.length % 3 = 0 := by rfl
  have hV0len : (icosahedronVertices.map project_to_unit_circle).length = 12 := by
    rw [List.length_map]
    rfl
  have hax : ∀ v ∈ icosahedronVertices.map project_to_unit_circle,
      dot ⟨-1, 0, 0⟩ v < 99 / 100 ∧ dot ⟨1, 0, 0⟩ v < 99 / 100 ∧
      dot ⟨0, 1, 0⟩ v < 99 / 100 ∧ dot ⟨0, -1, 0⟩ v < 99 / 100 ∧
      dot ⟨0, 0, 1⟩ v < 99 / 100 ∧ dot ⟨0, 0, -1⟩ v < 99 / 100 := fun v hv =>
    axis_dots v (hbound v hv).1 (hbound v hv).2.1 (hbound v hv).2.2
  have hcd : ∀ pn pj : Vec3, dot pn pn = 1 → dot pn pj ≤ 0 →
      dot pn ((99 / 100 : ℝ) • pj) < 99 / 100 := by
    intro pn pj _ hd
    rw [dot_smul_right]
    nlinarith
  have hstep1 := d6Face_easy (99 / 100)
    ⟨icosahedronVertices.map project_to_unit_circle, icosahedronIndices⟩
    (List.replicate (icosahedronVertices.map project_to_unit_circle).length ⟨0, 0⟩)
    2 ⟨-1, 0, 0⟩ ⟨0, 0, 1⟩ ⟨0, -1, 0⟩ (by norm_num) (by norm_num [dot])
    (fun v hv => (hax v hv).1) hmod60
  have hstep2 := d6Face_easy (99 / 100)
    ⟨(icosahedronVertices.map project_to_unit_circle) ++
      [(99 / 100 : ℝ) • ⟨-1, 0, 0⟩], icosahedronIndices⟩
    (uvRemap 2 0 (List.replicate (icosahedronVertices.map
      project_to_unit_circle).length ⟨0, 0⟩ ++ [⟨1 / 2, 1 / 2⟩]))
    5 ⟨1, 0, 0⟩ ⟨0, 0, 1⟩ ⟨0, 1, 0⟩ (by norm_num) (by norm_num [dot])
    (by
      intro v hv
      simp only [List.mem_append, List.mem_singleton] at hv
      rcases hv with hv | rfl
      · exact (hax v hv).2.1
      · exact hcd _ _ (by norm_num [dot]) (by norm_num [dot]))
    hmod60
  have hstep3 := d6Face_easy (99 / 100)
    ⟨((icosahedronVertices.map project_to_unit_circle) ++
      [(99 / 100 : ℝ) • ⟨-1, 0, 0⟩]) ++ [(99 / 100 : ℝ) • ⟨1, 0, 0⟩],
      icosahedronIndices⟩
    (uvRemap 5 0 (uvRemap 2 0 (List.replicate (icosahedronVertices.map
      project_to_unit_circle).length ⟨0, 0⟩ ++ [⟨1 / 2, 1 / 2⟩]) ++ [⟨1 / 2, 1 / 2⟩]))
    6 ⟨0, 1, 0⟩ ⟨0, 0, -1⟩ ⟨1, 0, 0⟩ (by norm_num) (by norm_num [dot])
    (by
      intro v hv
      simp only [List.mem_append, List.mem_singleton] at hv
      rcases hv with (hv | rfl) | rfl
      · exact (hax v hv).2.2.1
      · exact hcd _ _ (by norm_num [dot]) (by norm_num [dot])
      · exact hcd _ _ (by norm_num [dot]) (by norm_num [dot]))
    hmod60
  have hstep4 := d6Face_easy (99 / 100)
    ⟨(((icosahedronVertices.map project_to_unit_circle) ++
      [(99 / 100 : ℝ) • ⟨-1, 0, 0⟩]) ++ [(99 / 100 : ℝ) • ⟨1, 0, 0⟩]) ++
      [(99 / 100 : ℝ) • ⟨0, 1, 0⟩], icosahedronIndices⟩
    (uvRemap 6 0 (uvRemap 5 0 (uvRemap 2 0 (List.replicate (icosahedronVertices.map
      project_to_unit_circle).length ⟨0, 0⟩ ++ [⟨1 / 2, 1 / 2⟩]) ++ [⟨1 / 2, 1 / 2⟩]) ++
      [⟨1 / 2, 1 / 2⟩]))
    1 ⟨0, -1, 0⟩ ⟨0, 0, 1⟩ ⟨1, 0, 0⟩ (by norm_num) (by norm_num [dot])
    (by
      intro v hv
      simp only [List.mem_append, List.mem_singleton] at hv
      rcases hv with ((hv | rfl) | rfl) | rfl
      · exact (hax v hv).2.2.2.1
      · exact hcd _ _ (by norm_num [dot]) (by norm_num [dot])
      · exact hcd _ _ (by norm_num [dot]) (by norm_num [dot])
      · exact hcd _ _ (by norm_num [dot]) (by norm_num [dot]))
    hmod60
  have hstep5 := d6Face_easy (99 / 100)
    ⟨((((icosahedronVertices.map project_to_unit_circle) ++
      [(99 / 100 : ℝ) • ⟨-1, 0, 0⟩]) ++ [(99 / 100 : ℝ) • ⟨1, 0, 0⟩]) ++
      [(99 / 100 : ℝ) • ⟨0, 1, 0⟩]) ++ [(99 / 100 : ℝ) • ⟨0, -1, 0⟩],
      icosahedronIndices⟩
    (uvRemap 1 0 (uvRemap 6 0 (uvRemap 5 0 (uvRemap 2 0 (List.replicate
      (icosahedronVertices.map project_to_unit_circle).length ⟨0, 0⟩ ++
      [⟨1 / 2, 1 / 2⟩]) ++ [⟨1 / 2, 1 / 2⟩]) ++ [⟨1 / 2, 1 / 2⟩]) ++ [⟨1 / 2, 1 / 2⟩]))
    4 ⟨0, 0, 1⟩ ⟨0, 1, 0⟩ ⟨1, 0, 0⟩ (by norm_num) (by norm_num [dot])
    (by
      intro v hv
      simp only [List.mem_append, List.mem_singleton] at hv
      rcases hv with (((hv | rfl) | rfl) | rfl) | rfl
      · exact (hax v hv).2.2.2.2.1
      · exact hcd _ _ (by norm_num [dot]) (by norm_num [dot])
      · exact hcd _ _ (by norm_num [dot]) (by norm_num [dot])
      · exact hcd _ _ (by norm_num [dot]) (by norm_num [dot])
      · exact hcd _ _ (by norm_num [dot]) (by norm_num [dot]))
    hmod60
  have hstep6 := d6Face_easy (99 / 100)
    ⟨(((((icosahedronVertices.map project_to_unit_circle) ++
      [(99 / 100 : ℝ) • ⟨-1, 0, 0⟩]) ++ [(99 / 100 : ℝ) • ⟨1, 0, 0⟩]) ++
      [(99 / 100 : ℝ) • ⟨0, 1, 0⟩]) ++ [(99 / 100 : ℝ) • ⟨0, -1, 0⟩]) ++
      [(99 / 100 : ℝ) • ⟨0, 0, 1⟩], icosahedronIndices⟩
    (uvRemap 4 0 (uvRemap 1 0 (uvRemap 6 0 (uvRemap 5 0 (uvRemap 2 0 (List.replicate
      (icosahedronVertices.map project_to_unit_circle).length ⟨0, 0⟩ ++
      [⟨1 / 2, 1 / 2⟩]) ++ [⟨1 / 2, 1 / 2⟩]) ++ [⟨1 / 2, 1 / 2⟩]) ++ [⟨1 / 2, 1 / 2⟩]) ++
      [⟨1 / 2, 1 / 2⟩]))
    3 ⟨0, 0, -1⟩ ⟨0, 1, 0⟩ ⟨-1, 0, 0⟩ (by norm_num) (by norm_num [dot])
    (by
      intro v hv
      simp only [List.mem_append, List.mem_singleton] at hv
      rcases hv with ((((hv | rfl) | rfl) | rfl) | rfl) | rfl
      · exact (hax v hv).2.2.2.2.2
      · exact hcd _ _ (by norm_num [dot]) (by norm_num [dot])
      · exact hcd _ _ (by norm_num [dot]) (by norm_num [dot])
      · exact hcd _ _ (by norm_num [dot]) (by norm_num [dot])
      · exact hcd _ _ (by norm_num [dot]) (by norm_num [dot])
      · exact hcd _ _ (by norm_num [dot]) (by norm_num [dot]))
    hmod60
  have hprune : ∀ v ∈ (((((icosahedronVertices.map project_to_unit_circle ++
      [(99 / 100 : ℝ) • ⟨-1, 0, 0⟩]) ++ [(99 / 100 : ℝ) • ⟨1, 0, 0⟩]) ++
      [(99 / 100 : ℝ) • ⟨0, 1, 0⟩]) ++ [(99 / 100 : ℝ) • ⟨0, -1, 0⟩]) ++
      [(99 / 100 : ℝ) • ⟨0, 0, 1⟩]) ++ [(99 / 100 : ℝ) • ⟨0, 0, -1⟩],
      d6Prune (99 / 100) v = false := by
    intro v hv
    simp only [List.mem_append, List.mem_singleton] at hv
    rcases hv with (((((hv | rfl) | rfl) | rfl) | rfl) | rfl) | rfl
    · have hb := hbound v hv
      rw [d6Prune, decide_eq_false_iff_not]
      push_neg
      exact ⟨hb.1.le, hb.2.1.le, hb.2.2.le⟩
    all_goals
      rw [d6Prune, decide_eq_false_iff_not]
    all_goals
      push_neg
    all_goals
      refine ⟨?_, ?_, ?_⟩ <;> (simp only [smul_x, smul_y, smul_z]; norm_num [abs_le])
  refine ⟨uvRemap 3 0 (uvRemap 4 0 (uvRemap 1 0 (uvRemap 6 0 (uvRemap 5 0
    (uvRemap 2 0 (List.replicate (icosahedronVertices.map
      project_to_unit_circle).length ⟨0, 0⟩ ++ [⟨1 / 2, 1 / 2⟩]) ++
      [⟨1 / 2, 1 / 2⟩]) ++ [⟨1 / 2, 1 / 2⟩]) ++ [⟨1 / 2, 1 / 2⟩]) ++
      [⟨1 / 2, 1 / 2⟩]) ++ [⟨1 / 2, 1 / 2⟩]), ?_⟩
  rw [create_d6, create_icosphere_zero]
  simp only [Option.some_bind]
  simp only [construct_mesh]
  simp only [orientations]
  rw [foldlM_step _ _ _ _ _ hstep1]
  dsimp only
  rw [foldlM_step _ _ _ _ _ hstep2]
  dsimp only
  rw [foldlM_step _ _ _ _ _ hstep3]
  dsimp only
  rw [foldlM_step _ _ _ _ _ hstep4]
  dsimp only
  rw [foldlM_step _ _ _ _ _ hstep5]
  dsimp only
  rw [foldlM_step _ _ _ _ _ hstep6]
  simp only [List.foldlM_nil, Option.pure_def, Option.map_some']
  rw [remove_if_id _ _ _ hprune hmod60 (by
    simp only [List.length_append, List.length_cons, List.length_nil,
      uvRemap_length, List.length_replicate, hV0len])]
  dsimp only
  simp only [construct_mesh, List.append_assoc, List.singleton_append,
    List.cons_append, List.nil_append]

theorem remove_if_vertices (mesh : Mesh) (pred : Vec3 → Bool) (uvs : List UV) :
    (remove_if mesh pred uvs).1.vertices = mesh.vertices.filter (fun v => !pred v) := by
  have henum : mesh.vertices.enum = List.enumFrom 0 mesh.vertices := rfl
  have hloop := removeLoop_eq pred uvs mesh.vertices 0 [] [] [] []
  rw [← henum] at hloop
  simp [remove_if, hloop, construct_mesh]

/-- Claim C3, amended to nonnegative `size` (for negative `size` the
stated bound `|coordinate| ≤ size/2` fails, see the counterexample): for
every depth, `threshold ∈ (0, 1)` and `size ≥ 0`, every vertex of a mesh
returned by `create_d6` has each coordinate magnitude at most `size / 2`:
the terminal prune keeps exactly the vertices with every coordinate
magnitude at most `threshold`, and the scale `size / (2 * threshold)`
maps the threshold boundary to `size / 2`. -/
theorem claim_C3 (depth : Nat) (threshold size : ℝ) (m : Mesh) (uvs : List UV)
    (ht0 : 0 < threshold) (ht1 : threshold < 1) (hs : 0 ≤ size)
    (h : create_d6 depth threshold size = some (m, uvs)) :
    ∀ v ∈ m.vertices, |v.x| ≤ size / 2 ∧ |v.y| ≤ size / 2 ∧ |v.z| ≤ size / 2 := by
  unfold create_d6 at h
  rcases hic : create_icosphere depth with _ | base <;> rw [hic] at h
  · exact absurd h (by simp)
  simp only [Option.some_bind] at h
  rcases hfold : orientations.foldlM (d6Face threshold)
      (base, List.replicate base.vertices.length (⟨0, 0⟩ : UV)) with _ | r <;>
    rw [hfold] at h
  · exact absurd h (by simp)
  have h2 : some
      (construct_mesh
        ((remove_if r.1 (d6Prune threshold) r.2).1.vertices.map fun v =>
          ⟨v.x * (size / (2 * threshold)), v.y * (size / (2 * threshold)),
            v.z * (size / (2 * threshold))⟩)
        (remove_if r.1 (d6Prune threshold) r.2).1.indices,
       (remove_if r.1 (d6Prune threshold) r.2).2) = some (m, uvs) := h
  have h3 := Option.some.inj h2
  have hm : construct_mesh
      ((remove_if r.1 (d6Prune threshold) r.2).1.vertices.map fun v =>
        ⟨v.x * (size / (2 * threshold)), v.y * (size / (2 * threshold)),
          v.z * (size / (2 * threshold))⟩)
      (remove_if r.1 (d6Prune threshold) r.2).1.indices = m :=
    congrArg Prod.fst h3
  intro v hv
  rw [← hm] at hv
  have hv' : v ∈ (remove_if r.1 (d6Prune threshold) r.2).1.vertices.map fun v =>
      (⟨v.x * (size / (2 * threshold)), v.y * (size / (2 * threshold)),
        v.z * (size / (2 * threshold))⟩ : Vec3) := hv
  obtain ⟨w, hw, rfl⟩ := List.mem_map.mp hv'
  rw [remove_if_vertices] at hw
  have hpw : d6Prune threshold w = false := by
    have h4 := (List.mem_filter.mp hw).2
    simpa using h4
  have hwb : |w.x| ≤ threshold ∧ |w.y| ≤ threshold ∧ |w.z| ≤ threshold := by
    rw [d6Prune] at hpw
    have hnot := of_decide_eq_false hpw
    push_neg at hnot
    exact ⟨hnot.1, hnot.2.1, hnot.2.2⟩
  have hsf : 0 ≤ size / (2 * threshold) := by
    apply div_nonneg hs
    linarith
  have hbound : ∀ c : ℝ, |c| ≤ threshold → |c * (size / (2 * threshold))| ≤ size / 2 := by
    intro c hc
    rw [abs_mul, abs_of_nonneg hsf]
    have h1 : |c| * (size / (2 * threshold)) ≤ threshold * (size / (2 * threshold)) :=
      mul_le_mul_of_nonneg_right hc hsf
    have h2 : threshold * (size / (2 * threshold)) = size / 2 := by
      field_simp
      ring
    linarith
  exact ⟨hbound w.x hwb.1, hbound w.y hwb.2.1, hbound w.z hwb.2.2⟩

/-- Counterexample to claim C3 as frozen, which quantifies over every real
`size`: at `depth = 0`, `threshold = 99/100` and `size = -1` the clip
planes miss the icosahedron entirely, each cap contributes only its center
vertex `(99/100) • planeNormal`, the prune removes nothing, and the first
rescaled center vertex is `(1/2, 0, 0)`, whose `|x| = 1/2` exceeds
`size / 2 = -1/2`. -/
theorem claim_C3_counterexample :
    ¬ (∀ (depth : Nat) (threshold size : ℝ) (m : Mesh) (uvs : List UV),
        0 < threshold → threshold < 1 →
        create_d6 depth threshold size = some (m, uvs) →
        ∀ v ∈ m.vertices,
          |v.x| ≤ size / 2 ∧ |v.y| ≤ size / 2 ∧ |v.z| ≤ size / 2) := by
  intro h
  obtain ⟨uvsF, heq⟩ := create_d6_concrete (-1)
  have hb := h 0 (99 / 100) (-1) _ uvsF (by norm_num) (by norm_num) heq
  have hmem0 : ((99 / 100 : ℝ) • (⟨-1, 0, 0⟩ : Vec3)) ∈
      (icosahedronVertices.map project_to_unit_circle) ++
        [(99 / 100 : ℝ) • (⟨-1, 0, 0⟩ : Vec3), (99 / 100 : ℝ) • (⟨1, 0, 0⟩ : Vec3),
         (99 / 100 : ℝ) • (⟨0, 1, 0⟩ : Vec3), (99 / 100 : ℝ) • (⟨0, -1, 0⟩ : Vec3),
         (99 / 100 : ℝ) • (⟨0, 0, 1⟩ : Vec3), (99 / 100 : ℝ) • (⟨0, 0, -1⟩ : Vec3)] :=
    List.mem_append_right _ (by simp)
  have hmem := List.mem_map_of_mem
    (fun v : Vec3 => (⟨v.x * ((-1 : ℝ) / (2 * (99 / 100))),
      v.y * ((-1 : ℝ) / (2 * (99 / 100))),
      v.z * ((-1 : ℝ) / (2 * (99 / 100)))⟩ : Vec3)) hmem0
  have hx := (hb _ hmem).1
  have hx' : |((99 / 100 : ℝ) * (-1)) * ((-1 : ℝ) / (2 * (99 / 100)))| ≤
      (-1 : ℝ) / 2 := hx
  norm_num [abs_le] at hx'

/-- Witness for claim C3 at `depth = 0`, `threshold = 99/100`,
`size = 1`: all hypotheses hold and the bound follows. -/
theorem claim_C3_witness :
    (0 : ℝ) < 99 / 100 ∧ (99 / 100 : ℝ) < 1 ∧ (0 : ℝ) ≤ 1 ∧
    ∃ m uvs, create_d6 0 (99 / 100) 1 = some (m, uvs) ∧
      ∀ v ∈ m.vertices, |v.x| ≤ 1 / 2 ∧ |v.y| ≤ 1 / 2 ∧ |v.z| ≤ 1 / 2 := by
  obtain ⟨uvsF, heq⟩ := create_d6_concrete 1
  refine ⟨by norm_num, by norm_num, by norm_num, _, uvsF, heq, ?_⟩
  intro v hv
  have hres := claim_C3 0 (99 / 100) 1 _ uvsF (by norm_num) (by norm_num)
    (by norm_num) heq v hv
  simpa using hres

theorem fanFold_fst (vertices : List Vec3) (sorted : List Nat)
    (counter_len center_index : Nat) (center reference : Vec3) :
    ∀ (L : List Nat) (I : List Nat) (U : List UV),
    (L.foldl (fanStep vertices sorted counter_len center_index center reference)
        (I, U)).1 =
      I ++ L.flatMap (fun i => [sorted.getD i 0,
        sorted.getD ((i + 1) % sorted.length) 0, center_index]) := by
  intro L
  induction L with
  | nil => intro I U; simp
  | cons a L ih =>
    intro I U
    rw [List.foldl_cons]
    show (L.foldl _ (I ++ [sorted.getD a 0, sorted.getD ((a + 1) % sorted.length) 0,
      center_index], _)).1 = _
    rw [ih]
    simp

theorem fanFold_snd_length (vertices : List Vec3) (sorted : List Nat)
    (counter_len center_index : Nat) (center reference : Vec3) :
    ∀ (L : List Nat) (I : List Nat) (U : List UV),
    (L.foldl (fanStep vertices sorted counter_len center_index center reference)
        (I, U)).2.length = U.length := by
  intro L
  induction L with
  | nil => intro I U; rfl
  | cons a L ih =>
    intro I U
    rw [List.foldl_cons]
    show (L.foldl _ (_, List.set U _ _)).2.length = _
    rw [ih]
    exact List.length_set ..

theorem fcDup_length (mesh : Mesh) (start_index n : Nat)
    (hlen : mesh.vertices.length = start_index + n) :
    (fcDup mesh start_index).length = n := by
  simp [fcDup, hlen]

theorem fcSorted_length (mesh : Mesh) (center reference clockwise_normal : Vec3)
    (start_index n : Nat) (hlen : mesh.vertices.length = start_index + n) :
    (fcSorted mesh center reference clockwise_normal start_index).length = n := by
  have hring : (fcRing mesh start_index).length = n := by
    simp [fcRing, fcStart, fcVertices, fcDup, hlen]
  rw [fcSorted, List.length_append, fcCounter, fcClockwise,
    List.length_mergeSort, List.length_mergeSort]
  rw [← List.countP_eq_length_filter, ← List.countP_eq_length_filter]
  have hsplit := List.length_eq_countP_add_countP
    (isClockwise (fcVertices mesh start_index) center clockwise_normal)
    (fcRing mesh start_index)
  have hfun : (fun a => decide (¬ isClockwise (fcVertices mesh start_index) center
      clockwise_normal a = true)) =
      (fun index => !isClockwise (fcVertices mesh start_index) center
        clockwise_normal index) := by
    funext a
    cases h : isClockwise (fcVertices mesh start_index) center clockwise_normal a <;>
      simp [h]
  rw [hfun] at hsplit
  omega

theorem lookup_mem {α β : Type} [BEq α] [LawfulBEq α] :
    ∀ {l : List (α × β)} {k : α} {v : β}, l.lookup k = some v → (k, v) ∈ l
  | [], k, v, h => by simp [List.lookup] at h
  | (k', v') :: l, k, v, h => by
    rw [List.lookup] at h
    rcases hbe : k == k' with _ | _
    · rw [hbe] at h
      exact List.mem_cons_of_mem _ (lookup_mem h)
    · rw [hbe] at h
      obtain rfl : v' = v := by simpa using h
      obtain rfl : k = k' := eq_of_beq hbe
      exact List.mem_cons_self _ _

theorem slotStep_grow (tri : List Nat) (ints : List (Option Vec3)) (i : Nat)
    (vs : List Vec3) (c : Cache) :
    ∃ t, (slotStep tri ints i vs c).2.1 = vs ++ t := by
  simp only [slotStep]
  split
  · exact ⟨[], (List.append_nil vs).symm⟩
  · split
    · exact ⟨[_], rfl⟩
    · exact ⟨[], (List.append_nil vs).symm⟩

theorem slotStep_cache (tri : List Nat) (ints : List (Option Vec3)) (i : Nat)
    (vs : List Vec3) (c : Cache) (hc : ∀ kv ∈ c, kv.2 < vs.length) :
    ∀ kv ∈ (slotStep tri ints i vs c).2.2,
      kv.2 < (slotStep tri ints i vs c).2.1.length := by
  simp only [slotStep]
  split
  · exact hc
  · split
    · intro kv hkv
      rcases List.mem_cons.mp hkv with rfl | hkv
      · simp
      · have := hc kv hkv
        simp only [List.length_append, List.length_cons, List.length_nil]
        omega
    · exact hc

theorem slotStep_slot_lt (tri : List Nat) (ints : List (Option Vec3)) (i : Nat)
    (vs : List Vec3) (c : Cache) (hc : ∀ kv ∈ c, kv.2 < vs.length) :
    ∀ v, (slotStep tri ints i vs c).1.2 = some v →
      v < (slotStep tri ints i vs c).2.1.length := by
  simp only [slotStep]
  split
  · rename_i index hl
    intro v hv
    obtain rfl : index = v := by simpa using hv
    exact hc _ (lookup_mem hl)
  · split
    · intro v hv
      obtain rfl : vs.length = v := by simpa using hv
      simp
    · intro v hv
      simp at hv

theorem buildSlots_state (tri : List Nat) (ints : List (Option Vec3)) :
    ∀ (ps : List Nat) (vs : List Vec3) (c : Cache),
    (∀ kv ∈ c, kv.2 < vs.length) →
    (∃ t, (buildSlots tri ints ps vs c).2.1 = vs ++ t) ∧
    (∀ kv ∈ (buildSlots tri ints ps vs c).2.2,
      kv.2 < (buildSlots tri ints ps vs c).2.1.length) ∧
    (∀ s ∈ (buildSlots tri ints ps vs c).1, ∀ v, s.2 = some v →
      v < (buildSlots tri ints ps vs c).2.1.length) ∧
    (∀ s ∈ (buildSlots tri ints ps vs c).1, ∃ i ∈ ps, s.1 = tri.getD i 0) := by
  intro ps
  induction ps with
  | nil =>
    intro vs c hc
    exact ⟨⟨[], (List.append_nil vs).symm⟩, hc, by simp [buildSlots], by simp [buildSlots]⟩
  | cons i rest ih =>
    intro vs c hc
    obtain ⟨t1, ht1⟩ := slotStep_grow tri ints i vs c
    have hc1 := slotStep_cache tri ints i vs c hc
    have hslot1 := slotStep_slot_lt tri ints i vs c hc
    obtain ⟨⟨t2, ht2⟩, hc2, hslots2, hfst2⟩ :=
      ih (slotStep tri ints i vs c).2.1 (slotStep tri ints i vs c).2.2 hc1
    have hmono : (slotStep tri ints i vs c).2.1.length ≤
        (buildSlots tri ints (i :: rest) vs c).2.1.length := by
      show _ ≤ (buildSlots tri ints rest (slotStep tri ints i vs c).2.1
        (slotStep tri ints i vs c).2.2).2.1.length
      rw [ht2, List.length_append]
      omega
    refine ⟨?_, ?_, ?_, ?_⟩
    · refine ⟨t1 ++ t2, ?_⟩
      show (buildSlots tri ints rest _ _).2.1 = _
      rw [ht2, ht1, List.append_assoc]
    · exact hc2
    · intro s hs v hv
      rcases List.mem_cons.mp hs with rfl | hs
      · exact Nat.lt_of_lt_of_le (hslot1 v hv) hmono
      · exact hslots2 s hs v hv
    · intro s hs
      rcases List.mem_cons.mp hs with rfl | hs
      · refine ⟨i, by simp, ?_⟩
        simp only [slotStep]
        split
        · rfl
        · split
          · rfl
          · rfl
      · obtain ⟨j, hj, hsj⟩ := hfst2 s hs
        exact ⟨j, List.mem_cons_of_mem _ hj, hsj⟩

theorem walkBack_mem_slots (slots : List (Nat × Option Nat)) :
    ∀ (fuel x v : Nat), walkBack slots x fuel = some v →
      ∃ s ∈ slots, s.2 = some v := by
  intro fuel
  induction fuel with
  | zero => intro x v h; simp [walkBack] at h
  | succ fuel ih =>
    intro x v h
    rw [walkBack] at h
    rcases hs : (slots.getD x (0, none)).2 with _ | w
    · rw [hs] at h
      exact ih _ v h
    · rw [hs] at h
      obtain rfl : w = v := by simpa using h
      by_cases hx : x < slots.length
      · refine ⟨slots[x], List.getElem_mem _, ?_⟩
        rwa [List.getD_eq_getElem _ _ hx] at hs
      · rw [List.getD_eq_default _ _ (Nat.le_of_not_lt hx)] at hs
        simp at hs

theorem emitOne_bounds (tri : List Nat) (slots : List (Nat × Option Nat)) (t : Nat)
    (vsLen : Nat) (l : List Nat) (h : emitOne tri slots t = some l) (ht : t < 3)
    (htri3 : tri.length = 3) (hslen : slots.length = 3)
    (htri : ∀ x ∈ tri, x < vsLen)
    (hslots : ∀ s ∈ slots, ∀ v, s.2 = some v → v < vsLen)
    (hfst : ∀ s ∈ slots, s.1 ∈ tri) :
    ∀ j ∈ l, j < vsLen := by
  unfold emitOne at h
  rcases hw : walkBack slots ((t + 2) % 3) 3 with _ | i3
  · rw [hw] at h
    simp at h
  · rw [hw] at h
    have hl : some [tri.getD t 0,
        (match (slots.getD t (0, none)).2 with
         | some index => index
         | none => (slots.getD ((t + 1) % 3) (0, none)).1), i3] = some l := h
    obtain rfl : _ = l := Option.some.inj hl
    intro j hj
    rcases List.mem_cons.mp hj with rfl | hj
    · refine htri _ ?_
      rw [List.getD_eq_getElem _ _ (by omega)]
      exact List.getElem_mem _
    rcases List.mem_cons.mp hj with rfl | hj
    · rcases hs : (slots.getD t (0, none)).2 with _ | v
      · have hmem : slots.getD ((t + 1) % 3) (0, none) ∈ slots := by
          rw [List.getD_eq_getElem _ _ (by omega)]
          exact List.getElem_mem _
        exact htri _ (hfst _ hmem)
      · have hmem : slots.getD t (0, none) ∈ slots := by
          rw [List.getD_eq_getElem _ _ (by omega)]
          exact List.getElem_mem _
        exact hslots _ hmem v hs
    rcases List.mem_cons.mp hj with rfl | hj
    · obtain ⟨s, hsmem, hsv⟩ := walkBack_mem_slots slots 3 ((t + 2) % 3) _ hw
      exact hslots s hsmem _ hsv
    · simp at hj

theorem emitTriangles_bounds (tri : List Nat) (slots : List (Nat × Option Nat))
    (vsLen : Nat) (tris : List Nat) (h : emitTriangles tri slots = some tris)
    (htri3 : tri.length = 3) (hslen : slots.length = 3)
    (htri : ∀ x ∈ tri, x < vsLen)
    (hslots : ∀ s ∈ slots, ∀ v, s.2 = some v → v < vsLen)
    (hfst : ∀ s ∈ slots, s.1 ∈ tri) :
    (∀ j ∈ tris, j < vsLen) ∧ tris.length = 9 := by
  unfold emitTriangles at h
  rcases h0 : emitOne tri slots 0 with _ | l0 <;> rw [h0] at h
  · simp at h
  rcases h1 : emitOne tri slots 1 with _ | l1 <;> rw [h1] at h
  · simp at h
  rcases h2 : emitOne tri slots 2 with _ | l2 <;> rw [h2] at h
  · simp at h
  obtain rfl : l0 ++ l1 ++ l2 = tris := by simpa using h
  constructor
  · intro j hj
    rcases List.mem_append.mp hj with hj | hj
    · rcases List.mem_append.mp hj with hj | hj
      · exact emitOne_bounds tri slots 0 vsLen l0 h0 (by decide) htri3 hslen htri
          hslots hfst j hj
      · exact emitOne_bounds tri slots 1 vsLen l1 h1 (by decide) htri3 hslen htri
          hslots hfst j hj
    · exact emitOne_bounds tri slots 2 vsLen l2 h2 (by decide) htri3 hslen htri
        hslots hfst j hj
  · have e0' : l0.length = 3 := by
      have hw0 : ∀ lx, emitOne tri slots 0 = some lx → lx.length = 3 := by
        intro lx hlx
        unfold emitOne at hlx
        rcases hww : walkBack slots ((0 + 2) % 3) 3 with _ | w <;> rw [hww] at hlx
        · simp at hlx
        · obtain rfl : _ = lx := by simpa using hlx
          rfl
      exact hw0 l0 h0
    have e1' : l1.length = 3 := by
      have hw1 : ∀ lx, emitOne tri slots 1 = some lx → lx.length = 3 := by
        intro lx hlx
        unfold emitOne at hlx
        rcases hww : walkBack slots ((1 + 2) % 3) 3 with _ | w <;> rw [hww] at hlx
        · simp at hlx
        · obtain rfl : _ = lx := by simpa using hlx
          rfl
      exact hw1 l1 h1
    have e2' : l2.length = 3 := by
      have hw2 : ∀ lx, emitOne tri slots 2 = some lx → lx.length = 3 := by
        intro lx hlx
        unfold emitOne at hlx
        rcases hww : walkBack slots ((2 + 2) % 3) 3 with _ | w <;> rw [hww] at hlx
        · simp at hlx
        · obtain rfl : _ = lx := by simpa using hlx
          rfl
      exact hw2 l2 h2
    simp [e0', e1', e2']

theorem clipTriangles_inv (plane_point plane_normal : Vec3) :
    ∀ (I : List Nat) (vs : List Vec3) (c : Cache),
    (∀ i ∈ I, i < vs.length) → (∀ kv ∈ c, kv.2 < vs.length) →
    ∀ r, clipTriangles plane_point plane_normal I vs c = some r →
      (∃ t, r.1 = vs ++ t) ∧ (∀ i ∈ r.2.2, i < r.1.length) ∧ r.2.2.length % 3 = 0
  | i1 :: i2 :: i3 :: rest, vs, c => by
    intro hI hc r hr
    simp only [clipTriangles] at hr
    by_cases hn : needs_triangulation
        (intersect_triangle_with_plane vs [i1, i2, i3] plane_point plane_normal) = true
    · rw [if_pos hn] at hr
      rcases hemit : emitTriangles [i1, i2, i3]
          (buildSlots [i1, i2, i3]
            (intersect_triangle_with_plane vs [i1, i2, i3] plane_point plane_normal)
            [0, 1, 2] vs c).1 with _ | tris
      · rw [hemit] at hr
        exact absurd hr (by simp)
      · rw [hemit] at hr
        replace hr : (clipTriangles plane_point plane_normal rest
            (buildSlots [i1, i2, i3]
              (intersect_triangle_with_plane vs [i1, i2, i3] plane_point plane_normal)
              [0, 1, 2] vs c).2.1
            (buildSlots [i1, i2, i3]
              (intersect_triangle_with_plane vs [i1, i2, i3] plane_point plane_normal)
              [0, 1, 2] vs c).2.2).map
            (fun r => (r.1, r.2.1, tris ++ r.2.2)) = some r := hr
        rcases hrec : clipTriangles plane_point plane_normal rest
            (buildSlots [i1, i2, i3]
              (intersect_triangle_with_plane vs [i1, i2, i3] plane_point plane_normal)
              [0, 1, 2] vs c).2.1
            (buildSlots [i1, i2, i3]
              (intersect_triangle_with_plane vs [i1, i2, i3] plane_point plane_normal)
              [0, 1, 2] vs c).2.2 with _ | r' <;> rw [hrec] at hr
        · exact absurd hr (by simp)
        obtain rfl : (r'.1, r'.2.1, tris ++ r'.2.2) = r := by simpa using hr
        obtain ⟨⟨t1, ht1⟩, hcache, hslots, hfst⟩ := buildSlots_state [i1, i2, i3]
          (intersect_triangle_with_plane vs [i1, i2, i3] plane_point plane_normal)
          [0, 1, 2] vs c hc
        have hlen1 : vs.length ≤ (buildSlots [i1, i2, i3]
            (intersect_triangle_with_plane vs [i1, i2, i3] plane_point plane_normal)
            [0, 1, 2] vs c).2.1.length := by
          rw [ht1, List.length_append]
          omega
        obtain ⟨⟨t2, ht2⟩, hbounds', hmod⟩ := clipTriangles_inv plane_point plane_normal
          rest _ _
          (fun i hi => Nat.lt_of_lt_of_le (hI i (by simp [List.mem_cons, hi])) hlen1)
          hcache r' hrec
        have hlen2 : (buildSlots [i1, i2, i3]
            (intersect_triangle_with_plane vs [i1, i2, i3] plane_point plane_normal)
            [0, 1, 2] vs c).2.1.length ≤ r'.1.length := by
          rw [ht2, List.length_append]
          omega
        have hfst' : ∀ s ∈ (buildSlots [i1, i2, i3]
            (intersect_triangle_with_plane vs [i1, i2, i3] plane_point plane_normal)
            [0, 1, 2] vs c).1, s.1 ∈ [i1, i2, i3] := by
          intro s hs
          obtain ⟨i, hi, hsi⟩ := hfst s hs
          rw [hsi]
          rcases List.mem_cons.mp hi with rfl | hi
          · simp
          rcases List.mem_cons.mp hi with rfl | hi
          · simp
          rcases List.mem_cons.mp hi with rfl | hi
          · simp
          · simp at hi
        have hslen : (buildSlots [i1, i2, i3]
            (intersect_triangle_with_plane vs [i1, i2, i3] plane_point plane_normal)
            [0, 1, 2] vs c).1.length = 3 := by
          rw [buildSlots_length]
          rfl
        obtain ⟨htris_b, htris_len⟩ := emitTriangles_bounds [i1, i2, i3] _ _ tris hemit
          rfl hslen
          (fun x hx => Nat.lt_of_lt_of_le (hI x (by
            rcases List.mem_cons.mp hx with rfl | hx
            · simp
            rcases List.mem_cons.mp hx with rfl | hx
            · simp
            rcases List.mem_cons.mp hx with rfl | hx
            · simp
            · simp at hx)) hlen1)
          hslots hfst'
        refine ⟨⟨t1 ++ t2, by rw [ht2, ht1, List.append_assoc]⟩, ?_, ?_⟩
        · intro j hj
          rcases List.mem_append.mp hj with hj | hj
          · exact Nat.lt_of_lt_of_le (htris_b j hj) hlen2
          · exact hbounds' j hj
        · rw [List.length_append, htris_len]
          omega
    · rw [if_neg hn] at hr
      rcases hrec : clipTriangles plane_point plane_normal rest vs c with _ | r' <;>
        rw [hrec] at hr
      · exact absurd hr (by simp)
      obtain rfl : (r'.1, r'.2.1, [i1, i2, i3] ++ r'.2.2) = r := by simpa using hr
      obtain ⟨⟨t2, ht2⟩, hbounds', hmod⟩ := clipTriangles_inv plane_point plane_normal
        rest vs c (fun i hi => hI i (by simp [List.mem_cons, hi])) hc r' hrec
      have hlen2 : vs.length ≤ r'.1.length := by
        rw [ht2, List.length_append]
        omega
      refine ⟨⟨t2, ht2⟩, ?_, ?_⟩
      · intro j hj
        rcases List.mem_append.mp hj with hj | hj
        · refine Nat.lt_of_lt_of_le (hI j ?_) hlen2
          rcases List.mem_cons.mp hj with rfl | hj
          · simp
          rcases List.mem_cons.mp hj with rfl | hj
          · simp
          rcases List.mem_cons.mp hj with rfl | hj
          · simp
          · simp at hj
        · exact hbounds' j hj
      · rw [List.length_append, List.length_cons, List.length_cons,
          List.length_singleton]
        omega
  | [], vs, c => by
    intro hI hc r hr
    obtain rfl : (vs, c, ([] : List Nat)) = r := Option.some.inj hr
    exact ⟨⟨[], (List.append_nil vs).symm⟩, by simp, rfl⟩
  | [a], vs, c => by
    intro hI hc r hr
    obtain rfl : (vs, c, ([] : List Nat)) = r := Option.some.inj hr
    exact ⟨⟨[], (List.append_nil vs).symm⟩, by simp, rfl⟩
  | [a, b], vs, c => by
    intro hI hc r hr
    obtain rfl : (vs, c, ([] : List Nat)) = r := Option.some.inj hr
    exact ⟨⟨[], (List.append_nil vs).symm⟩, by simp, rfl⟩

theorem create_midpoint_state (p1 p2 : Nat) (vs : List Vec3) (c : Cache)
    (hc : ∀ kv ∈ c, kv.2 < vs.length) :
    (∃ t, (create_midpoint p1 p2 vs c).2.1 = vs ++ t) ∧
    (∀ kv ∈ (create_midpoint p1 p2 vs c).2.2,
      kv.2 < (create_midpoint p1 p2 vs c).2.1.length) ∧
    (create_midpoint p1 p2 vs c).1 < (create_midpoint p1 p2 vs c).2.1.length := by
  simp only [create_midpoint]
  split
  · rename_i index hl
    exact ⟨⟨[], (List.append_nil vs).symm⟩, hc, hc _ (lookup_mem hl)⟩
  · refine ⟨⟨[_], rfl⟩, ?_, by simp⟩
    intro kv hkv
    rcases List.mem_cons.mp hkv with rfl | hkv
    · simp
    · have := hc kv hkv
      simp only [List.length_append, List.length_cons, List.length_nil]
      omega

theorem subdivideTriangles_state :
    ∀ (I : List Nat) (vs : List Vec3) (c : Cache),
    (∀ i ∈ I, i < vs.length) → (∀ kv ∈ c, kv.2 < vs.length) →
    (∃ t, (subdivideTriangles I vs c).2.1 = vs ++ t) ∧
    (∀ kv ∈ (subdivideTriangles I vs c).2.2,
      kv.2 < (subdivideTriangles I vs c).2.1.length) ∧
    (∀ i ∈ (subdivideTriangles I vs c).1, i < (subdivideTriangles I vs c).2.1.length) ∧
    (subdivideTriangles I vs c).1.length % 3 = 0
  | p1 :: p2 :: p3 :: rest, vs, c => by
    intro hI hc
    have hp1 : p1 < vs.length := hI p1 (by simp)
    have hp2 : p2 < vs.length := hI p2 (by simp)
    have hp3 : p3 < vs.length := hI p3 (by simp)
    rcases h1 : create_midpoint p1 p2 vs c with ⟨m1, vs1, c1⟩
    have st1 := create_midpoint_state p1 p2 vs c hc
    rw [h1] at st1
    dsimp only at st1
    obtain ⟨⟨t1, ht1⟩, hcc1, hm1⟩ := st1
    rcases h2 : create_midpoint p2 p3 vs1 c1 with ⟨m2, vs2, c2⟩
    have st2 := create_midpoint_state p2 p3 vs1 c1 hcc1
    rw [h2] at st2
    dsimp only at st2
    obtain ⟨⟨t2, ht2⟩, hcc2, hm2⟩ := st2
    rcases h3 : create_midpoint p3 p1 vs2 c2 with ⟨m3, vs3, c3⟩
    have st3 := create_midpoint_state p3 p1 vs2 c2 hcc2
    rw [h3] at st3
    dsimp only at st3
    obtain ⟨⟨t3, ht3⟩, hcc3, hm3⟩ := st3
    have hlen_vs3 : vs.length ≤ vs3.length := by
      rw [ht3, ht2, ht1]
      simp
    have hlen1 : vs1.length ≤ vs3.length := by
      rw [ht3, ht2]
      simp
    have hlen2 : vs2.length ≤ vs3.length := by
      rw [ht3]
      simp
    have hrest : ∀ i ∈ rest, i < vs3.length := fun i hi =>
      Nat.lt_of_lt_of_le (hI i (by simp [List.mem_cons, hi])) hlen_vs3
    obtain ⟨⟨t4, ht4⟩, hc4, hb4, hmod4⟩ := subdivideTriangles_state rest vs3 c3 hrest hcc3
    have heq : subdivideTriangles (p1 :: p2 :: p3 :: rest) vs c =
        ([p1, m1, m3, p2, m2, m1, p3, m3, m2, m1, m2, m3] ++
          (subdivideTriangles rest vs3 c3).1, (subdivideTriangles rest vs3 c3).2) := by
      simp only [subdivideTriangles]
      rw [h1]
      dsimp only
      rw [h2]
      dsimp only
      rw [h3]
    rw [heq]
    dsimp only
    have hlen4 : vs3.length ≤ (subdivideTriangles rest vs3 c3).2.1.length := by
      rw [ht4]
      simp
    refine ⟨⟨t1 ++ t2 ++ t3 ++ t4, by
      rw [ht4, ht3, ht2, ht1]
      simp [List.append_assoc]⟩, hc4, ?_, ?_⟩
    · intro i hi
      rcases List.mem_append.mp hi with hi | hi
      · have hb : ∀ j, j < vs3.length → j <
            (subdivideTriangles rest vs3 c3).2.1.length := fun j hj =>
          Nat.lt_of_lt_of_le hj hlen4
        fin_cases hi
        · exact hb p1 (Nat.lt_of_lt_of_le hp1 hlen_vs3)
        · exact hb m1 (Nat.lt_of_lt_of_le hm1 hlen1)
        · exact hb m3 hm3
        · exact hb p2 (Nat.lt_of_lt_of_le hp2 hlen_vs3)
        · exact hb m2 (Nat.lt_of_lt_of_le hm2 hlen2)
        · exact hb m1 (Nat.lt_of_lt_of_le hm1 hlen1)
        · exact hb p3 (Nat.lt_of_lt_of_le hp3 hlen_vs3)
        · exact hb m3 hm3
        · exact hb m2 (Nat.lt_of_lt_of_le hm2 hlen2)
        · exact hb m1 (Nat.lt_of_lt_of_le hm1 hlen1)
        · exact hb m2 (Nat.lt_of_lt_of_le hm2 hlen2)
        · exact hb m3 hm3
      · exact hb4 i hi
    · rw [List.length_append]
      simp only [List.length_cons, List.length_nil]
      omega
  | [], vs, c => by
    intro hI hc
    exact ⟨⟨[], (List.append_nil vs).symm⟩, hc, by simp [subdivideTriangles], by
      simp [subdivideTriangles]⟩
  | [a], vs, c => by
    intro hI hc
    exact ⟨⟨[], (List.append_nil vs).symm⟩, hc, by simp [subdivideTriangles], by
      simp [subdivideTriangles]⟩
  | [a, b], vs, c => by
    intro hI hc
    exact ⟨⟨[], (List.append_nil vs).symm⟩, hc, by simp [subdivideTriangles], by
      simp [subdivideTriangles]⟩

theorem icosphereRounds_bounds :
    ∀ (n : Nat) (vs : List Vec3) (I : List Nat), (∀ i ∈ I, i < vs.length) →
    ∀ i ∈ (icosphereRounds n (vs, I)).2, i < (icosphereRounds n (vs, I)).1.length
  | 0, vs, I => by
    intro hI
    exact hI
  | n + 1, vs, I => by
    intro hI
    obtain ⟨_, _, hb, _⟩ := subdivideTriangles_state I vs [] hI (by simp)
    exact icosphereRounds_bounds n (subdivideTriangles I vs []).2.1
      (subdivideTriangles I vs []).1 hb

theorem subdivideTriangles_mod3 :
    ∀ (I : List Nat) (vs : List Vec3) (c : Cache),
    (subdivideTriangles I vs c).1.length % 3 = 0
  | p1 :: p2 :: p3 :: rest, vs, c => by
    show (_ ++ (subdivideTriangles rest _ _).1).length % 3 = 0
    rw [List.length_append]
    have := subdivideTriangles_mod3 rest
      (create_midpoint p3 p1 (create_midpoint p2 p3 (create_midpoint p1 p2 vs c).2.1
        (create_midpoint p1 p2 vs c).2.2).2.1
        (create_midpoint p2 p3 (create_midpoint p1 p2 vs c).2.1
          (create_midpoint p1 p2 vs c).2.2).2.2).2.1
      (create_midpoint p3 p1 (create_midpoint p2 p3 (create_midpoint p1 p2 vs c).2.1
        (create_midpoint p1 p2 vs c).2.2).2.1
        (create_midpoint p2 p3 (create_midpoint p1 p2 vs c).2.1
          (create_midpoint p1 p2 vs c).2.2).2.2).2.2
    simp only [List.length_cons, List.length_nil]
    omega
  | [], vs, c => rfl
  | [a], vs, c => rfl
  | [a, b], vs, c => rfl

theorem icosphereRounds_mod3 :
    ∀ (n : Nat) (vs : List Vec3) (I : List Nat), I.length % 3 = 0 →
    (icosphereRounds n (vs, I)).2.length % 3 = 0
  | 0, vs, I => by
    intro hI
    exact hI
  | n + 1, vs, I => by
    intro hI
    exact icosphereRounds_mod3 n (subdivideTriangles I vs []).2.1
      (subdivideTriangles I vs []).1 (subdivideTriangles_mod3 I vs [])

theorem icosphere_meshInv (iterations : Nat) : MeshInv (icosphereMesh iterations) := by
  constructor
  · show (icosphereRounds iterations _).2.length % 3 = 0
    exact icosphereRounds_mod3 iterations _ icosahedronIndices rfl
  · show ∀ i ∈ (icosphereRounds iterations _).2, i < (icosphereRounds iterations _).1.length
    refine icosphereRounds_bounds iterations _ icosahedronIndices ?_
    intro i hi
    have h12 : (icosahedronVertices.map project_to_unit_circle).length = 12 := by
      rw [List.length_map]
      rfl
    rw [h12]
    have : ∀ j ∈ icosahedronIndices, j < 12 := by decide
    exact this i hi

theorem intersect_mesh_meshInv (m : Mesh) (plane_point plane_normal : Vec3) (m' : Mesh)
    (hInv : MeshInv m) (h : intersect_mesh_with_plane m plane_point plane_normal = some m') :
    MeshInv m' := by
  unfold intersect_mesh_with_plane at h
  rcases hrec : clipTriangles plane_point plane_normal m.indices m.vertices []
    with _ | r <;> rw [hrec] at h
  · exact absurd h (by simp)
  · obtain rfl : construct_mesh r.1 r.2.2 = m' := by simpa using h
    obtain ⟨_, hb, hm⟩ := clipTriangles_inv plane_point plane_normal m.indices
      m.vertices [] hInv.2 (by simp) r hrec
    exact ⟨hm, hb⟩

theorem removeTris_length_mod3 (removed offsets : List Nat) :
    ∀ (I : List Nat), (removeTris removed offsets I).length % 3 = 0
  | a :: b :: c :: rest => by
    rw [removeTris, List.length_append]
    have hr := removeTris_length_mod3 removed offsets rest
    by_cases h : (!removed.contains a && !removed.contains b &&
        !removed.contains c) = true
    · rw [if_pos h]
      simp only [List.length_cons, List.length_nil]
      omega
    · rw [if_neg h]
      simpa using hr
  | [] => rfl
  | [a] => rfl
  | [a, b] => rfl

theorem removeTris_mem (removed offsets : List Nat) :
    ∀ (I : List Nat), ∀ j ∈ removeTris removed offsets I,
      ∃ x ∈ I, j = x - offsets.getD x 0 ∧ removed.contains x = false
  | a :: b :: c :: rest => by
    intro j hj
    rw [removeTris] at hj
    rcases List.mem_append.mp hj with hj | hj
    · by_cases h : (!removed.contains a && !removed.contains b &&
          !removed.contains c) = true
      · rw [if_pos h] at hj
        simp only [Bool.and_eq_true, Bool.not_eq_true'] at h
        rcases List.mem_cons.mp hj with rfl | hj
        · exact ⟨a, by simp, rfl, h.1.1⟩
        rcases List.mem_cons.mp hj with rfl | hj
        · exact ⟨b, by simp, rfl, h.1.2⟩
        rcases List.mem_cons.mp hj with rfl | hj
        · exact ⟨c, by simp, rfl, h.2⟩
        · simp at hj
      · rw [if_neg h] at hj
        simp at hj
    · obtain ⟨x, hx, hxx⟩ := removeTris_mem removed offsets rest j hj
      exact ⟨x, by simp [List.mem_cons, hx], hxx⟩
  | [] => by intro j hj; simp [removeTris] at hj
  | [a] => by intro j hj; simp [removeTris] at hj
  | [a, b] => by intro j hj; simp [removeTris] at hj

theorem rank_lt_filter (pred : Vec3 → Bool) (vs : List Vec3) (x : Nat)
    (hx : x < vs.length) (hp : pred (vs.getD x 0) = false) :
    x - (vs.take (x + 1)).countP pred < (vs.filter (fun v => !pred v)).length := by
  have htake : (vs.take (x + 1)).length = x + 1 := by
    rw [List.length_take]
    omega
  have hsum := List.length_eq_countP_add_countP pred (vs.take (x + 1))
  have hmem : vs.getD x 0 ∈ vs.take (x + 1) := by
    have hxt : x < (vs.take (x + 1)).length := by omega
    rw [List.getD_eq_getElem vs 0 hx]
    have hgt : (vs.take (x + 1))[x] = vs[x] := List.getElem_take ..
    rw [← hgt]
    exact List.getElem_mem _
  have hone : 0 < (vs.take (x + 1)).countP fun a => decide ¬pred a = true := by
    refine List.countP_pos_iff.mpr ⟨vs.getD x 0, hmem, ?_⟩
    simpa using hp
  have hmono : (vs.take (x + 1)).countP (fun a => decide ¬pred a = true) ≤
      vs.countP fun a => decide ¬pred a = true :=
    (List.take_sublist (x + 1) vs).countP_le _
  have hfl : (vs.filter (fun v => !pred v)).length =
      vs.countP fun a => decide ¬pred a = true := by
    rw [← List.countP_eq_length_filter]
    refine List.countP_congr ?_
    intro a _
    cases h : pred a <;> simp [h]
  omega

theorem remove_if_meshInv (mesh : Mesh) (pred : Vec3 → Bool) (uvs : List UV)
    (hInv : MeshInv mesh) : MeshInv (remove_if mesh pred uvs).1 := by
  have henum : mesh.vertices.enum = List.enumFrom 0 mesh.vertices := rfl
  have hloop := removeLoop_eq pred uvs mesh.vertices 0 [] [] [] []
  rw [← henum] at hloop
  have hv : (remove_if mesh pred uvs).1.vertices =
      mesh.vertices.filter (fun v => !pred v) := by
    simp [remove_if, hloop, construct_mesh]
  have hind : (remove_if mesh pred uvs).1.indices =
      removeTris (remPos pred 0 mesh.vertices) (offsEntries pred 0 mesh.vertices)
        mesh.indices := by
    simp [remove_if, hloop, construct_mesh]
  constructor
  · rw [hind]
    exact removeTris_length_mod3 _ _ _
  · intro j hj
    rw [hind] at hj
    obtain ⟨x, hx, rfl, hcont⟩ := removeTris_mem _ _ _ j hj
    have hxlt : x < mesh.vertices.length := hInv.2 x hx
    have hpx : pred (mesh.vertices.getD x 0) = false := by
      rw [← remPos_contains pred mesh.vertices x hxlt]
      exact hcont
    rw [hv, offsEntries_getD pred mesh.vertices 0 x hxlt]
    simpa using rank_lt_filter pred mesh.vertices x hxlt hpx

theorem fcSorted_mem_lt (mesh : Mesh) (center reference clockwise_normal : Vec3)
    (start_index : Nat) (a : Nat)
    (ha : a ∈ fcSorted mesh center reference clockwise_normal start_index) :
    a < (fcVertices mesh start_index).length := by
  have hring : a ∈ fcRing mesh start_index := by
    rcases List.mem_append.mp ha with h | h
    · exact List.mem_of_mem_filter ((List.mergeSort_perm _ _).mem_iff.mp h)
    · exact List.mem_of_mem_filter ((List.mergeSort_perm _ _).mem_iff.mp h)
  rw [fcRing] at hring
  have := List.mem_range'_1.mp hring
  omega

theorem fill_circle_meshInv (mesh : Mesh) (center reference clockwise_normal : Vec3)
    (start_index : Nat) (uvs : List UV) (hInv : MeshInv mesh) :
    MeshInv (fill_circle mesh (center, reference, clockwise_normal) start_index uvs).1 := by
  have hind : (fill_circle mesh (center, reference, clockwise_normal) start_index
      uvs).1.indices =
      mesh.indices ++ (List.range (fcSorted mesh center reference clockwise_normal
        start_index).length).flatMap (fun i =>
        [(fcSorted mesh center reference clockwise_normal start_index).getD i 0,
         (fcSorted mesh center reference clockwise_normal start_index).getD
           ((i + 1) % (fcSorted mesh center reference clockwise_normal start_index).length) 0,
         (fcVertices mesh start_index).length]) := by
    simp only [fill_circle, construct_mesh]
    rw [fanFold_fst]
  have hver : (fill_circle mesh (center, reference, clockwise_normal) start_index
      uvs).1.vertices = fcVertices mesh start_index ++ [center] := by
    simp only [fill_circle, construct_mesh]
  constructor
  · rw [hind, List.length_append]
    have h1 := hInv.1
    have h2 : ((List.range (fcSorted mesh center reference clockwise_normal
        start_index).length).flatMap (fun i =>
        [(fcSorted mesh center reference clockwise_normal start_index).getD i 0,
         (fcSorted mesh center reference clockwise_normal start_index).getD
           ((i + 1) % (fcSorted mesh center reference clockwise_normal start_index).length) 0,
         (fcVertices mesh start_index).length])).length =
        3 * (fcSorted mesh center reference clockwise_normal start_index).length := by
      rw [List.length_flatMap]
      rw [show (List.length ∘ fun i =>
          [(fcSorted mesh center reference clockwise_normal start_index).getD i 0,
           (fcSorted mesh center reference clockwise_normal start_index).getD
             ((i + 1) % (fcSorted mesh center reference clockwise_normal
               start_index).length) 0,
           (fcVertices mesh start_index).length]) = fun _ : Nat => 3 from
        funext fun i => rfl]
      rw [List.map_const']
      simp [List.sum_replicate, Nat.mul_comm]
    rw [h2]
    omega
  · intro j hj
    rw [hver, List.length_append, List.length_cons, List.length_nil]
    rw [hind] at hj
    rcases List.mem_append.mp hj with hj | hj
    · have := hInv.2 j hj
      have hle : mesh.vertices.length ≤ (fcVertices mesh start_index).length := by
        rw [fcVertices, List.length_append]
        omega
      omega
    · obtain ⟨i, hi, hji⟩ := List.mem_flatMap.mp hj
      have hilt := List.mem_range.mp hi
      have hpos : 0 < (fcSorted mesh center reference clockwise_normal
          start_index).length := by omega
      rcases List.mem_cons.mp hji with rfl | hji
      · have : (fcSorted mesh center reference clockwise_normal start_index).getD i 0 ∈
            fcSorted mesh center reference clockwise_normal start_index := by
          rw [List.getD_eq_getElem _ 0 hilt]
          exact List.getElem_mem _
        have := fcSorted_mem_lt mesh center reference clockwise_normal start_index _ this
        omega
      rcases List.mem_cons.mp hji with rfl | hji
      · have hmod : (i + 1) % (fcSorted mesh center reference clockwise_normal
            start_index).length < (fcSorted mesh center reference clockwise_normal
            start_index).length := Nat.mod_lt _ hpos
        have : (fcSorted mesh center reference clockwise_normal start_index).getD
            ((i + 1) % (fcSorted mesh center reference clockwise_normal
              start_index).length) 0 ∈
            fcSorted mesh center reference clockwise_normal start_index := by
          rw [List.getD_eq_getElem _ 0 hmod]
          exact List.getElem_mem _
        have := fcSorted_mem_lt mesh center reference clockwise_normal start_index _ this
        omega
      rcases List.mem_cons.mp hji with rfl | hji
      · omega
      · simp at hji

/-- Claim C7: every mesh produced by `create_icosphere`,
`intersect_mesh_with_plane`, `fill_circle` and `remove_if` satisfies the
Mesh Buffer invariant — the index list length is a multiple of three and
every index (including the fresh intersection vertices, duplicated ring
vertices, cap center, and remapped surviving indices) is strictly below
the vertex count — the three transforming stages assuming it of their
input mesh. -/
theorem claim_C7 :
    (∀ (iterations : Nat) (m : Mesh), create_icosphere iterations = some m →
      MeshInv m) ∧
    (∀ (m : Mesh) (plane_point plane_normal : Vec3) (m' : Mesh), MeshInv m →
      intersect_mesh_with_plane m plane_point plane_normal = some m' → MeshInv m') ∧
    (∀ (m : Mesh) (center reference clockwise_normal : Vec3) (start_index : Nat)
      (uvs : List UV), MeshInv m →
      MeshInv (fill_circle m (center, reference, clockwise_normal) start_index uvs).1) ∧
    (∀ (m : Mesh) (pred : Vec3 → Bool) (uvs : List UV), MeshInv m →
      MeshInv (remove_if m pred uvs).1) := by
  refine ⟨?_, intersect_mesh_meshInv, fill_circle_meshInv, remove_if_meshInv⟩
  intro iterations m h
  unfold create_icosphere at h
  by_cases hit : iterations ≤ 8
  · rw [if_pos hit] at h
    obtain rfl : icosphereMesh iterations = m := Option.some.inj h
    exact icosphere_meshInv iterations
  · rw [if_neg hit] at h
    exact absurd h (by simp)

/-- Witness for claim C7: the icosphere at depth 0 and the three
transforming stages applied to the empty mesh. -/
theorem claim_C7_witness :
    (create_icosphere 0 = some (icosphereMesh 0) ∧ MeshInv (icosphereMesh 0)) ∧
    (MeshInv (Mesh.mk [] []) ∧
      intersect_mesh_with_plane ⟨[], []⟩ ⟨0, 0, 0⟩ ⟨0, 0, 1⟩ =
        some (construct_mesh [] []) ∧
      MeshInv (construct_mesh [] [])) ∧
    MeshInv (fill_circle ⟨[], []⟩ (⟨0, 0, 0⟩, ⟨1, 0, 0⟩, ⟨0, 0, 1⟩) 0 []).1 ∧
    MeshInv (remove_if ⟨[], []⟩ (fun _ => false) []).1 := by
  have hempty : MeshInv (Mesh.mk [] []) := ⟨rfl, by simp⟩
  have hic : create_icosphere 0 = some (icosphereMesh 0) := by
    simp [create_icosphere]
  have hintersect : intersect_mesh_with_plane ⟨[], []⟩ ⟨0, 0, 0⟩ ⟨0, 0, 1⟩ =
      some (construct_mesh [] []) := rfl
  exact ⟨⟨hic, claim_C7.1 0 _ hic⟩,
    ⟨hempty, hintersect, claim_C7.2.1 _ _ _ _ hempty hintersect⟩,
    claim_C7.2.2.1 _ _ _ _ 0 [] hempty,
    claim_C7.2.2.2 _ _ [] hempty⟩

/-- Claim C9: on a boundary-ring range of `n ≥ 3` appended vertices,
`fill_circle` emits exactly `n` fan triangles — one per consecutive pair
of the angularly ordered ring, wrapping, each closed by the center
index — and appends one new center vertex at `center` whose UV is
`(0.5, 0.5)`. -/
theorem claim_C9 (mesh : Mesh) (center reference clockwise_normal : Vec3)
    (start_index n : Nat) (uvs : List UV) (hn : 3 ≤ n)
    (hlen : mesh.vertices.length = start_index + n) :
    (fcSorted mesh center reference clockwise_normal start_index).length = n ∧
    (fill_circle mesh (center, reference, clockwise_normal) start_index uvs).1.vertices =
      mesh.vertices ++ fcDup mesh start_index ++ [center] ∧
    (fill_circle mesh (center, reference, clockwise_normal) start_index uvs).1.indices =
      mesh.indices ++ (List.range n).flatMap (fun i =>
        [(fcSorted mesh center reference clockwise_normal start_index).getD i 0,
         (fcSorted mesh center reference clockwise_normal start_index).getD ((i + 1) % n) 0,
         mesh.vertices.length + n]) ∧
    (fill_circle mesh (center, reference, clockwise_normal) start_index uvs).2.getLast? =
      some ⟨1 / 2, 1 / 2⟩ := by
  have hs := fcSorted_length mesh center reference clockwise_normal start_index n hlen
  refine ⟨hs, ?_, ?_, ?_⟩
  · simp [fill_circle, construct_mesh, fcVertices]
  · have hc : (fcVertices mesh start_index).length = mesh.vertices.length + n := by
      simp [fcVertices, fcDup_length mesh start_index n hlen]
    simp only [fill_circle, construct_mesh]
    rw [fanFold_fst, hs, hc]
  · show (_ ++ [(⟨1 / 2, 1 / 2⟩ : UV)]).getLast? = _
    exact List.getLast?_concat _

/-- Witness for claim C9: a three-vertex ring starting at index 0. -/
theorem claim_C9_witness :
    3 ≤ 3 ∧
    (Mesh.mk [⟨0, 0, 1⟩, ⟨1, 0, 0⟩, ⟨0, 1, 0⟩] []).vertices.length = 0 + 3 ∧
    (fill_circle ⟨[⟨0, 0, 1⟩, ⟨1, 0, 0⟩, ⟨0, 1, 0⟩], []⟩ (⟨0, 0, 0⟩, ⟨1, 0, 0⟩, ⟨0, 0, 1⟩)
      0 []).1.vertices =
      (Mesh.mk [⟨0, 0, 1⟩, ⟨1, 0, 0⟩, ⟨0, 1, 0⟩] []).vertices ++
        fcDup ⟨[⟨0, 0, 1⟩, ⟨1, 0, 0⟩, ⟨0, 1, 0⟩], []⟩ 0 ++ [⟨0, 0, 0⟩] ∧
    (fill_circle ⟨[⟨0, 0, 1⟩, ⟨1, 0, 0⟩, ⟨0, 1, 0⟩], []⟩ (⟨0, 0, 0⟩, ⟨1, 0, 0⟩, ⟨0, 0, 1⟩)
      0 []).2.getLast? = some ⟨1 / 2, 1 / 2⟩ := by
  have h := claim_C9 ⟨[⟨0, 0, 1⟩, ⟨1, 0, 0⟩, ⟨0, 1, 0⟩], []⟩ ⟨0, 0, 0⟩ ⟨1, 0, 0⟩ ⟨0, 0, 1⟩
    0 3 [] (by decide) rfl
  exact ⟨by decide, rfl, h.2.1, h.2.2.2⟩

theorem dot_comm (a b : Vec3) : dot a b = dot b a := by
  simp only [dot]
  ring

theorem dot_self_nonneg (v : Vec3) : 0 ≤ dot v v := by
  simp only [dot]
  nlinarith [mul_self_nonneg v.x, mul_self_nonneg v.y, mul_self_nonneg v.z]

theorem proj_eq (v : Vec3) : project_to_unit_circle v =
    ⟨v.x / Real.sqrt (dot v v), v.y / Real.sqrt (dot v v),
     v.z / Real.sqrt (dot v v)⟩ := rfl

theorem dot_proj_right (a b : Vec3) :
    dot a (project_to_unit_circle b) = dot a b / Real.sqrt (dot b b) := by
  rw [proj_eq]
  simp only [dot]
  ring

theorem dot_proj_proj (a b : Vec3) :
    dot (project_to_unit_circle a) (project_to_unit_circle b) =
      dot a b / (Real.sqrt (dot a a) * Real.sqrt (dot b b)) := by
  rw [proj_eq, proj_eq]
  simp only [dot]
  ring

theorem proj_unit (v : Vec3) (h : 0 < dot v v) :
    dot (project_to_unit_circle v) (project_to_unit_circle v) = 1 := by
  rw [dot_proj_proj, Real.mul_self_sqrt (dot_self_nonneg v)]
  exact div_self (ne_of_gt h)

theorem dot_proj_pos (a b : Vec3) (ha : 0 < dot a a) (hb : 0 < dot b b)
    (hab : 0 < dot a b) :
    0 < dot (project_to_unit_circle a) (project_to_unit_circle b) := by
  rw [dot_proj_proj]
  exact div_pos hab (mul_pos (Real.sqrt_pos.mpr ha) (Real.sqrt_pos.mpr hb))

theorem dot_right_proj_pos (a b : Vec3) (hb : 0 < dot b b)
    (hab : 0 < dot a b) :
    0 < dot a (project_to_unit_circle b) := by
  rw [dot_proj_right]
  exact div_pos hab (Real.sqrt_pos.mpr hb)

theorem dot_vmid_right (a b c : Vec3) :
    dot a (vmid b c) = (dot a b + dot a c) / 2 := by
  simp only [dot, vmid]
  ring

theorem dot_vmid_vmid (a b c d : Vec3) :
    dot (vmid a b) (vmid c d) = (dot a c + dot a d + dot b c + dot b d) / 4 := by
  simp only [dot, vmid]
  ring

theorem vmid_comm (a b : Vec3) : vmid a b = vmid b a := by
  simp only [vmid]
  ext <;> dsimp only <;> ring

theorem vmid_dot_pos (a b : Vec3) (ha : dot a a = 1) (hb : dot b b = 1)
    (hab : 0 < dot a b) : 0 < dot (vmid a b) (vmid a b) := by
  rw [dot_vmid_vmid, dot_comm b a, ha, hb]
  linarith

theorem mid_pos_aux (p a b : Vec3) (ha : dot a a = 1) (hb : dot b b = 1)
    (hab : 0 < dot a b) (hpa : 0 < dot p a) (hpb : 0 < dot p b) :
    0 < dot p (project_to_unit_circle (vmid a b)) := by
  refine dot_right_proj_pos _ _ (vmid_dot_pos a b ha hb hab) ?_
  rw [dot_vmid_right]
  linarith

theorem mid_mid_pos (a b c d : Vec3) (ha : dot a a = 1) (hb : dot b b = 1)
    (hc : dot c c = 1) (hd : dot d d = 1) (hab : 0 < dot a b)
    (hcd : 0 < dot c d) (hac : 0 < dot a c) (had : 0 < dot a d)
    (hbc : 0 < dot b c) (hbd : 0 < dot b d) :
    0 < dot (project_to_unit_circle (vmid a b))
      (project_to_unit_circle (vmid c d)) := by
  refine dot_proj_pos _ _ (vmid_dot_pos a b ha hb hab)
    (vmid_dot_pos c d hc hd hcd) ?_
  rw [dot_vmid_vmid]
  linarith

theorem phi_sq : phi * phi = phi + 1 := by
  have h5 : Real.sqrt 5 * Real.sqrt 5 = 5 := Real.mul_self_sqrt (by norm_num)
  rw [phi]
  field_simp
  nlinarith [h5]

theorem getD_mem (vs : List Vec3) (n : Nat) (h : n < vs.length) :
    vs.getD n 0 ∈ vs := by
  rw [List.getD_eq_getElem _ _ h]
  exact List.getElem_mem h

theorem getD_append_self (vs : List Vec3) (w : Vec3) :
    (vs ++ [w]).getD vs.length 0 = w := by
  rw [List.getD_eq_getElem _ _ (by simp)]
  simp

theorem ExtendsV_refl (vs : List Vec3) : ExtendsV vs vs :=
  ⟨le_refl _, fun _ _ => rfl⟩

theorem ExtendsV_trans {a b c : List Vec3} (h1 : ExtendsV a b)
    (h2 : ExtendsV b c) : ExtendsV a c :=
  ⟨le_trans h1.1 h2.1, fun i hi => by
    rw [h2.2 i (lt_of_lt_of_le hi h1.1), h1.2 i hi]⟩

theorem ExtendsV_snoc (vs : List Vec3) (w : Vec3) : ExtendsV vs (vs ++ [w]) :=
  ⟨by simp, fun i hi => List.getD_append _ _ _ _ hi⟩

theorem TriAcute_extend (vs vs' : List Vec3) (idx : List Nat)
    (h : ExtendsV vs vs') (hT : TriAcute vs idx) : TriAcute vs' idx := by
  intro t ht
  obtain ⟨h1, h2, h3, d1, d2, d3⟩ := hT t ht
  rw [h.2 _ h1, h.2 _ h2, h.2 _ h3]
  exact ⟨lt_of_lt_of_le h1 h.1, lt_of_lt_of_le h2 h.1, lt_of_lt_of_le h3 h.1,
    d1, d2, d3⟩

theorem create_midpoint_mid (p1 p2 : Nat) (vs : List Vec3) (c : Cache)
    (hU : UnitVerts vs) (hC : CacheMid vs c)
    (hp1 : p1 < vs.length) (hp2 : p2 < vs.length)
    (hd : 0 < dot (vs.getD p1 0) (vs.getD p2 0)) :
    ExtendsV vs (create_midpoint p1 p2 vs c).2.1 ∧
    UnitVerts (create_midpoint p1 p2 vs c).2.1 ∧
    CacheMid (create_midpoint p1 p2 vs c).2.1 (create_midpoint p1 p2 vs c).2.2 ∧
    (create_midpoint p1 p2 vs c).1 < (create_midpoint p1 p2 vs c).2.1.length ∧
    (create_midpoint p1 p2 vs c).2.1.getD (create_midpoint p1 p2 vs c).1 0 =
      project_to_unit_circle (vmid (vs.getD p1 0) (vs.getD p2 0)) := by
  have hu1 : dot (vs.getD p1 0) (vs.getD p1 0) = 1 := hU _ (getD_mem vs p1 hp1)
  have hu2 : dot (vs.getD p2 0) (vs.getD p2 0) = 1 := hU _ (getD_mem vs p2 hp2)
  have hmidpos : 0 < dot (vmid (vs.getD p1 0) (vs.getD p2 0))
      (vmid (vs.getD p1 0) (vs.getD p2 0)) := vmid_dot_pos _ _ hu1 hu2 hd
  simp only [create_midpoint]
  split
  · rename_i index hl
    obtain ⟨hk1, hk2, hk3, hk4⟩ := hC _ (lookup_mem hl)
    refine ⟨ExtendsV_refl vs, hU, hC, hk3, ?_⟩
    rw [hk4]
    rcases Nat.le_total p1 p2 with h | h
    · have he : ekey p1 p2 = (p1, p2) := by
        rw [ekey, Nat.min_eq_left h, Nat.max_eq_right h]
      rw [he]
    · have he : ekey p1 p2 = (p2, p1) := by
        rw [ekey, Nat.min_eq_right h, Nat.max_eq_left h]
      rw [he]
      dsimp only
      rw [vmid_comm]
  · rename_i hl
    dsimp only
    have hb1 : (ekey p1 p2).1 < vs.length := by
      simp only [ekey]
      exact lt_of_le_of_lt (min_le_left _ _) hp1
    have hb2 : (ekey p1 p2).2 < vs.length := by
      simp only [ekey]
      exact max_lt hp1 hp2
    refine ⟨ExtendsV_snoc vs _, ?_, ?_, by simp, getD_append_self vs _⟩
    · intro v hv
      rcases List.mem_append.mp hv with hv | hv
      · exact hU v hv
      · rw [List.mem_singleton.mp hv]
        exact proj_unit _ hmidpos
    · intro kv hkv
      rcases List.mem_cons.mp hkv with rfl | hkv
      · refine ⟨lt_of_lt_of_le hb1 (by simp), lt_of_lt_of_le hb2 (by simp),
          by simp, ?_⟩
        rw [getD_append_self]
        rw [List.getD_append _ _ _ _ hb1, List.getD_append _ _ _ _ hb2]
        rcases Nat.le_total p1 p2 with h | h
        · have he : ekey p1 p2 = (p1, p2) := by
            rw [ekey, Nat.min_eq_left h, Nat.max_eq_right h]
          rw [he]
        · have he : ekey p1 p2 = (p2, p1) := by
            rw [ekey, Nat.min_eq_right h, Nat.max_eq_left h]
          rw [he]
          dsimp only
          rw [vmid_comm]
      · obtain ⟨hk1, hk2, hk3, hk4⟩ := hC kv hkv
        have hlen : vs.length ≤ (vs ++ [project_to_unit_circle
            (vmid (vs.getD p1 0) (vs.getD p2 0))]).length := by
          simp
        refine ⟨lt_of_lt_of_le hk1 hlen, lt_of_lt_of_le hk2 hlen,
          lt_of_lt_of_le hk3 hlen, ?_⟩
        rw [List.getD_append _ _ _ _ hk3, List.getD_append _ _ _ _ hk1,
          List.getD_append _ _ _ _ hk2]
        exact hk4

theorem subdivideTriangles_unit :
    ∀ (I : List Nat) (vs : List Vec3) (c : Cache),
    UnitVerts vs → CacheMid vs c → TriAcute vs I →
    UnitVerts (subdivideTriangles I vs c).2.1 ∧
    ExtendsV vs (subdivideTriangles I vs c).2.1 ∧
    TriAcute (subdivideTriangles I vs c).2.1 (subdivideTriangles I vs c).1
  | p1 :: p2 :: p3 :: rest, vs, c => by
    intro hU hC hT
    obtain ⟨hp1, hp2, hp3, hd12, hd23, hd31⟩ := hT (p1, p2, p3)
      (List.mem_cons_self _ _)
    have hu1 : dot (vs.getD p1 0) (vs.getD p1 0) = 1 := hU _ (getD_mem vs p1 hp1)
    have hu2 : dot (vs.getD p2 0) (vs.getD p2 0) = 1 := hU _ (getD_mem vs p2 hp2)
    have hu3 : dot (vs.getD p3 0) (vs.getD p3 0) = 1 := hU _ (getD_mem vs p3 hp3)
    have h11 : 0 < dot (vs.getD p1 0) (vs.getD p1 0) := by rw [hu1]; norm_num
    have h22 : 0 < dot (vs.getD p2 0) (vs.getD p2 0) := by rw [hu2]; norm_num
    have h33 : 0 < dot (vs.getD p3 0) (vs.getD p3 0) := by rw [hu3]; norm_num
    have d21 : 0 < dot (vs.getD p2 0) (vs.getD p1 0) := by
      rw [dot_comm]; exact hd12
    have d32 : 0 < dot (vs.getD p3 0) (vs.getD p2 0) := by
      rw [dot_comm]; exact hd23
    have d13 : 0 < dot (vs.getD p1 0) (vs.getD p3 0) := by
      rw [dot_comm]; exact hd31
    rcases h1 : create_midpoint p1 p2 vs c with ⟨m1, vs1, c1⟩
    have st1 := create_midpoint_mid p1 p2 vs c hU hC hp1 hp2 hd12
    rw [h1] at st1
    dsimp only at st1
    obtain ⟨hx1, hU1, hC1, hm1, hv1⟩ := st1
    have hp2' : p2 < vs1.length := lt_of_lt_of_le hp2 hx1.1
    have hp3' : p3 < vs1.length := lt_of_lt_of_le hp3 hx1.1
    have hd23' : 0 < dot (vs1.getD p2 0) (vs1.getD p3 0) := by
      rw [hx1.2 p2 hp2, hx1.2 p3 hp3]
      exact hd23
    rcases h2 : create_midpoint p2 p3 vs1 c1 with ⟨m2, vs2, c2⟩
    have st2 := create_midpoint_mid p2 p3 vs1 c1 hU1 hC1 hp2' hp3' hd23'
    rw [h2] at st2
    dsimp only at st2
    obtain ⟨hx2, hU2, hC2, hm2, hv2⟩ := st2
    rw [hx1.2 p2 hp2, hx1.2 p3 hp3] at hv2
    have hx12 : ExtendsV vs vs2 := ExtendsV_trans hx1 hx2
    have hp3'' : p3 < vs2.length := lt_of_lt_of_le hp3 hx12.1
    have hp1'' : p1 < vs2.length := lt_of_lt_of_le hp1 hx12.1
    have hd31'' : 0 < dot (vs2.getD p3 0) (vs2.getD p1 0) := by
      rw [hx12.2 p3 hp3, hx12.2 p1 hp1]
      exact hd31
    rcases h3 : create_midpoint p3 p1 vs2 c2 with ⟨m3, vs3, c3⟩
    have st3 := create_midpoint_mid p3 p1 vs2 c2 hU2 hC2 hp3'' hp1'' hd31''
    rw [h3] at st3
    dsimp only at st3
    obtain ⟨hx3, hU3, hC3, hm3, hv3⟩ := st3
    rw [hx12.2 p3 hp3, hx12.2 p1 hp1] at hv3
    have hx13 : ExtendsV vs vs3 := ExtendsV_trans hx12 hx3
    have hTrest : TriAcute vs3 rest := TriAcute_extend vs vs3 rest hx13
      (fun t ht => hT t (List.mem_cons_of_mem _ ht))
    obtain ⟨hUr, hxr, hTr⟩ := subdivideTriangles_unit rest vs3 c3 hU3 hC3 hTrest
    have heq : subdivideTriangles (p1 :: p2 :: p3 :: rest) vs c =
        ([p1, m1, m3, p2, m2, m1, p3, m3, m2, m1, m2, m3] ++
          (subdivideTriangles rest vs3 c3).1, (subdivideTriangles rest vs3 c3).2) := by
      simp only [subdivideTriangles]
      rw [h1]
      dsimp only
      rw [h2]
      dsimp only
      rw [h3]
    rw [heq]
    dsimp only
    have hx1r : ExtendsV vs1 (subdivideTriangles rest vs3 c3).2.1 :=
      ExtendsV_trans hx2 (ExtendsV_trans hx3 hxr)
    have hx2r : ExtendsV vs2 (subdivideTriangles rest vs3 c3).2.1 :=
      ExtendsV_trans hx3 hxr
    have hxall : ExtendsV vs (subdivideTriangles rest vs3 c3).2.1 :=
      ExtendsV_trans hx1 hx1r
    refine ⟨hUr, hxall, ?_⟩
    have hw1 : (subdivideTriangles rest vs3 c3).2.1.getD m1 0 =
        project_to_unit_circle (vmid (vs.getD p1 0) (vs.getD p2 0)) := by
      rw [hx1r.2 m1 hm1]
      exact hv1
    have hw2 : (subdivideTriangles rest vs3 c3).2.1.getD m2 0 =
        project_to_unit_circle (vmid (vs.getD p2 0) (vs.getD p3 0)) := by
      rw [hx2r.2 m2 hm2]
      exact hv2
    have hw3 : (subdivideTriangles rest vs3 c3).2.1.getD m3 0 =
        project_to_unit_circle (vmid (vs.getD p3 0) (vs.getD p1 0)) := by
      rw [hxr.2 m3 hm3]
      exact hv3
    have hwp1 : (subdivideTriangles rest vs3 c3).2.1.getD p1 0 = vs.getD p1 0 :=
      hxall.2 p1 hp1
    have hwp2 : (subdivideTriangles rest vs3 c3).2.1.getD p2 0 = vs.getD p2 0 :=
      hxall.2 p2 hp2
    have hwp3 : (subdivideTriangles rest vs3 c3).2.1.getD p3 0 = vs.getD p3 0 :=
      hxall.2 p3 hp3
    have hbp1 : p1 < (subdivideTriangles rest vs3 c3).2.1.length :=
      lt_of_lt_of_le hp1 hxall.1
    have hbp2 : p2 < (subdivideTriangles rest vs3 c3).2.1.length :=
      lt_of_lt_of_le hp2 hxall.1
    have hbp3 : p3 < (subdivideTriangles rest vs3 c3).2.1.length :=
      lt_of_lt_of_le hp3 hxall.1
    have hbm1 : m1 < (subdivideTriangles rest vs3 c3).2.1.length :=
      lt_of_lt_of_le hm1 hx1r.1
    have hbm2 : m2 < (subdivideTriangles rest vs3 c3).2.1.length :=
      lt_of_lt_of_le hm2 hx2r.1
    have hbm3 : m3 < (subdivideTriangles rest vs3 c3).2.1.length :=
      lt_of_lt_of_le hm3 hxr.1
    intro t ht
    have htri : tri3 ([p1, m1, m3, p2, m2, m1, p3, m3, m2, m1, m2, m3] ++
        (subdivideTriangles rest vs3 c3).1) =
        (p1, m1, m3) :: (p2, m2, m1) :: (p3, m3, m2) :: (m1, m2, m3) ::
          tri3 (subdivideTriangles rest vs3 c3).1 := rfl
    rw [htri] at ht
    rcases List.mem_cons.mp ht with rfl | ht
    · refine ⟨hbp1, hbm1, hbm3, ?_, ?_, ?_⟩
      · rw [hwp1, hw1]
        exact mid_pos_aux _ _ _ hu1 hu2 hd12 h11 hd12
      · rw [hw1, hw3]
        exact mid_mid_pos _ _ _ _ hu1 hu2 hu3 hu1 hd12 hd31 d13 h11 hd23 d21
      · rw [hw3, hwp1, dot_comm]
        exact mid_pos_aux _ _ _ hu3 hu1 hd31 d13 h11
    rcases List.mem_cons.mp ht with rfl | ht
    · refine ⟨hbp2, hbm2, hbm1, ?_, ?_, ?_⟩
      · rw [hwp2, hw2]
        exact mid_pos_aux _ _ _ hu2 hu3 hd23 h22 hd23
      · rw [hw2, hw1]
        exact mid_mid_pos _ _ _ _ hu2 hu3 hu1 hu2 hd23 hd12 d21 h22 hd31 d32
      · rw [hw1, hwp2, dot_comm]
        exact mid_pos_aux _ _ _ hu1 hu2 hd12 d21 h22
    rcases List.mem_cons.mp ht with rfl | ht
    · refine ⟨hbp3, hbm3, hbm2, ?_, ?_, ?_⟩
      · rw [hwp3, hw3]
        exact mid_pos_aux _ _ _ hu3 hu1 hd31 h33 hd31
      · rw [hw3, hw2]
        exact mid_mid_pos _ _ _ _ hu3 hu1 hu2 hu3 hd31 hd23 d32 h33 hd12 d13
      · rw [hw2, hwp3, dot_comm]
        exact mid_pos_aux _ _ _ hu2 hu3 hd23 d32 h33
    rcases List.mem_cons.mp ht with rfl | ht
    · refine ⟨hbm1, hbm2, hbm3, ?_, ?_, ?_⟩
      · rw [hw1, hw2]
        exact mid_mid_pos _ _ _ _ hu1 hu2 hu2 hu3 hd12 hd23 hd12 d13 h22 hd23
      · rw [hw2, hw3]
        exact mid_mid_pos _ _ _ _ hu2 hu3 hu3 hu1 hd23 hd31 hd23 d21 h33 hd31
      · rw [hw3, hw1]
        exact mid_mid_pos _ _ _ _ hu3 hu1 hu1 hu2 hd31 hd12 hd31 d32 h11 hd12
    · exact hTr t ht
  | [], vs, c => by
    intro hU hC hT
    exact ⟨hU, ExtendsV_refl vs, by intro t ht; simp [subdivideTriangles, tri3] at ht⟩
  | [a], vs, c => by
    intro hU hC hT
    exact ⟨hU, ExtendsV_refl vs, by intro t ht; simp [subdivideTriangles, tri3] at ht⟩
  | [a, b], vs, c => by
    intro hU hC hT
    exact ⟨hU, ExtendsV_refl vs, by intro t ht; simp [subdivideTriangles, tri3] at ht⟩

theorem icosphereRounds_unit :
    ∀ (n : Nat) (vs : List Vec3) (I : List Nat),
    UnitVerts vs → TriAcute vs I →
    UnitVerts (icosphereRounds n (vs, I)).1 ∧
    TriAcute (icosphereRounds n (vs, I)).1 (icosphereRounds n (vs, I)).2
  | 0, vs, I => fun hU hT => ⟨hU, hT⟩
  | n + 1, vs, I => by
    intro hU hT
    obtain ⟨hU', _, hT'⟩ := subdivideTriangles_unit I vs [] hU
      (by intro kv hkv; simp at hkv) hT
    exact icosphereRounds_unit n (subdivideTriangles I vs []).2.1
      (subdivideTriangles I vs []).1 hU' hT'

theorem icosa_unit : UnitVerts (icosahedronVertices.map project_to_unit_circle) := by
  intro v hv
  obtain ⟨w, hw, rfl⟩ := List.mem_map.mp hv
  apply proj_unit
  fin_cases hw <;> simp [dot] <;> nlinarith [phi_pos]

set_option maxHeartbeats 1600000 in
theorem icosa_triacute :
    TriAcute (icosahedronVertices.map project_to_unit_circle)
      icosahedronIndices := by
  have hlen : (icosahedronVertices.map project_to_unit_circle).length = 12 := by
    rw [List.length_map]
    rfl
  have hphim : 0 < phi * phi - 1 := by nlinarith [phi_pos, phi_sq]
  have hphi := phi_pos
  have g0 : (icosahedronVertices.map project_to_unit_circle).getD 0 0 =
      project_to_unit_circle ⟨-phi, 1, 0⟩ := rfl
  have g1 : (icosahedronVertices.map project_to_unit_circle).getD 1 0 =
      project_to_unit_circle ⟨-phi, -1, 0⟩ := rfl
  have g2 : (icosahedronVertices.map project_to_unit_circle).getD 2 0 =
      project_to_unit_circle ⟨phi, 1, 0⟩ := rfl
  have g3 : (icosahedronVertices.map project_to_unit_circle).getD 3 0 =
      project_to_unit_circle ⟨phi, -1, 0⟩ := rfl
  have g4 : (icosahedronVertices.map project_to_unit_circle).getD 4 0 =
      project_to_unit_circle ⟨0, phi, 1⟩ := rfl
  have g5 : (icosahedronVertices.map project_to_unit_circle).getD 5 0 =
      project_to_unit_circle ⟨0, phi, -1⟩ := rfl
  have g6 : (icosahedronVertices.map project_to_unit_circle).getD 6 0 =
      project_to_unit_circle ⟨0, -phi, 1⟩ := rfl
  have g7 : (icosahedronVertices.map project_to_unit_circle).getD 7 0 =
      project_to_unit_circle ⟨0, -phi, -1⟩ := rfl
  have g8 : (icosahedronVertices.map project_to_unit_circle).getD 8 0 =
      project_to_unit_circle ⟨-1, 0, phi⟩ := rfl
  have g9 : (icosahedronVertices.map project_to_unit_circle).getD 9 0 =
      project_to_unit_circle ⟨1, 0, phi⟩ := rfl
  have g10 : (icosahedronVertices.map project_to_unit_circle).getD 10 0 =
      project_to_unit_circle ⟨-1, 0, -phi⟩ := rfl
  have g11 : (icosahedronVertices.map project_to_unit_circle).getD 11 0 =
      project_to_unit_circle ⟨1, 0, -phi⟩ := rfl
  intro t ht
  have htri : tri3 icosahedronIndices =
      [(5, 4, 2), (5, 2, 11), (5, 11, 10), (5, 10, 0), (5, 0, 4), (8, 4, 0),
       (8, 9, 4), (9, 2, 4), (9, 3, 2), (3, 11, 2), (3, 7, 11), (7, 10, 11),
       (7, 1, 10), (1, 0, 10), (1, 8, 0), (6, 7, 3), (6, 3, 9), (6, 9, 8),
       (6, 8, 1), (6, 1, 7)] := rfl
  rw [htri] at ht
  fin_cases ht
  all_goals dsimp only
  all_goals refine ⟨by rw [hlen]; decide, by rw [hlen]; decide,
    by rw [hlen]; decide, ?_, ?_, ?_⟩
  all_goals simp only [g0, g1, g2, g3, g4, g5, g6, g7, g8, g9, g10, g11]
  all_goals refine dot_proj_pos _ _ ?_ ?_ ?_
  all_goals simp [dot]
  all_goals nlinarith [hphi, hphim, phi_sq]

/-- Claim C2: for every `iterations` for which `create_icosphere`
returns a mesh (so `iterations ≤ 8`), every vertex of that mesh has
Euclidean length exactly 1 (exact-real model of the float tolerance):
the 12 base vertices are normalized up front, and every midpoint created
in every round is projected onto the unit sphere on creation; acuteness
of every triangle keeps all midpoints away from the origin so the
projection always lands on the sphere. -/
theorem claim_C2 (iterations : Nat) (m : Mesh)
    (h : create_icosphere iterations = some m) :
    ∀ v ∈ m.vertices, norm3 v = 1 := by
  rw [create_icosphere] at h
  split at h
  · obtain rfl : icosphereMesh iterations = m := Option.some.inj h
    intro v hv
    have hv' : v ∈ (icosphereRounds iterations
        (icosahedronVertices.map project_to_unit_circle, icosahedronIndices)).1 := hv
    obtain ⟨hU, _⟩ := icosphereRounds_unit iterations
      (icosahedronVertices.map project_to_unit_circle) icosahedronIndices
      icosa_unit icosa_triacute
    rw [norm3, hU v hv']
    exact Real.sqrt_one
  · exact absurd h (by simp)

/-- Witness for claim C2 at `iterations = 0`. -/
theorem claim_C2_witness :
    ∃ m, create_icosphere 0 = some m ∧ ∀ v ∈ m.vertices, norm3 v = 1 := by
  have h0 : create_icosphere 0 = some (icosphereMesh 0) := by
    rw [create_icosphere, if_pos (by norm_num)]
  exact ⟨icosphereMesh 0, h0, claim_C2 0 (icosphereMesh 0) h0⟩

theorem ckeys_cons (k : Nat × Nat) (v : Nat) (c : Cache) :
    ckeys ((k, v) :: c) = k :: ckeys c := rfl

theorem lookup_cons_self (k : Nat × Nat) (v : Nat) (c : Cache) :
    ((k, v) :: c).lookup k = some v := by
  simp [List.lookup]

theorem lookup_cons_ne (k k' : Nat × Nat) (v : Nat) (c : Cache) (h : k ≠ k') :
    ((k', v) :: c).lookup k = c.lookup k := by
  rw [List.lookup, show (k == k') = false from beq_eq_false_iff_ne.mpr h]

theorem lookup_none_iff (k : Nat × Nat) :
    ∀ c : Cache, c.lookup k = none ↔ k ∉ ckeys c
  | [] => by simp [List.lookup, ckeys]
  | (k', v') :: c => by
    by_cases h : k = k'
    · subst h
      simp [lookup_cons_self, ckeys]
    · rw [lookup_cons_ne _ _ _ _ h, lookup_none_iff k c, ckeys_cons]
      simp [h]

theorem countNew_congr :
    ∀ (ks K K' : List (Nat × Nat)), (∀ x, x ∈ K ↔ x ∈ K') →
    countNew K ks = countNew K' ks
  | [], K, K', h => rfl
  | k :: ks, K, K', h => by
    rw [countNew, countNew]
    rw [countNew_congr ks (k :: K) (k :: K')
      (by intro x; simp only [List.mem_cons]; rw [h x])]
    congr 1
    by_cases hk : k ∈ K
    · rw [if_pos hk, if_pos ((h k).mp hk)]
    · rw [if_neg hk, if_neg (fun hk' => hk ((h k).mpr hk'))]

theorem count_flatMap (l : List (Nat × Nat × Nat))
    (f : Nat × Nat × Nat → List (Nat × Nat)) (b : Nat × Nat) :
    (l.flatMap f).count b = (l.map fun x => (f x).count b).sum := by
  induction l with
  | nil => rfl
  | cons x l ih => simp [List.flatMap_cons, List.count_append, ih]

theorem countP_flatMap (l : List (Nat × Nat × Nat))
    (f : Nat × Nat × Nat → List (Nat × Nat × Nat)) (p : Nat × Nat × Nat → Bool) :
    (l.flatMap f).countP p = (l.map fun x => (f x).countP p).sum := by
  induction l with
  | nil => rfl
  | cons x l ih => simp [List.flatMap_cons, List.countP_append, ih]

theorem sum_map_ite (c : Nat) (l : List (Nat × Nat × Nat))
    (q : Nat × Nat × Nat → Prop) [DecidablePred q] :
    (l.map fun t => if q t then c else 0).sum =
      c * l.countP (fun t => decide (q t)) := by
  induction l with
  | nil => simp
  | cons x l ih =>
    rw [List.map_cons, List.sum_cons, List.countP_cons, ih]
    by_cases hx : q x
    · rw [if_pos hx, if_pos (show decide (q x) = true by simpa using hx)]
      ring
    · rw [if_neg hx, if_neg (show ¬decide (q x) = true by simpa using hx)]
      ring

theorem count_cons_ite (a b : Nat × Nat) (l : List (Nat × Nat)) :
    (b :: l).count a = l.count a + if a = b then 1 else 0 := by
  rw [List.count_cons]
  by_cases h : a = b
  · simp [h]
  · rw [if_neg h, if_neg (fun hba => h ((beq_iff_eq.mp hba).symm))]

theorem ekey_comm (a b : Nat) : ekey a b = ekey b a := by
  simp [ekey, Nat.min_comm, Nat.max_comm]

theorem ekey_eq_iff (a b c d : Nat) :
    ekey a b = ekey c d ↔ (a = c ∧ b = d) ∨ (a = d ∧ b = c) := by
  simp only [ekey, Prod.mk.injEq]
  omega

theorem ekey_mixed_eq (n p q p' q' : Nat) (hp : p < n) (hq : n ≤ q)
    (hp' : p' < n) (hq' : n ≤ q') :
    ekey p q = ekey p' q' ↔ p = p' ∧ q = q' := by
  simp only [ekey, Prod.mk.injEq]
  omega

theorem ekey_mixed_ne_midmid (n p q x y : Nat) (hp : p < n) (hx : n ≤ x)
    (hy : n ≤ y) : ekey p q ≠ ekey x y := by
  simp only [ne_eq, ekey, Prod.mk.injEq]
  omega

theorem ekey_low_ne_high (n a b c d : Nat) (ha : a < n) (hb : b < n)
    (hd : n ≤ d) : ekey a b ≠ ekey c d := by
  simp only [ne_eq, ekey, Prod.mk.injEq]
  omega

theorem mem_edgesOf (e : Nat × Nat) (t : Nat × Nat × Nat) :
    e ∈ edgesOf t ↔ e = ekey t.1 t.2.1 ∨ e = ekey t.2.1 t.2.2 ∨
      e = ekey t.2.2 t.1 := by
  simp [edgesOf]

theorem edgesOf_ne12 (a b c : Nat) (hab : a ≠ b) (hbc : b ≠ c) (hca : c ≠ a) :
    ekey a b ≠ ekey b c := by
  simp only [ne_eq, ekey, Prod.mk.injEq]
  omega

theorem edgesOf_ne23 (a b c : Nat) (hab : a ≠ b) (hbc : b ≠ c) (hca : c ≠ a) :
    ekey b c ≠ ekey c a := by
  simp only [ne_eq, ekey, Prod.mk.injEq]
  omega

theorem edgesOf_ne31 (a b c : Nat) (hab : a ≠ b) (hbc : b ≠ c) (hca : c ≠ a) :
    ekey c a ≠ ekey a b := by
  simp only [ne_eq, ekey, Prod.mk.injEq]
  omega

theorem count_edgesOf (e : Nat × Nat) (t : Nat × Nat × Nat)
    (hab : t.1 ≠ t.2.1) (hbc : t.2.1 ≠ t.2.2) (hca : t.2.2 ≠ t.1) :
    (edgesOf t).count e = if e ∈ edgesOf t then 1 else 0 := by
  have h12 := edgesOf_ne12 t.1 t.2.1 t.2.2 hab hbc hca
  have h23 := edgesOf_ne23 t.1 t.2.1 t.2.2 hab hbc hca
  have h31 := edgesOf_ne31 t.1 t.2.1 t.2.2 hab hbc hca
  by_cases h1 : e = ekey t.1 t.2.1
  · subst h1
    rw [if_pos (by simp [edgesOf]), edgesOf, count_cons_ite, count_cons_ite,
      count_cons_ite, List.count_nil,
      if_neg (show ¬(ekey t.1 t.2.1 = ekey t.2.2 t.1) from fun h => h31 h.symm),
      if_neg (show ¬(ekey t.1 t.2.1 = ekey t.2.1 t.2.2) from h12), if_pos rfl]
  · by_cases h2 : e = ekey t.2.1 t.2.2
    · subst h2
      rw [if_pos (by simp [edgesOf]), edgesOf, count_cons_ite, count_cons_ite,
        count_cons_ite, List.count_nil,
        if_neg (show ¬(ekey t.2.1 t.2.2 = ekey t.2.2 t.1) from h23),
        if_neg (show ¬(ekey t.2.1 t.2.2 = ekey t.1 t.2.1) from
          fun h => h12 h.symm), if_pos rfl]
    · by_cases h3 : e = ekey t.2.2 t.1
      · subst h3
        rw [if_pos (by simp [edgesOf]), edgesOf, count_cons_ite, count_cons_ite,
          count_cons_ite, List.count_nil,
          if_neg (show ¬(ekey t.2.2 t.1 = ekey t.2.1 t.2.2) from
            fun h => h23 h.symm),
          if_neg (show ¬(ekey t.2.2 t.1 = ekey t.1 t.2.1) from h31), if_pos rfl]
      · rw [if_neg (by simp [edgesOf, h1, h2, h3]), edgesOf, count_cons_ite,
          count_cons_ite, count_cons_ite, List.count_nil,
          if_neg h1, if_neg h2, if_neg h3]

theorem create_midpoint_mech (p1 p2 : Nat) (vs : List Vec3) (c : Cache)
    (hvb : ∀ k v, c.lookup k = some v → v < vs.length)
    (hinj : ∀ k k' v, c.lookup k = some v → c.lookup k' = some v → k = k') :
    (create_midpoint p1 p2 vs c).2.1.length =
      vs.length + (if ekey p1 p2 ∈ ckeys c then 0 else 1) ∧
    (∀ x, x ∈ ckeys (create_midpoint p1 p2 vs c).2.2 ↔
      x ∈ ekey p1 p2 :: ckeys c) ∧
    (∀ k v, c.lookup k = some v →
      (create_midpoint p1 p2 vs c).2.2.lookup k = some v) ∧
    (create_midpoint p1 p2 vs c).2.2.lookup (ekey p1 p2) =
      some (create_midpoint p1 p2 vs c).1 ∧
    (∀ k v, (create_midpoint p1 p2 vs c).2.2.lookup k = some v →
      c.lookup k = some v ∨ (v = vs.length ∧ k = ekey p1 p2)) ∧
    (∀ k v, (create_midpoint p1 p2 vs c).2.2.lookup k = some v →
      v < (create_midpoint p1 p2 vs c).2.1.length) ∧
    (∀ k k' v, (create_midpoint p1 p2 vs c).2.2.lookup k = some v →
      (create_midpoint p1 p2 vs c).2.2.lookup k' = some v → k = k') ∧
    vs.length ≤ (create_midpoint p1 p2 vs c).2.1.length := by
  simp only [create_midpoint]
  split
  · rename_i index hl
    dsimp only
    have hmem : ekey p1 p2 ∈ ckeys c :=
      List.mem_map.mpr ⟨_, lookup_mem hl, rfl⟩
    refine ⟨by rw [if_pos hmem]; omega, ?_, fun k v h => h, hl,
      fun k v h => Or.inl h, fun k v h => hvb k v h, hinj, le_refl _⟩
    intro x
    simp only [List.mem_cons]
    exact ⟨fun h => Or.inr h, fun h => h.elim (fun hx => hx ▸ hmem) id⟩
  · rename_i hl
    dsimp only
    have hnot : ekey p1 p2 ∉ ckeys c := (lookup_none_iff _ c).mp hl
    refine ⟨by rw [if_neg hnot]; simp, fun x => by rw [ckeys_cons], ?_,
      lookup_cons_self _ _ _, ?_, ?_, ?_, by simp⟩
    · intro k v h
      have hk : k ≠ ekey p1 p2 := fun he => by rw [he, hl] at h; cases h
      rw [lookup_cons_ne _ _ _ _ hk]
      exact h
    · intro k v h
      by_cases hk : k = ekey p1 p2
      · subst hk
        rw [lookup_cons_self] at h
        exact Or.inr ⟨(Option.some.inj h).symm, rfl⟩
      · rw [lookup_cons_ne _ _ _ _ hk] at h
        exact Or.inl h
    · intro k v h
      by_cases hk : k = ekey p1 p2
      · subst hk
        rw [lookup_cons_self] at h
        obtain rfl : vs.length = v := Option.some.inj h
        simp
      · rw [lookup_cons_ne _ _ _ _ hk] at h
        have := hvb k v h
        simp only [List.length_append, List.length_cons, List.length_nil]
        omega
    · intro k k' v h h'
      by_cases hk : k = ekey p1 p2 <;> by_cases hk' : k' = ekey p1 p2
      · rw [hk, hk']
      · exfalso
        subst hk
        rw [lookup_cons_self] at h
        rw [lookup_cons_ne _ _ _ _ hk'] at h'
        obtain rfl : vs.length = v := Option.some.inj h
        exact absurd (hvb k' _ h') (lt_irrefl _)
      · exfalso
        subst hk'
        rw [lookup_cons_self] at h'
        rw [lookup_cons_ne _ _ _ _ hk] at h
        obtain rfl : vs.length = v := Option.some.inj h'
        exact absurd (hvb k _ h) (lt_irrefl _)
      · rw [lookup_cons_ne _ _ _ _ hk] at h
        rw [lookup_cons_ne _ _ _ _ hk'] at h'
        exact hinj k k' v h h'

theorem subdivideTriangles_mech :
    ∀ (I : List Nat) (vs : List Vec3) (c : Cache),
    (∀ k v, c.lookup k = some v → v < vs.length) →
    (∀ k k' v, c.lookup k = some v → c.lookup k' = some v → k = k') →
    (∀ k v, c.lookup k = some v →
      (subdivideTriangles I vs c).2.2.lookup k = some v) ∧
    (∀ k v, (subdivideTriangles I vs c).2.2.lookup k = some v →
      v < (subdivideTriangles I vs c).2.1.length) ∧
    (∀ k k' v, (subdivideTriangles I vs c).2.2.lookup k = some v →
      (subdivideTriangles I vs c).2.2.lookup k' = some v → k = k') ∧
    (∀ k v, (subdivideTriangles I vs c).2.2.lookup k = some v →
      c.lookup k = some v ∨ (vs.length ≤ v ∧ k ∈ allEdges I)) ∧
    (∀ e ∈ allEdges I,
      ((subdivideTriangles I vs c).2.2.lookup e).isSome = true) ∧
    (subdivideTriangles I vs c).2.1.length =
      vs.length + countNew (ckeys c) (allEdges I) ∧
    (subdivideTriangles I vs c).1 = (tri3 I).flatMap
      (splitPat fun e => ((subdivideTriangles I vs c).2.2.lookup e).getD 0)
  | p1 :: p2 :: p3 :: rest, vs, c => by
    intro hvb hinj
    rcases h1 : create_midpoint p1 p2 vs c with ⟨m1, vs1, c1⟩
    have st1 := create_midpoint_mech p1 p2 vs c hvb hinj
    rw [h1] at st1
    dsimp only at st1
    obtain ⟨hlen1, hkeys1, hstab1, hself1, hprov1, hvb1, hinj1, hle1⟩ := st1
    rcases h2 : create_midpoint p2 p3 vs1 c1 with ⟨m2, vs2, c2⟩
    have st2 := create_midpoint_mech p2 p3 vs1 c1 hvb1 hinj1
    rw [h2] at st2
    dsimp only at st2
    obtain ⟨hlen2, hkeys2, hstab2, hself2, hprov2, hvb2, hinj2, hle2⟩ := st2
    rcases h3 : create_midpoint p3 p1 vs2 c2 with ⟨m3, vs3, c3⟩
    have st3 := create_midpoint_mech p3 p1 vs2 c2 hvb2 hinj2
    rw [h3] at st3
    dsimp only at st3
    obtain ⟨hlen3, hkeys3, hstab3, hself3, hprov3, hvb3, hinj3, hle3⟩ := st3
    obtain ⟨ihstab, ihvb, ihinj, ihprov, ihdom, ihlen, ihshape⟩ :=
      subdivideTriangles_mech rest vs3 c3 hvb3 hinj3
    have heq : subdivideTriangles (p1 :: p2 :: p3 :: rest) vs c =
        ([p1, m1, m3, p2, m2, m1, p3, m3, m2, m1, m2, m3] ++
          (subdivideTriangles rest vs3 c3).1,
         (subdivideTriangles rest vs3 c3).2) := by
      simp only [subdivideTriangles]
      rw [h1]
      dsimp only
      rw [h2]
      dsimp only
      rw [h3]
    rw [heq]
    dsimp only
    have hAE : allEdges (p1 :: p2 :: p3 :: rest) =
        ekey p1 p2 :: ekey p2 p3 :: ekey p3 p1 :: allEdges rest := rfl
    have hstabAll : ∀ k v, c.lookup k = some v →
        (subdivideTriangles rest vs3 c3).2.2.lookup k = some v :=
      fun k v h => ihstab k v (hstab3 k v (hstab2 k v (hstab1 k v h)))
    have hm1F : (subdivideTriangles rest vs3 c3).2.2.lookup (ekey p1 p2) =
        some m1 := ihstab _ _ (hstab3 _ _ (hstab2 _ _ hself1))
    have hm2F : (subdivideTriangles rest vs3 c3).2.2.lookup (ekey p2 p3) =
        some m2 := ihstab _ _ (hstab3 _ _ hself2)
    have hm3F : (subdivideTriangles rest vs3 c3).2.2.lookup (ekey p3 p1) =
        some m3 := ihstab _ _ hself3
    refine ⟨hstabAll, ihvb, ihinj, ?_, ?_, ?_, ?_⟩
    · intro k v h
      rcases ihprov k v h with h' | ⟨hge, hmem⟩
      · rcases hprov3 k v h' with h'' | ⟨rfl, rfl⟩
        · rcases hprov2 k v h'' with h''' | ⟨rfl, rfl⟩
          · rcases hprov1 k v h''' with h4 | ⟨rfl, rfl⟩
            · exact Or.inl h4
            · exact Or.inr ⟨le_refl _, by rw [hAE]; exact List.mem_cons_self _ _⟩
          · exact Or.inr ⟨hle1, by
              rw [hAE]
              exact List.mem_cons_of_mem _ (List.mem_cons_self _ _)⟩
        · exact Or.inr ⟨le_trans hle1 hle2, by
            rw [hAE]
            exact List.mem_cons_of_mem _ (List.mem_cons_of_mem _
              (List.mem_cons_self _ _))⟩
      · exact Or.inr ⟨le_trans (le_trans hle1 (le_trans hle2 hle3)) hge, by
          rw [hAE]
          exact List.mem_cons_of_mem _ (List.mem_cons_of_mem _
            (List.mem_cons_of_mem _ hmem))⟩
    · intro e he
      rw [hAE] at he
      rcases List.mem_cons.mp he with rfl | he
      · rw [hm1F]; rfl
      rcases List.mem_cons.mp he with rfl | he
      · rw [hm2F]; rfl
      rcases List.mem_cons.mp he with rfl | he
      · rw [hm3F]; rfl
      · exact ihdom e he
    · have hk2 : ∀ x, x ∈ ckeys c2 ↔
          x ∈ ekey p2 p3 :: ekey p1 p2 :: ckeys c := by
        intro x
        rw [hkeys2 x]
        simp only [List.mem_cons]
        rw [hkeys1 x]
        simp only [List.mem_cons]
      have hk3 : ∀ x, x ∈ ckeys c3 ↔
          x ∈ ekey p3 p1 :: ekey p2 p3 :: ekey p1 p2 :: ckeys c := by
        intro x
        rw [hkeys3 x]
        simp only [List.mem_cons]
        rw [hk2 x]
        simp only [List.mem_cons]
      have hCN : countNew (ckeys c3) (allEdges rest) =
          countNew (ekey p3 p1 :: ekey p2 p3 :: ekey p1 p2 :: ckeys c)
            (allEdges rest) := countNew_congr _ _ _ hk3
      have hif2 : (if ekey p2 p3 ∈ ckeys c1 then 0 else 1) =
          (if ekey p2 p3 ∈ ekey p1 p2 :: ckeys c then 0 else 1) :=
        if_congr (hkeys1 _) rfl rfl
      have hif3 : (if ekey p3 p1 ∈ ckeys c2 then 0 else 1) =
          (if ekey p3 p1 ∈ ekey p2 p3 :: ekey p1 p2 :: ckeys c then 0 else 1) :=
        if_congr (hk2 _) rfl rfl
      have hR : countNew (ckeys c) (allEdges (p1 :: p2 :: p3 :: rest)) =
          (if ekey p1 p2 ∈ ckeys c then 0 else 1) +
          ((if ekey p2 p3 ∈ ekey p1 p2 :: ckeys c then 0 else 1) +
          ((if ekey p3 p1 ∈ ekey p2 p3 :: ekey p1 p2 :: ckeys c then 0 else 1) +
            countNew (ekey p3 p1 :: ekey p2 p3 :: ekey p1 p2 :: ckeys c)
              (allEdges rest))) := rfl
      omega
    · have hsp : splitPat
          (fun e => ((subdivideTriangles rest vs3 c3).2.2.lookup e).getD 0)
          (p1, p2, p3) =
          [p1, m1, m3, p2, m2, m1, p3, m3, m2, m1, m2, m3] := by
        simp only [splitPat]
        rw [hm1F, hm2F, hm3F]
        simp only [Option.getD_some]
      have hsh : (tri3 (p1 :: p2 :: p3 :: rest)).flatMap
          (splitPat fun e =>
            ((subdivideTriangles rest vs3 c3).2.2.lookup e).getD 0) =
          splitPat (fun e =>
            ((subdivideTriangles rest vs3 c3).2.2.lookup e).getD 0)
            (p1, p2, p3) ++
          (tri3 rest).flatMap (splitPat fun e =>
            ((subdivideTriangles rest vs3 c3).2.2.lookup e).getD 0) := rfl
      rw [hsh, hsp, ihshape]
  | [], vs, c => by
    intro hvb hinj
    exact ⟨fun k v h => h, hvb, hinj, fun k v h => Or.inl h,
      by intro e he; simp [allEdges, tri3] at he, rfl, rfl⟩
  | [a], vs, c => by
    intro hvb hinj
    exact ⟨fun k v h => h, hvb, hinj, fun k v h => Or.inl h,
      by intro e he; simp [allEdges, tri3] at he, rfl, rfl⟩
  | [a, b], vs, c => by
    intro hvb hinj
    exact ⟨fun k v h => h, hvb, hinj, fun k v h => Or.inl h,
      by intro e he; simp [allEdges, tri3] at he, rfl, rfl⟩

theorem ekey_ends (x a b : Nat) :
    (x = (ekey a b).1 ∨ x = (ekey a b).2) ↔ x = a ∨ x = b := by
  simp only [ekey]
  omega

theorem tri3_splitPat_append (M : Nat × Nat → Nat) (t : Nat × Nat × Nat)
    (X : List Nat) : tri3 (splitPat M t ++ X) = children M t ++ tri3 X := rfl

theorem tri3_flatMap_splitPat (M : Nat × Nat → Nat) :
    ∀ T : List (Nat × Nat × Nat),
    tri3 (T.flatMap (splitPat M)) = T.flatMap (children M)
  | [] => rfl
  | t :: T => by
    rw [List.flatMap_cons, List.flatMap_cons, tri3_splitPat_append,
      tri3_flatMap_splitPat M T]

theorem mixed_child1 (n : Nat) (M : Nat × Nat → Nat) (a b c p : Nat)
    (f : Nat × Nat) (ha : a < n) (hp : p < n) (hMf : n ≤ M f)
    (hM1 : n ≤ M (ekey a b)) (hM3 : n ≤ M (ekey c a))
    (hinjf1 : M f = M (ekey a b) → f = ekey a b)
    (hinjf3 : M f = M (ekey c a) → f = ekey c a) :
    ekey p (M f) ∈ edgesOf (a, M (ekey a b), M (ekey c a)) ↔
      (p = a ∧ f = ekey a b) ∨ (p = a ∧ f = ekey c a) := by
  rw [mem_edgesOf]
  dsimp only
  rw [ekey_comm (M (ekey c a)) a]
  rw [ekey_mixed_eq n p (M f) a (M (ekey a b)) hp hMf ha hM1]
  rw [ekey_mixed_eq n p (M f) a (M (ekey c a)) hp hMf ha hM3]
  rw [eq_false (ekey_mixed_ne_midmid n p (M f) (M (ekey a b)) (M (ekey c a))
    hp hM1 hM3)]
  rw [show (M f = M (ekey a b)) ↔ f = ekey a b from ⟨hinjf1, fun h => by rw [h]⟩]
  rw [show (M f = M (ekey c a)) ↔ f = ekey c a from ⟨hinjf3, fun h => by rw [h]⟩]
  tauto

theorem mixed_child4 (n : Nat) (M : Nat × Nat → Nat) (a b c p : Nat)
    (f : Nat × Nat) (hp : p < n)
    (hM1 : n ≤ M (ekey a b)) (hM2 : n ≤ M (ekey b c)) (hM3 : n ≤ M (ekey c a)) :
    ekey p (M f) ∉ edgesOf (M (ekey a b), M (ekey b c), M (ekey c a)) := by
  rw [mem_edgesOf]
  dsimp only
  push_neg
  exact ⟨ekey_mixed_ne_midmid n p (M f) (M (ekey a b)) (M (ekey b c)) hp hM1 hM2,
    ekey_mixed_ne_midmid n p (M f) (M (ekey b c)) (M (ekey c a)) hp hM2 hM3,
    ekey_mixed_ne_midmid n p (M f) (M (ekey c a)) (M (ekey a b)) hp hM3 hM1⟩

theorem midmid_child1 (n : Nat) (M : Nat × Nat → Nat) (a b c : Nat)
    (f g : Nat × Nat) (ha : a < n) (hMf : n ≤ M f) (hMg : n ≤ M g)
    (hM1 : n ≤ M (ekey a b)) (hM3 : n ≤ M (ekey c a))
    (hinjf1 : M f = M (ekey a b) → f = ekey a b)
    (hinjf3 : M f = M (ekey c a) → f = ekey c a)
    (hinjg1 : M g = M (ekey a b) → g = ekey a b)
    (hinjg3 : M g = M (ekey c a) → g = ekey c a) :
    ekey (M f) (M g) ∈ edgesOf (a, M (ekey a b), M (ekey c a)) ↔
      (f = ekey a b ∧ g = ekey c a) ∨ (f = ekey c a ∧ g = ekey a b) := by
  rw [mem_edgesOf]
  dsimp only
  rw [eq_false (ekey_mixed_ne_midmid n a (M (ekey a b)) (M f) (M g)
    ha hMf hMg).symm]
  rw [ekey_comm (M (ekey c a)) a]
  rw [eq_false (ekey_mixed_ne_midmid n a (M (ekey c a)) (M f) (M g)
    ha hMf hMg).symm]
  rw [ekey_eq_iff]
  rw [show (M f = M (ekey a b)) ↔ f = ekey a b from ⟨hinjf1, fun h => by rw [h]⟩]
  rw [show (M f = M (ekey c a)) ↔ f = ekey c a from ⟨hinjf3, fun h => by rw [h]⟩]
  rw [show (M g = M (ekey a b)) ↔ g = ekey a b from ⟨hinjg1, fun h => by rw [h]⟩]
  rw [show (M g = M (ekey c a)) ↔ g = ekey c a from ⟨hinjg3, fun h => by rw [h]⟩]
  tauto

theorem midmid_child4 (n : Nat) (M : Nat × Nat → Nat) (a b c : Nat)
    (f g : Nat × Nat)
    (hinjf1 : M f = M (ekey a b) → f = ekey a b)
    (hinjf2 : M f = M (ekey b c) → f = ekey b c)
    (hinjf3 : M f = M (ekey c a) → f = ekey c a)
    (hinjg1 : M g = M (ekey a b) → g = ekey a b)
    (hinjg2 : M g = M (ekey b c) → g = ekey b c)
    (hinjg3 : M g = M (ekey c a) → g = ekey c a) :
    ekey (M f) (M g) ∈ edgesOf (M (ekey a b), M (ekey b c), M (ekey c a)) ↔
      (f = ekey a b ∧ g = ekey b c) ∨ (f = ekey b c ∧ g = ekey a b) ∨
      (f = ekey b c ∧ g = ekey c a) ∨ (f = ekey c a ∧ g = ekey b c) ∨
      (f = ekey c a ∧ g = ekey a b) ∨ (f = ekey a b ∧ g = ekey c a) := by
  rw [mem_edgesOf]
  dsimp only
  rw [ekey_eq_iff, ekey_eq_iff, ekey_eq_iff]
  rw [show (M f = M (ekey a b)) ↔ f = ekey a b from ⟨hinjf1, fun h => by rw [h]⟩]
  rw [show (M f = M (ekey b c)) ↔ f = ekey b c from ⟨hinjf2, fun h => by rw [h]⟩]
  rw [show (M f = M (ekey c a)) ↔ f = ekey c a from ⟨hinjf3, fun h => by rw [h]⟩]
  rw [show (M g = M (ekey a b)) ↔ g = ekey a b from ⟨hinjg1, fun h => by rw [h]⟩]
  rw [show (M g = M (ekey b c)) ↔ g = ekey b c from ⟨hinjg2, fun h => by rw [h]⟩]
  rw [show (M g = M (ekey c a)) ↔ g = ekey c a from ⟨hinjg3, fun h => by rw [h]⟩]
  simp only [or_assoc]

set_option maxHeartbeats 1600000 in
theorem cpt_mixed (n : Nat) (M : Nat × Nat → Nat) (a b c p : Nat) (f : Nat × Nat)
    (ha : a < n) (hb : b < n) (hc : c < n)
    (hab : a ≠ b) (hbc : b ≠ c) (hca : c ≠ a)
    (hp : p < n) (hMf : n ≤ M f)
    (hM1 : n ≤ M (ekey a b)) (hM2 : n ≤ M (ekey b c)) (hM3 : n ≤ M (ekey c a))
    (hinjf1 : M f = M (ekey a b) → f = ekey a b)
    (hinjf2 : M f = M (ekey b c) → f = ekey b c)
    (hinjf3 : M f = M (ekey c a) → f = ekey c a) :
    (children M (a, b, c)).countP
      (fun ch => decide (ekey p (M f) ∈ edgesOf ch)) =
      if f ∈ edgesOf (a, b, c) ∧ (p = f.1 ∨ p = f.2) then 1 else 0 := by
  have he12 : ekey a b ≠ ekey b c := edgesOf_ne12 a b c hab hbc hca
  have he23 : ekey b c ≠ ekey c a := edgesOf_ne23 a b c hab hbc hca
  have he31 : ekey c a ≠ ekey a b := edgesOf_ne31 a b c hab hbc hca
  have hio1 := mixed_child1 n M a b c p f ha hp hMf hM1 hM3 hinjf1 hinjf3
  have hio2 := mixed_child1 n M b c a p f hb hp hMf hM2 hM1 hinjf2 hinjf1
  have hio3 := mixed_child1 n M c a b p f hc hp hMf hM3 hM2 hinjf3 hinjf2
  have hio4 := mixed_child4 n M a b c p f hp hM1 hM2 hM3
  have hch : children M (a, b, c) =
      [(a, M (ekey a b), M (ekey c a)), (b, M (ekey b c), M (ekey a b)),
       (c, M (ekey c a), M (ekey b c)),
       (M (ekey a b), M (ekey b c), M (ekey c a))] := rfl
  have d4 : decide (ekey p (M f) ∈
      edgesOf (M (ekey a b), M (ekey b c), M (ekey c a))) = false :=
    decide_eq_false hio4
  by_cases hfe : f = ekey a b ∨ f = ekey b c ∨ f = ekey c a
  · rcases hfe with rfl | rfl | rfl
    · by_cases hpab : p = a ∨ p = b
      · have hcond : ekey a b ∈ edgesOf (a, b, c) ∧
            (p = (ekey a b).1 ∨ p = (ekey a b).2) :=
          ⟨(mem_edgesOf _ _).mpr (Or.inl rfl), (ekey_ends p a b).mpr hpab⟩
        rcases hpab with hpa | hpb
        · have d1 : decide (ekey p (M (ekey a b)) ∈
              edgesOf (a, M (ekey a b), M (ekey c a))) = true :=
            decide_eq_true (hio1.mpr (Or.inl ⟨hpa, rfl⟩))
          have d2 : decide (ekey p (M (ekey a b)) ∈
              edgesOf (b, M (ekey b c), M (ekey a b))) = false :=
            decide_eq_false (fun hm => by
              rcases hio2.mp hm with ⟨h, _⟩ | ⟨h, _⟩ <;>
                exact hab (hpa.symm.trans h))
          have d3 : decide (ekey p (M (ekey a b)) ∈
              edgesOf (c, M (ekey c a), M (ekey b c))) = false :=
            decide_eq_false (fun hm => by
              rcases hio3.mp hm with ⟨h, _⟩ | ⟨h, _⟩ <;>
                exact hca ((hpa.symm.trans h).symm))
          rw [hch, List.countP_cons, List.countP_cons, List.countP_cons,
            List.countP_cons, List.countP_nil, d4, if_pos hcond, d1, d2, d3]
          rfl
        · have d1 : decide (ekey p (M (ekey a b)) ∈
              edgesOf (a, M (ekey a b), M (ekey c a))) = false :=
            decide_eq_false (fun hm => by
              rcases hio1.mp hm with ⟨h, _⟩ | ⟨h, _⟩ <;>
                exact hab (h.symm.trans hpb))
          have d2 : decide (ekey p (M (ekey a b)) ∈
              edgesOf (b, M (ekey b c), M (ekey a b))) = true :=
            decide_eq_true (hio2.mpr (Or.inr ⟨hpb, rfl⟩))
          have d3 : decide (ekey p (M (ekey a b)) ∈
              edgesOf (c, M (ekey c a), M (ekey b c))) = false :=
            decide_eq_false (fun hm => by
              rcases hio3.mp hm with ⟨h, _⟩ | ⟨h, _⟩ <;>
                exact hbc (hpb.symm.trans h))
          rw [hch, List.countP_cons, List.countP_cons, List.countP_cons,
            List.countP_cons, List.countP_nil, d4, if_pos hcond, d1, d2, d3]
          rfl
      · have hcond : ¬(ekey a b ∈ edgesOf (a, b, c) ∧
            (p = (ekey a b).1 ∨ p = (ekey a b).2)) :=
          fun hcond => hpab ((ekey_ends p a b).mp hcond.2)
        have d1 : decide (ekey p (M (ekey a b)) ∈
            edgesOf (a, M (ekey a b), M (ekey c a))) = false :=
          decide_eq_false (fun hm => by
            rcases hio1.mp hm with ⟨h, _⟩ | ⟨h, hf⟩
            · exact hpab (Or.inl h)
            · exact he31 hf.symm)
        have d2 : decide (ekey p (M (ekey a b)) ∈
            edgesOf (b, M (ekey b c), M (ekey a b))) = false :=
          decide_eq_false (fun hm => by
            rcases hio2.mp hm with ⟨_, hf⟩ | ⟨h, _⟩
            · exact he12 hf
            · exact hpab (Or.inr h))
        have d3 : decide (ekey p (M (ekey a b)) ∈
            edgesOf (c, M (ekey c a), M (ekey b c))) = false :=
          decide_eq_false (fun hm => by
            rcases hio3.mp hm with ⟨_, hf⟩ | ⟨_, hf⟩
            · exact he31 hf.symm
            · exact he12 hf)
        rw [hch, List.countP_cons, List.countP_cons, List.countP_cons,
          List.countP_cons, List.countP_nil, d4, if_neg hcond, d1, d2, d3]
        rfl
    · by_cases hpbc : p = b ∨ p = c
      · have hcond : ekey b c ∈ edgesOf (a, b, c) ∧
            (p = (ekey b c).1 ∨ p = (ekey b c).2) :=
          ⟨(mem_edgesOf _ _).mpr (Or.inr (Or.inl rfl)),
            (ekey_ends p b c).mpr hpbc⟩
        rcases hpbc with hpb | hpc
        · have d1 : decide (ekey p (M (ekey b c)) ∈
              edgesOf (a, M (ekey a b), M (ekey c a))) = false :=
            decide_eq_false (fun hm => by
              rcases hio1.mp hm with ⟨_, hf⟩ | ⟨_, hf⟩
              · exact he12 hf.symm
              · exact he23 hf)
          have d2 : decide (ekey p (M (ekey b c)) ∈
              edgesOf (b, M (ekey b c), M (ekey a b))) = true :=
            decide_eq_true (hio2.mpr (Or.inl ⟨hpb, rfl⟩))
          have d3 : decide (ekey p (M (ekey b c)) ∈
              edgesOf (c, M (ekey c a), M (ekey b c))) = false :=
            decide_eq_false (fun hm => by
              rcases hio3.mp hm with ⟨_, hf⟩ | ⟨h, _⟩
              · exact he23 hf
              · exact hbc (hpb.symm.trans h))
          rw [hch, List.countP_cons, List.countP_cons, List.countP_cons,
            List.countP_cons, List.countP_nil, d4, if_pos hcond, d1, d2, d3]
          rfl
        · have d1 : decide (ekey p (M (ekey b c)) ∈
              edgesOf (a, M (ekey a b), M (ekey c a))) = false :=
            decide_eq_false (fun hm => by
              rcases hio1.mp hm with ⟨_, hf⟩ | ⟨_, hf⟩
              · exact he12 hf.symm
              · exact he23 hf)
          have d2 : decide (ekey p (M (ekey b c)) ∈
              edgesOf (b, M (ekey b c), M (ekey a b))) = false :=
            decide_eq_false (fun hm => by
              rcases hio2.mp hm with ⟨h, _⟩ | ⟨_, hf⟩
              · exact hbc (h.symm.trans hpc)
              · exact he12 hf.symm)
          have d3 : decide (ekey p (M (ekey b c)) ∈
              edgesOf (c, M (ekey c a), M (ekey b c))) = true :=
            decide_eq_true (hio3.mpr (Or.inr ⟨hpc, rfl⟩))
          rw [hch, List.countP_cons, List.countP_cons, List.countP_cons,
            List.countP_cons, List.countP_nil, d4, if_pos hcond, d1, d2, d3]
          rfl
      · have hcond : ¬(ekey b c ∈ edgesOf (a, b, c) ∧
            (p = (ekey b c).1 ∨ p = (ekey b c).2)) :=
          fun hcond => hpbc ((ekey_ends p b c).mp hcond.2)
        have d1 : decide (ekey p (M (ekey b c)) ∈
            edgesOf (a, M (ekey a b), M (ekey c a))) = false :=
          decide_eq_false (fun hm => by
            rcases hio1.mp hm with ⟨_, hf⟩ | ⟨_, hf⟩
            · exact he12 hf.symm
            · exact he23 hf)
        have d2 : decide (ekey p (M (ekey b c)) ∈
            edgesOf (b, M (ekey b c), M (ekey a b))) = false :=
          decide_eq_false (fun hm => by
            rcases hio2.mp hm with ⟨h, _⟩ | ⟨_, hf⟩
            · exact hpbc (Or.inl h)
            · exact he12 hf.symm)
        have d3 : decide (ekey p (M (ekey b c)) ∈
            edgesOf (c, M (ekey c a), M (ekey b c))) = false :=
          decide_eq_false (fun hm => by
            rcases hio3.mp hm with ⟨_, hf⟩ | ⟨h, _⟩
            · exact he23 hf
            · exact hpbc (Or.inr h))
        rw [hch, List.countP_cons, List.countP_cons, List.countP_cons,
          List.countP_cons, List.countP_nil, d4, if_neg hcond, d1, d2, d3]
        rfl
    · by_cases hpca : p = c ∨ p = a
      · have hcond : ekey c a ∈ edgesOf (a, b, c) ∧
            (p = (ekey c a).1 ∨ p = (ekey c a).2) :=
          ⟨(mem_edgesOf _ _).mpr (Or.inr (Or.inr rfl)),
            (ekey_ends p c a).mpr hpca⟩
        rcases hpca with hpc | hpa
        · have d1 : decide (ekey p (M (ekey c a)) ∈
              edgesOf (a, M (ekey a b), M (ekey c a))) = false :=
            decide_eq_false (fun hm => by
              rcases hio1.mp hm with ⟨_, hf⟩ | ⟨h, _⟩
              · exact he31 hf
              · exact hca (h.symm.trans hpc).symm)
          have d2 : decide (ekey p (M (ekey c a)) ∈
              edgesOf (b, M (ekey b c), M (ekey a b))) = false :=
            decide_eq_false (fun hm => by
              rcases hio2.mp hm with ⟨_, hf⟩ | ⟨_, hf⟩
              · exact he23 hf.symm
              · exact he31 hf)
          have d3 : decide (ekey p (M (ekey c a)) ∈
              edgesOf (c, M (ekey c a), M (ekey b c))) = true :=
            decide_eq_true (hio3.mpr (Or.inl ⟨hpc, rfl⟩))
          rw [hch, List.countP_cons, List.countP_cons, List.countP_cons,
            List.countP_cons, List.countP_nil, d4, if_pos hcond, d1, d2, d3]
          rfl
        · have d1 : decide (ekey p (M (ekey c a)) ∈
              edgesOf (a, M (ekey a b), M (ekey c a))) = true :=
            decide_eq_true (hio1.mpr (Or.inr ⟨hpa, rfl⟩))
          have d2 : decide (ekey p (M (ekey c a)) ∈
              edgesOf (b, M (ekey b c), M (ekey a b))) = false :=
            decide_eq_false (fun hm => by
              rcases hio2.mp hm with ⟨_, hf⟩ | ⟨_, hf⟩
              · exact he23 hf.symm
              · exact he31 hf)
          have d3 : decide (ekey p (M (ekey c a)) ∈
              edgesOf (c, M (ekey c a), M (ekey b c))) = false :=
            decide_eq_false (fun hm => by
              rcases hio3.mp hm with ⟨h, _⟩ | ⟨_, hf⟩
              · exact hca (hpa.symm.trans h).symm
              · exact he23 hf.symm)
          rw [hch, List.countP_cons, List.countP_cons, List.countP_cons,
            List.countP_cons, List.countP_nil, d4, if_pos hcond, d1, d2, d3]
          rfl
      · have hcond : ¬(ekey c a ∈ edgesOf (a, b, c) ∧
            (p = (ekey c a).1 ∨ p = (ekey c a).2)) :=
          fun hcond => hpca ((ekey_ends p c a).mp hcond.2)
        have d1 : decide (ekey p (M (ekey c a)) ∈
            edgesOf (a, M (ekey a b), M (ekey c a))) = false :=
          decide_eq_false (fun hm => by
            rcases hio1.mp hm with ⟨_, hf⟩ | ⟨h, _⟩
            · exact he31 hf
            · exact hpca (Or.inr h))
        have d2 : decide (ekey p (M (ekey c a)) ∈
            edgesOf (b, M (ekey b c), M (ekey a b))) = false :=
          decide_eq_false (fun hm => by
            rcases hio2.mp hm with ⟨_, hf⟩ | ⟨_, hf⟩
            · exact he23 hf.symm
            · exact he31 hf)
        have d3 : decide (ekey p (M (ekey c a)) ∈
            edgesOf (c, M (ekey c a), M (ekey b c))) = false :=
          decide_eq_false (fun hm => by
            rcases hio3.mp hm with ⟨h, _⟩ | ⟨_, hf⟩
            · exact hpca (Or.inl h)
            · exact he23 hf.symm)
        rw [hch, List.countP_cons, List.countP_cons, List.countP_cons,
          List.countP_cons, List.countP_nil, d4, if_neg hcond, d1, d2, d3]
        rfl
  · push_neg at hfe
    have hcond : ¬(f ∈ edgesOf (a, b, c) ∧ (p = f.1 ∨ p = f.2)) := by
      intro hcond
      rcases (mem_edgesOf f (a, b, c)).mp hcond.1 with h | h | h
      · exact hfe.1 h
      · exact hfe.2.1 h
      · exact hfe.2.2 h
    have d1 : decide (ekey p (M f) ∈
        edgesOf (a, M (ekey a b), M (ekey c a))) = false :=
      decide_eq_false (fun hm => by
        rcases hio1.mp hm with ⟨_, hf⟩ | ⟨_, hf⟩
        · exact hfe.1 hf
        · exact hfe.2.2 hf)
    have d2 : decide (ekey p (M f) ∈
        edgesOf (b, M (ekey b c), M (ekey a b))) = false :=
      decide_eq_false (fun hm => by
        rcases hio2.mp hm with ⟨_, hf⟩ | ⟨_, hf⟩
        · exact hfe.2.1 hf
        · exact hfe.1 hf)
    have d3 : decide (ekey p (M f) ∈
        edgesOf (c, M (ekey c a), M (ekey b c))) = false :=
      decide_eq_false (fun hm => by
        rcases hio3.mp hm with ⟨_, hf⟩ | ⟨_, hf⟩
        · exact hfe.2.2 hf
        · exact hfe.2.1 hf)
    rw [hch, List.countP_cons, List.countP_cons, List.countP_cons,
      List.countP_cons, List.countP_nil, d4, if_neg hcond, d1, d2, d3]
    rfl

set_option maxHeartbeats 1600000 in
theorem cpt_midmid (n : Nat) (M : Nat × Nat → Nat) (a b c : Nat) (f g : Nat × Nat)
    (ha : a < n) (hb : b < n) (hc : c < n)
    (hab : a ≠ b) (hbc : b ≠ c) (hca : c ≠ a)
    (hMf : n ≤ M f) (hMg : n ≤ M g) (hfg : f ≠ g)
    (hM1 : n ≤ M (ekey a b)) (hM2 : n ≤ M (ekey b c)) (hM3 : n ≤ M (ekey c a))
    (hinjf1 : M f = M (ekey a b) → f = ekey a b)
    (hinjf2 : M f = M (ekey b c) → f = ekey b c)
    (hinjf3 : M f = M (ekey c a) → f = ekey c a)
    (hinjg1 : M g = M (ekey a b) → g = ekey a b)
    (hinjg2 : M g = M (ekey b c) → g = ekey b c)
    (hinjg3 : M g = M (ekey c a) → g = ekey c a) :
    (children M (a, b, c)).countP
      (fun ch => decide (ekey (M f) (M g) ∈ edgesOf ch)) =
      if f ∈ edgesOf (a, b, c) ∧ g ∈ edgesOf (a, b, c) then 2 else 0 := by
  have he12 : ekey a b ≠ ekey b c := edgesOf_ne12 a b c hab hbc hca
  have he23 : ekey b c ≠ ekey c a := edgesOf_ne23 a b c hab hbc hca
  have he31 : ekey c a ≠ ekey a b := edgesOf_ne31 a b c hab hbc hca
  have hio1 := midmid_child1 n M a b c f g ha hMf hMg hM1 hM3
    hinjf1 hinjf3 hinjg1 hinjg3
  have hio2 := midmid_child1 n M b c a f g hb hMf hMg hM2 hM1
    hinjf2 hinjf1 hinjg2 hinjg1
  have hio3 := midmid_child1 n M c a b f g hc hMf hMg hM3 hM2
    hinjf3 hinjf2 hinjg3 hinjg2
  have hio4 := midmid_child4 n M a b c f g hinjf1 hinjf2 hinjf3
    hinjg1 hinjg2 hinjg3
  have hch : children M (a, b, c) =
      [(a, M (ekey a b), M (ekey c a)), (b, M (ekey b c), M (ekey a b)),
       (c, M (ekey c a), M (ekey b c)),
       (M (ekey a b), M (ekey b c), M (ekey c a))] := rfl
  by_cases hmem : (f = ekey a b ∨ f = ekey b c ∨ f = ekey c a) ∧
      (g = ekey a b ∨ g = ekey b c ∨ g = ekey c a)
  · have hcond : f ∈ edgesOf (a, b, c) ∧ g ∈ edgesOf (a, b, c) :=
      ⟨(mem_edgesOf _ _).mpr hmem.1, (mem_edgesOf _ _).mpr hmem.2⟩
    obtain ⟨hf', hg'⟩ := hmem
    rcases hf' with rfl | rfl | rfl <;> rcases hg' with rfl | rfl | rfl
    · exact absurd rfl hfg
    · have d1 : decide (ekey (M (ekey a b)) (M (ekey b c)) ∈
          edgesOf (a, M (ekey a b), M (ekey c a))) = false :=
        decide_eq_false (fun hm => by
          rcases hio1.mp hm with ⟨_, hg⟩ | ⟨hf, _⟩
          · exact he23 hg
          · exact he31 hf.symm)
      have d2 : decide (ekey (M (ekey a b)) (M (ekey b c)) ∈
          edgesOf (b, M (ekey b c), M (ekey a b))) = true :=
        decide_eq_true (hio2.mpr (Or.inr ⟨rfl, rfl⟩))
      have d3 : decide (ekey (M (ekey a b)) (M (ekey b c)) ∈
          edgesOf (c, M (ekey c a), M (ekey b c))) = false :=
        decide_eq_false (fun hm => by
          rcases hio3.mp hm with ⟨hf, _⟩ | ⟨hf, _⟩
          · exact he31 hf.symm
          · exact he12 hf)
      have d4 : decide (ekey (M (ekey a b)) (M (ekey b c)) ∈
          edgesOf (M (ekey a b), M (ekey b c), M (ekey c a))) = true :=
        decide_eq_true (hio4.mpr (Or.inl ⟨rfl, rfl⟩))
      rw [hch, List.countP_cons, List.countP_cons, List.countP_cons,
        List.countP_cons, List.countP_nil, d4, if_pos hcond, d1, d2, d3]
      rfl
    · have d1 : decide (ekey (M (ekey a b)) (M (ekey c a)) ∈
          edgesOf (a, M (ekey a b), M (ekey c a))) = true :=
        decide_eq_true (hio1.mpr (Or.inl ⟨rfl, rfl⟩))
      have d2 : decide (ekey (M (ekey a b)) (M (ekey c a)) ∈
          edgesOf (b, M (ekey b c), M (ekey a b))) = false :=
        decide_eq_false (fun hm => by
          rcases hio2.mp hm with ⟨hf, _⟩ | ⟨_, hg⟩
          · exact he12 hf
          · exact he23 hg.symm)
      have d3 : decide (ekey (M (ekey a b)) (M (ekey c a)) ∈
          edgesOf (c, M (ekey c a), M (ekey b c))) = false :=
        decide_eq_false (fun hm => by
          rcases hio3.mp hm with ⟨hf, _⟩ | ⟨hf, _⟩
          · exact he31 hf.symm
          · exact he12 hf)
      have d4 : decide (ekey (M (ekey a b)) (M (ekey c a)) ∈
          edgesOf (M (ekey a b), M (ekey b c), M (ekey c a))) = true :=
        decide_eq_true (hio4.mpr (Or.inr (Or.inr (Or.inr (Or.inr
          (Or.inr ⟨rfl, rfl⟩))))))
      rw [hch, List.countP_cons, List.countP_cons, List.countP_cons,
        List.countP_cons, List.countP_nil, d4, if_pos hcond, d1, d2, d3]
      rfl
    · have d1 : decide (ekey (M (ekey b c)) (M (ekey a b)) ∈
          edgesOf (a, M (ekey a b), M (ekey c a))) = false :=
        decide_eq_false (fun hm => by
          rcases hio1.mp hm with ⟨hf, _⟩ | ⟨hf, _⟩
          · exact he12 hf.symm
          · exact he23 hf)
      have d2 : decide (ekey (M (ekey b c)) (M (ekey a b)) ∈
          edgesOf (b, M (ekey b c), M (ekey a b))) = true :=
        decide_eq_true (hio2.mpr (Or.inl ⟨rfl, rfl⟩))
      have d3 : decide (ekey (M (ekey b c)) (M (ekey a b)) ∈
          edgesOf (c, M (ekey c a), M (ekey b c))) = false :=
        decide_eq_false (fun hm => by
          rcases hio3.mp hm with ⟨hf, _⟩ | ⟨_, hg⟩
          · exact he23 hf
          · exact he31 hg.symm)
      have d4 : decide (ekey (M (ekey b c)) (M (ekey a b)) ∈
          edgesOf (M (ekey a b), M (ekey b c), M (ekey c a))) = true :=
        decide_eq_true (hio4.mpr (Or.inr (Or.inl ⟨rfl, rfl⟩)))
      rw [hch, List.countP_cons, List.countP_cons, List.countP_cons,
        List.countP_cons, List.countP_nil, d4, if_pos hcond, d1, d2, d3]
      rfl
    · exact absurd rfl hfg
    · have d1 : decide (ekey (M (ekey b c)) (M (ekey c a)) ∈
          edgesOf (a, M (ekey a b), M (ekey c a))) = false :=
        decide_eq_false (fun hm => by
          rcases hio1.mp hm with ⟨hf, _⟩ | ⟨hf, _⟩
          · exact he12 hf.symm
          · exact he23 hf)
      have d2 : decide (ekey (M (ekey b c)) (M (ekey c a)) ∈
          edgesOf (b, M (ekey b c), M (ekey a b))) = false :=
        decide_eq_false (fun hm => by
          rcases hio2.mp hm with ⟨_, hg⟩ | ⟨hf, _⟩
          · exact he31 hg
          · exact he12 hf.symm)
      have d3 : decide (ekey (M (ekey b c)) (M (ekey c a)) ∈
          edgesOf (c, M (ekey c a), M (ekey b c))) = true :=
        decide_eq_true (hio3.mpr (Or.inr ⟨rfl, rfl⟩))
      have d4 : decide (ekey (M (ekey b c)) (M (ekey c a)) ∈
          edgesOf (M (ekey a b), M (ekey b c), M (ekey c a))) = true :=
        decide_eq_true (hio4.mpr (Or.inr (Or.inr (Or.inl ⟨rfl, rfl⟩))))
      rw [hch, List.countP_cons, List.countP_cons, List.countP_cons,
        List.countP_cons, List.countP_nil, d4, if_pos hcond, d1, d2, d3]
      rfl
    · have d1 : decide (ekey (M (ekey c a)) (M (ekey a b)) ∈
          edgesOf (a, M (ekey a b), M (ekey c a))) = true :=
        decide_eq_true (hio1.mpr (Or.inr ⟨rfl, rfl⟩))
      have d2 : decide (ekey (M (ekey c a)) (M (ekey a b)) ∈
          edgesOf (b, M (ekey b c), M (ekey a b))) = false :=
        decide_eq_false (fun hm => by
          rcases hio2.mp hm with ⟨hf, _⟩ | ⟨hf, _⟩
          · exact he23 hf.symm
          · exact he31 hf)
      have d3 : decide (ekey (M (ekey c a)) (M (ekey a b)) ∈
          edgesOf (c, M (ekey c a), M (ekey b c))) = false :=
        decide_eq_false (fun hm => by
          rcases hio3.mp hm with ⟨_, hg⟩ | ⟨hf, _⟩
          · exact he12 hg
          · exact he23 hf.symm)
      have d4 : decide (ekey (M (ekey c a)) (M (ekey a b)) ∈
          edgesOf (M (ekey a b), M (ekey b c), M (ekey c a))) = true :=
        decide_eq_true (hio4.mpr (Or.inr (Or.inr (Or.inr (Or.inr
          (Or.inl ⟨rfl, rfl⟩))))))
      rw [hch, List.countP_cons, List.countP_cons, List.countP_cons,
        List.countP_cons, List.countP_nil, d4, if_pos hcond, d1, d2, d3]
      rfl
    · have d1 : decide (ekey (M (ekey c a)) (M (ekey b c)) ∈
          edgesOf (a, M (ekey a b), M (ekey c a))) = false :=
        decide_eq_false (fun hm => by
          rcases hio1.mp hm with ⟨hf, _⟩ | ⟨_, hg⟩
          · exact he31 hf
          · exact he12 hg.symm)
      have d2 : decide (ekey (M (ekey c a)) (M (ekey b c)) ∈
          edgesOf (b, M (ekey b c), M (ekey a b))) = false :=
        decide_eq_false (fun hm => by
          rcases hio2.mp hm with ⟨hf, _⟩ | ⟨hf, _⟩
          · exact he23 hf.symm
          · exact he31 hf)
      have d3 : decide (ekey (M (ekey c a)) (M (ekey b c)) ∈
          edgesOf (c, M (ekey c a), M (ekey b c))) = true :=
        decide_eq_true (hio3.mpr (Or.inl ⟨rfl, rfl⟩))
      have d4 : decide (ekey (M (ekey c a)) (M (ekey b c)) ∈
          edgesOf (M (ekey a b), M (ekey b c), M (ekey c a))) = true :=
        decide_eq_true (hio4.mpr (Or.inr (Or.inr (Or.inr
          (Or.inl ⟨rfl, rfl⟩)))))
      rw [hch, List.countP_cons, List.countP_cons, List.countP_cons,
        List.countP_cons, List.countP_nil, d4, if_pos hcond, d1, d2, d3]
      rfl
    · exact absurd rfl hfg
  · have hcond : ¬(f ∈ edgesOf (a, b, c) ∧ g ∈ edgesOf (a, b, c)) :=
      fun hc => hmem ⟨(mem_edgesOf f (a, b, c)).mp hc.1,
        (mem_edgesOf g (a, b, c)).mp hc.2⟩
    have hboth : ∀ f' g' : Nat × Nat,
        (f' = ekey a b ∨ f' = ekey b c ∨ f' = ekey c a) →
        (g' = ekey a b ∨ g' = ekey b c ∨ g' = ekey c a) →
        f = f' → g = g' → False := by
      intro f' g' hf' hg' hff hgg
      exact hmem ⟨hff ▸ hf', hgg ▸ hg'⟩
    have d1 : decide (ekey (M f) (M g) ∈
        edgesOf (a, M (ekey a b), M (ekey c a))) = false :=
      decide_eq_false (fun hm => by
        rcases hio1.mp hm with ⟨hf, hg⟩ | ⟨hf, hg⟩
        · exact hboth _ _ (Or.inl rfl) (Or.inr (Or.inr rfl)) hf hg
        · exact hboth _ _ (Or.inr (Or.inr rfl)) (Or.inl rfl) hf hg)
    have d2 : decide (ekey (M f) (M g) ∈
        edgesOf (b, M (ekey b c), M (ekey a b))) = false :=
      decide_eq_false (fun hm => by
        rcases hio2.mp hm with ⟨hf, hg⟩ | ⟨hf, hg⟩
        · exact hboth _ _ (Or.inr (Or.inl rfl)) (Or.inl rfl) hf hg
        · exact hboth _ _ (Or.inl rfl) (Or.inr (Or.inl rfl)) hf hg)
    have d3 : decide (ekey (M f) (M g) ∈
        edgesOf (c, M (ekey c a), M (ekey b c))) = false :=
      decide_eq_false (fun hm => by
        rcases hio3.mp hm with ⟨hf, hg⟩ | ⟨hf, hg⟩
        · exact hboth _ _ (Or.inr (Or.inr rfl)) (Or.inr (Or.inl rfl)) hf hg
        · exact hboth _ _ (Or.inr (Or.inl rfl)) (Or.inr (Or.inr rfl)) hf hg)
    have d4 : decide (ekey (M f) (M g) ∈
        edgesOf (M (ekey a b), M (ekey b c), M (ekey c a))) = false :=
      decide_eq_false (fun hm => by
        rcases hio4.mp hm with ⟨hf, hg⟩ | ⟨hf, hg⟩ | ⟨hf, hg⟩ |
          ⟨hf, hg⟩ | ⟨hf, hg⟩ | ⟨hf, hg⟩
        · exact hboth _ _ (Or.inl rfl) (Or.inr (Or.inl rfl)) hf hg
        · exact hboth _ _ (Or.inr (Or.inl rfl)) (Or.inl rfl) hf hg
        · exact hboth _ _ (Or.inr (Or.inl rfl)) (Or.inr (Or.inr rfl)) hf hg
        · exact hboth _ _ (Or.inr (Or.inr rfl)) (Or.inr (Or.inl rfl)) hf hg
        · exact hboth _ _ (Or.inr (Or.inr rfl)) (Or.inl rfl) hf hg
        · exact hboth _ _ (Or.inl rfl) (Or.inr (Or.inr rfl)) hf hg)
    rw [hch, List.countP_cons, List.countP_cons, List.countP_cons,
      List.countP_cons, List.countP_nil, d4, if_neg hcond, d1, d2, d3]
    rfl

theorem mixed_child1_corner (n : Nat) (M : Nat × Nat → Nat) (a b c p : Nat)
    (f : Nat × Nat) (ha : a < n) (hp : p < n) (hMf : n ≤ M f)
    (hM1 : n ≤ M (ekey a b)) (hM3 : n ≤ M (ekey c a)) :
    ekey p (M f) ∈ edgesOf (a, M (ekey a b), M (ekey c a)) → p = a := by
  rw [mem_edgesOf]
  dsimp only
  intro h
  rcases h with h | h | h
  · exact ((ekey_mixed_eq n p (M f) a (M (ekey a b)) hp hMf ha hM1).mp h).1
  · exact absurd h (ekey_mixed_ne_midmid n p (M f) _ _ hp hM1 hM3)
  · exact ((ekey_mixed_eq n p (M f) a (M (ekey c a)) hp hMf ha hM3).mp
      (h.trans (ekey_comm _ _))).1

theorem decode_child (n : Nat) (M : Nat × Nat → Nat) (a b c : Nat)
    (ha : a < n) (hb : b < n) (hc : c < n)
    (hab : a ≠ b) (hbc : b ≠ c) (hca : c ≠ a)
    (e' : Nat × Nat) (ch : Nat × Nat × Nat)
    (hch : ch ∈ children M (a, b, c)) (he : e' ∈ edgesOf ch) :
    (∃ p f, p < n ∧ (f = ekey a b ∨ f = ekey b c ∨ f = ekey c a) ∧
      (p = f.1 ∨ p = f.2) ∧ e' = ekey p (M f)) ∨
    (∃ f g, (f = ekey a b ∨ f = ekey b c ∨ f = ekey c a) ∧
      (g = ekey a b ∨ g = ekey b c ∨ g = ekey c a) ∧ f ≠ g ∧
      e' = ekey (M f) (M g)) := by
  have he12 := edgesOf_ne12 a b c hab hbc hca
  have he23 := edgesOf_ne23 a b c hab hbc hca
  have he31 := edgesOf_ne31 a b c hab hbc hca
  rcases List.mem_cons.mp hch with rfl | hch
  · rcases (mem_edgesOf _ _).mp he with h | h | h
    · exact Or.inl ⟨a, ekey a b, ha, Or.inl rfl,
        (ekey_ends a a b).mpr (Or.inl rfl), h⟩
    · exact Or.inr ⟨ekey a b, ekey c a, Or.inl rfl, Or.inr (Or.inr rfl),
        he31.symm, h⟩
    · exact Or.inl ⟨a, ekey c a, ha, Or.inr (Or.inr rfl),
        (ekey_ends a c a).mpr (Or.inr rfl), h.trans (ekey_comm _ _)⟩
  rcases List.mem_cons.mp hch with rfl | hch
  · rcases (mem_edgesOf _ _).mp he with h | h | h
    · exact Or.inl ⟨b, ekey b c, hb, Or.inr (Or.inl rfl),
        (ekey_ends b b c).mpr (Or.inl rfl), h⟩
    · exact Or.inr ⟨ekey b c, ekey a b, Or.inr (Or.inl rfl), Or.inl rfl,
        he12.symm, h⟩
    · exact Or.inl ⟨b, ekey a b, hb, Or.inl rfl,
        (ekey_ends b a b).mpr (Or.inr rfl), h.trans (ekey_comm _ _)⟩
  rcases List.mem_cons.mp hch with rfl | hch
  · rcases (mem_edgesOf _ _).mp he with h | h | h
    · exact Or.inl ⟨c, ekey c a, hc, Or.inr (Or.inr rfl),
        (ekey_ends c c a).mpr (Or.inl rfl), h⟩
    · exact Or.inr ⟨ekey c a, ekey b c, Or.inr (Or.inr rfl),
        Or.inr (Or.inl rfl), he23.symm, h⟩
    · exact Or.inl ⟨c, ekey b c, hc, Or.inr (Or.inl rfl),
        (ekey_ends c b c).mpr (Or.inr rfl), h.trans (ekey_comm _ _)⟩
  rcases List.mem_cons.mp hch with rfl | hch
  · rcases (mem_edgesOf _ _).mp he with h | h | h
    · exact Or.inr ⟨ekey a b, ekey b c, Or.inl rfl, Or.inr (Or.inl rfl),
        he12, h⟩
    · exact Or.inr ⟨ekey b c, ekey c a, Or.inr (Or.inl rfl),
        Or.inr (Or.inr rfl), he23, h⟩
    · exact Or.inr ⟨ekey c a, ekey a b, Or.inr (Or.inr rfl), Or.inl rfl,
        he31, h⟩
  · cases hch

set_option maxHeartbeats 1600000 in
theorem cpt2_mixed_mixed (n : Nat) (M : Nat × Nat → Nat) (a b c p : Nat)
    (f f2 : Nat × Nat)
    (ha : a < n) (hb : b < n) (hc : c < n)
    (hab : a ≠ b) (hbc : b ≠ c) (hca : c ≠ a)
    (hp : p < n) (hMf : n ≤ M f) (hMf2 : n ≤ M f2)
    (hM1 : n ≤ M (ekey a b)) (hM2 : n ≤ M (ekey b c)) (hM3 : n ≤ M (ekey c a))
    (hinjf1 : M f = M (ekey a b) → f = ekey a b)
    (hinjf2 : M f = M (ekey b c) → f = ekey b c)
    (hinjf3 : M f = M (ekey c a) → f = ekey c a)
    (hinjf21 : M f2 = M (ekey a b) → f2 = ekey a b)
    (hinjf22 : M f2 = M (ekey b c) → f2 = ekey b c)
    (hinjf23 : M f2 = M (ekey c a) → f2 = ekey c a) :
    (children M (a, b, c)).countP (fun ch =>
      decide (ekey p (M f) ∈ edgesOf ch ∧ ekey p (M f2) ∈ edgesOf ch)) ≤
      if f ∈ edgesOf (a, b, c) ∧ f2 ∈ edgesOf (a, b, c) then 1 else 0 := by
  have hch : children M (a, b, c) =
      [(a, M (ekey a b), M (ekey c a)), (b, M (ekey b c), M (ekey a b)),
       (c, M (ekey c a), M (ekey b c)),
       (M (ekey a b), M (ekey b c), M (ekey c a))] := rfl
  have d4 : decide ((ekey p (M f) ∈
      edgesOf (M (ekey a b), M (ekey b c), M (ekey c a))) ∧
      (ekey p (M f2) ∈ edgesOf (M (ekey a b), M (ekey b c), M (ekey c a)))) =
      false :=
    decide_eq_false (fun hcc =>
      mixed_child4 n M a b c p f hp hM1 hM2 hM3 hcc.1)
  by_cases hD : f ∈ edgesOf (a, b, c) ∧ f2 ∈ edgesOf (a, b, c)
  · rw [if_pos hD]
    by_cases hpa : p = a
    · have d2 : decide ((ekey p (M f) ∈
          edgesOf (b, M (ekey b c), M (ekey a b))) ∧
          (ekey p (M f2) ∈ edgesOf (b, M (ekey b c), M (ekey a b)))) =
          false :=
        decide_eq_false (fun hcc => hab (hpa.symm.trans
          (mixed_child1_corner n M b c a p f hb hp hMf hM2 hM1 hcc.1)))
      have d3 : decide ((ekey p (M f) ∈
          edgesOf (c, M (ekey c a), M (ekey b c))) ∧
          (ekey p (M f2) ∈ edgesOf (c, M (ekey c a), M (ekey b c)))) =
          false :=
        decide_eq_false (fun hcc => hca (hpa.symm.trans
          (mixed_child1_corner n M c a b p f hc hp hMf hM3 hM2 hcc.1)).symm)
      by_cases h1 : (ekey p (M f) ∈
          edgesOf (a, M (ekey a b), M (ekey c a))) ∧
          (ekey p (M f2) ∈ edgesOf (a, M (ekey a b), M (ekey c a)))
      · rw [hch, List.countP_cons, List.countP_cons, List.countP_cons,
          List.countP_cons, List.countP_nil, d4, d2, d3, decide_eq_true h1]
        decide
      · rw [hch, List.countP_cons, List.countP_cons, List.countP_cons,
          List.countP_cons, List.countP_nil, d4, d2, d3, decide_eq_false h1]
        decide
    · by_cases hpb : p = b
      · have d1 : decide ((ekey p (M f) ∈
            edgesOf (a, M (ekey a b), M (ekey c a))) ∧
            (ekey p (M f2) ∈ edgesOf (a, M (ekey a b), M (ekey c a)))) =
            false :=
          decide_eq_false (fun hcc => hpa
            (mixed_child1_corner n M a b c p f ha hp hMf hM1 hM3 hcc.1))
        have d3 : decide ((ekey p (M f) ∈
            edgesOf (c, M (ekey c a), M (ekey b c))) ∧
            (ekey p (M f2) ∈ edgesOf (c, M (ekey c a), M (ekey b c)))) =
            false :=
          decide_eq_false (fun hcc => hbc (hpb.symm.trans
            (mixed_child1_corner n M c a b p f hc hp hMf hM3 hM2 hcc.1)))
        by_cases h2 : (ekey p (M f) ∈
            edgesOf (b, M (ekey b c), M (ekey a b))) ∧
            (ekey p (M f2) ∈ edgesOf (b, M (ekey b c), M (ekey a b)))
        · rw [hch, List.countP_cons, List.countP_cons, List.countP_cons,
            List.countP_cons, List.countP_nil, d4, d1, d3, decide_eq_true h2]
          decide
        · rw [hch, List.countP_cons, List.countP_cons, List.countP_cons,
            List.countP_cons, List.countP_nil, d4, d1, d3, decide_eq_false h2]
          decide
      · have d1 : decide ((ekey p (M f) ∈
            edgesOf (a, M (ekey a b), M (ekey c a))) ∧
            (ekey p (M f2) ∈ edgesOf (a, M (ekey a b), M (ekey c a)))) =
            false :=
          decide_eq_false (fun hcc => hpa
            (mixed_child1_corner n M a b c p f ha hp hMf hM1 hM3 hcc.1))
        have d2 : decide ((ekey p (M f) ∈
            edgesOf (b, M (ekey b c), M (ekey a b))) ∧
            (ekey p (M f2) ∈ edgesOf (b, M (ekey b c), M (ekey a b)))) =
            false :=
          decide_eq_false (fun hcc => hpb
            (mixed_child1_corner n M b c a p f hb hp hMf hM2 hM1 hcc.1))
        by_cases h3 : (ekey p (M f) ∈
            edgesOf (c, M (ekey c a), M (ekey b c))) ∧
            (ekey p (M f2) ∈ edgesOf (c, M (ekey c a), M (ekey b c)))
        · rw [hch, List.countP_cons, List.countP_cons, List.countP_cons,
            List.countP_cons, List.countP_nil, d4, d1, d2, decide_eq_true h3]
          decide
        · rw [hch, List.countP_cons, List.countP_cons, List.countP_cons,
            List.countP_cons, List.countP_nil, d4, d1, d2, decide_eq_false h3]
          decide
  · rw [if_neg hD]
    have hio1f := mixed_child1 n M a b c p f ha hp hMf hM1 hM3 hinjf1 hinjf3
    have hio2f := mixed_child1 n M b c a p f hb hp hMf hM2 hM1 hinjf2 hinjf1
    have hio3f := mixed_child1 n M c a b p f hc hp hMf hM3 hM2 hinjf3 hinjf2
    have hio1f2 := mixed_child1 n M a b c p f2 ha hp hMf2 hM1 hM3 hinjf21 hinjf23
    have hio2f2 := mixed_child1 n M b c a p f2 hb hp hMf2 hM2 hM1 hinjf22 hinjf21
    have hio3f2 := mixed_child1 n M c a b p f2 hc hp hMf2 hM3 hM2 hinjf23 hinjf22
    have hDmk : ∀ f' : Nat × Nat,
        (f' = ekey a b ∨ f' = ekey b c ∨ f' = ekey c a) →
        f' ∈ edgesOf (a, b, c) := fun f' h => (mem_edgesOf _ _).mpr h
    have d1 : decide ((ekey p (M f) ∈
        edgesOf (a, M (ekey a b), M (ekey c a))) ∧
        (ekey p (M f2) ∈ edgesOf (a, M (ekey a b), M (ekey c a)))) = false :=
      decide_eq_false (fun hcc => by
        refine hD ⟨?_, ?_⟩
        · rcases hio1f.mp hcc.1 with ⟨_, hf⟩ | ⟨_, hf⟩
          · exact hDmk f (Or.inl hf)
          · exact hDmk f (Or.inr (Or.inr hf))
        · rcases hio1f2.mp hcc.2 with ⟨_, hf⟩ | ⟨_, hf⟩
          · exact hDmk f2 (Or.inl hf)
          · exact hDmk f2 (Or.inr (Or.inr hf)))
    have d2 : decide ((ekey p (M f) ∈
        edgesOf (b, M (ekey b c), M (ekey a b))) ∧
        (ekey p (M f2) ∈ edgesOf (b, M (ekey b c), M (ekey a b)))) = false :=
      decide_eq_false (fun hcc => by
        refine hD ⟨?_, ?_⟩
        · rcases hio2f.mp hcc.1 with ⟨_, hf⟩ | ⟨_, hf⟩
          · exact hDmk f (Or.inr (Or.inl hf))
          · exact hDmk f (Or.inl hf)
        · rcases hio2f2.mp hcc.2 with ⟨_, hf⟩ | ⟨_, hf⟩
          · exact hDmk f2 (Or.inr (Or.inl hf))
          · exact hDmk f2 (Or.inl hf))
    have d3 : decide ((ekey p (M f) ∈
        edgesOf (c, M (ekey c a), M (ekey b c))) ∧
        (ekey p (M f2) ∈ edgesOf (c, M (ekey c a), M (ekey b c)))) = false :=
      decide_eq_false (fun hcc => by
        refine hD ⟨?_, ?_⟩
        · rcases hio3f.mp hcc.1 with ⟨_, hf⟩ | ⟨_, hf⟩
          · exact hDmk f (Or.inr (Or.inr hf))
          · exact hDmk f (Or.inr (Or.inl hf))
        · rcases hio3f2.mp hcc.2 with ⟨_, hf⟩ | ⟨_, hf⟩
          · exact hDmk f2 (Or.inr (Or.inr hf))
          · exact hDmk f2 (Or.inr (Or.inl hf)))
    rw [hch, List.countP_cons, List.countP_cons, List.countP_cons,
      List.countP_cons, List.countP_nil, d4, d1, d2, d3]
    decide

set_option maxHeartbeats 1600000 in
theorem cpt2_mixed_midmid (n : Nat) (M : Nat × Nat → Nat) (a b c p : Nat)
    (f g g2 : Nat × Nat)
    (ha : a < n) (hb : b < n) (hc : c < n)
    (hab : a ≠ b) (hbc : b ≠ c) (hca : c ≠ a)
    (hp : p < n) (hMf : n ≤ M f) (hMg : n ≤ M g) (hMg2 : n ≤ M g2)
    (hM1 : n ≤ M (ekey a b)) (hM2 : n ≤ M (ekey b c)) (hM3 : n ≤ M (ekey c a))
    (hinjg1 : M g = M (ekey a b) → g = ekey a b)
    (hinjg2 : M g = M (ekey b c) → g = ekey b c)
    (hinjg3 : M g = M (ekey c a) → g = ekey c a)
    (hinjg21 : M g2 = M (ekey a b) → g2 = ekey a b)
    (hinjg22 : M g2 = M (ekey b c) → g2 = ekey b c)
    (hinjg23 : M g2 = M (ekey c a) → g2 = ekey c a) :
    (children M (a, b, c)).countP (fun ch =>
      decide (ekey p (M f) ∈ edgesOf ch ∧ ekey (M g) (M g2) ∈ edgesOf ch)) ≤
      if g ∈ edgesOf (a, b, c) ∧ g2 ∈ edgesOf (a, b, c) then 1 else 0 := by
  have hch : children M (a, b, c) =
      [(a, M (ekey a b), M (ekey c a)), (b, M (ekey b c), M (ekey a b)),
       (c, M (ekey c a), M (ekey b c)),
       (M (ekey a b), M (ekey b c), M (ekey c a))] := rfl
  have d4 : decide ((ekey p (M f) ∈
      edgesOf (M (ekey a b), M (ekey b c), M (ekey c a))) ∧
      (ekey (M g) (M g2) ∈
        edgesOf (M (ekey a b), M (ekey b c), M (ekey c a)))) = false :=
    decide_eq_false (fun hcc =>
      mixed_child4 n M a b c p f hp hM1 hM2 hM3 hcc.1)
  by_cases hD : g ∈ edgesOf (a, b, c) ∧ g2 ∈ edgesOf (a, b, c)
  · rw [if_pos hD]
    by_cases hpa : p = a
    · have d2 : decide ((ekey p (M f) ∈
          edgesOf (b, M (ekey b c), M (ekey a b))) ∧
          (ekey (M g) (M g2) ∈ edgesOf (b, M (ekey b c), M (ekey a b)))) =
          false :=
        decide_eq_false (fun hcc => hab (hpa.symm.trans
          (mixed_child1_corner n M b c a p f hb hp hMf hM2 hM1 hcc.1)))
      have d3 : decide ((ekey p (M f) ∈
          edgesOf (c, M (ekey c a), M (ekey b c))) ∧
          (ekey (M g) (M g2) ∈ edgesOf (c, M (ekey c a), M (ekey b c)))) =
          false :=
        decide_eq_false (fun hcc => hca (hpa.symm.trans
          (mixed_child1_corner n M c a b p f hc hp hMf hM3 hM2 hcc.1)).symm)
      by_cases h1 : (ekey p (M f) ∈
          edgesOf (a, M (ekey a b), M (ekey c a))) ∧
          (ekey (M g) (M g2) ∈ edgesOf (a, M (ekey a b), M (ekey c a)))
      · rw [hch, List.countP_cons, List.countP_cons, List.countP_cons,
          List.countP_cons, List.countP_nil, d4, d2, d3, decide_eq_true h1]
        decide
      · rw [hch, List.countP_cons, List.countP_cons, List.countP_cons,
          List.countP_cons, List.countP_nil, d4, d2, d3, decide_eq_false h1]
        decide
    · by_cases hpb : p = b
      · have d1 : decide ((ekey p (M f) ∈
            edgesOf (a, M (ekey a b), M (ekey c a))) ∧
            (ekey (M g) (M g2) ∈ edgesOf (a, M (ekey a b), M (ekey c a)))) =
            false :=
          decide_eq_false (fun hcc => hpa
            (mixed_child1_corner n M a b c p f ha hp hMf hM1 hM3 hcc.1))
        have d3 : decide ((ekey p (M f) ∈
            edgesOf (c, M (ekey c a), M (ekey b c))) ∧
            (ekey (M g) (M g2) ∈ edgesOf (c, M (ekey c a), M (ekey b c)))) =
            false :=
          decide_eq_false (fun hcc => hbc (hpb.symm.trans
            (mixed_child1_corner n M c a b p f hc hp hMf hM3 hM2 hcc.1)))
        by_cases h2 : (ekey p (M f) ∈
            edgesOf (b, M (ekey b c), M (ekey a b))) ∧
            (ekey (M g) (M g2) ∈ edgesOf (b, M (ekey b c), M (ekey a b)))
        · rw [hch, List.countP_cons, List.countP_cons, List.countP_cons,
            List.countP_cons, List.countP_nil, d4, d1, d3, decide_eq_true h2]
          decide
        · rw [hch, List.countP_cons, List.countP_cons, List.countP_cons,
            List.countP_cons, List.countP_nil, d4, d1, d3, decide_eq_false h2]
          decide
      · have d1 : decide ((ekey p (M f) ∈
            edgesOf (a, M (ekey a b), M (ekey c a))) ∧
            (ekey (M g) (M g2) ∈ edgesOf (a, M (ekey a b), M (ekey c a)))) =
            false :=
          decide_eq_false (fun hcc => hpa
            (mixed_child1_corner n M a b c p f ha hp hMf hM1 hM3 hcc.1))
        have d2 : decide ((ekey p (M f) ∈
            edgesOf (b, M (ekey b c), M (ekey a b))) ∧
            (ekey (M g) (M g2) ∈ edgesOf (b, M (ekey b c), M (ekey a b)))) =
            false :=
          decide_eq_false (fun hcc => hpb
            (mixed_child1_corner n M b c a p f hb hp hMf hM2 hM1 hcc.1))
        by_cases h3 : (ekey p (M f) ∈
            edgesOf (c, M (ekey c a), M (ekey b c))) ∧
            (ekey (M g) (M g2) ∈ edgesOf (c, M (ekey c a), M (ekey b c)))
        · rw [hch, List.countP_cons, List.countP_cons, List.countP_cons,
            List.countP_cons, List.countP_nil, d4, d1, d2, decide_eq_true h3]
          decide
        · rw [hch, List.countP_cons, List.countP_cons, List.countP_cons,
            List.countP_cons, List.countP_nil, d4, d1, d2, decide_eq_false h3]
          decide
  · rw [if_neg hD]
    have hio1g := midmid_child1 n M a b c g g2 ha hMg hMg2 hM1 hM3
      hinjg1 hinjg3 hinjg21 hinjg23
    have hio2g := midmid_child1 n M b c a g g2 hb hMg hMg2 hM2 hM1
      hinjg2 hinjg1 hinjg22 hinjg21
    have hio3g := midmid_child1 n M c a b g g2 hc hMg hMg2 hM3 hM2
      hinjg3 hinjg2 hinjg23 hinjg22
    have hio4g := midmid_child4 n M a b c g g2 hinjg1 hinjg2 hinjg3
      hinjg21 hinjg22 hinjg23
    have hDmk : ∀ f' : Nat × Nat,
        (f' = ekey a b ∨ f' = ekey b c ∨ f' = ekey c a) →
        f' ∈ edgesOf (a, b, c) := fun f' h => (mem_edgesOf _ _).mpr h
    have d1 : decide ((ekey p (M f) ∈
        edgesOf (a, M (ekey a b), M (ekey c a))) ∧
        (ekey (M g) (M g2) ∈ edgesOf (a, M (ekey a b), M (ekey c a)))) =
        false :=
      decide_eq_false (fun hcc => by
        rcases hio1g.mp hcc.2 with ⟨hg, hg2'⟩ | ⟨hg, hg2'⟩
        · exact hD ⟨hDmk g (Or.inl hg), hDmk g2 (Or.inr (Or.inr hg2'))⟩
        · exact hD ⟨hDmk g (Or.inr (Or.inr hg)), hDmk g2 (Or.inl hg2')⟩)
    have d2 : decide ((ekey p (M f) ∈
        edgesOf (b, M (ekey b c), M (ekey a b))) ∧
        (ekey (M g) (M g2) ∈ edgesOf (b, M (ekey b c), M (ekey a b)))) =
        false :=
      decide_eq_false (fun hcc => by
        rcases hio2g.mp hcc.2 with ⟨hg, hg2'⟩ | ⟨hg, hg2'⟩
        · exact hD ⟨hDmk g (Or.inr (Or.inl hg)), hDmk g2 (Or.inl hg2')⟩
        · exact hD ⟨hDmk g (Or.inl hg), hDmk g2 (Or.inr (Or.inl hg2'))⟩)
    have d3 : decide ((ekey p (M f) ∈
        edgesOf (c, M (ekey c a), M (ekey b c))) ∧
        (ekey (M g) (M g2) ∈ edgesOf (c, M (ekey c a), M (ekey b c)))) =
        false :=
      decide_eq_false (fun hcc => by
        rcases hio3g.mp hcc.2 with ⟨hg, hg2'⟩ | ⟨hg, hg2'⟩
        · exact hD ⟨hDmk g (Or.inr (Or.inr hg)), hDmk g2 (Or.inr (Or.inl hg2'))⟩
        · exact hD ⟨hDmk g (Or.inr (Or.inl hg)), hDmk g2 (Or.inr (Or.inr hg2'))⟩)
    have d4' : decide ((ekey p (M f) ∈
        edgesOf (M (ekey a b), M (ekey b c), M (ekey c a))) ∧
        (ekey (M g) (M g2) ∈
          edgesOf (M (ekey a b), M (ekey b c), M (ekey c a)))) = false := d4
    rw [hch, List.countP_cons, List.countP_cons, List.countP_cons,
      List.countP_cons, List.countP_nil, d4', d1, d2, d3]
    decide

set_option maxHeartbeats 1600000 in
theorem cpt2_midmid_midmid (n : Nat) (M : Nat × Nat → Nat) (a b c : Nat)
    (g1 g2 g3 g4 : Nat × Nat)
    (ha : a < n) (hb : b < n) (hc : c < n)
    (hab : a ≠ b) (hbc : b ≠ c) (hca : c ≠ a)
    (hMg1 : n ≤ M g1) (hMg2 : n ≤ M g2) (hMg3 : n ≤ M g3) (hMg4 : n ≤ M g4)
    (hM1 : n ≤ M (ekey a b)) (hM2 : n ≤ M (ekey b c)) (hM3 : n ≤ M (ekey c a))
    (hne' : ekey (M g1) (M g2) ≠ ekey (M g3) (M g4))
    (hinj11 : M g1 = M (ekey a b) → g1 = ekey a b)
    (hinj12 : M g1 = M (ekey b c) → g1 = ekey b c)
    (hinj13 : M g1 = M (ekey c a) → g1 = ekey c a)
    (hinj21 : M g2 = M (ekey a b) → g2 = ekey a b)
    (hinj22 : M g2 = M (ekey b c) → g2 = ekey b c)
    (hinj23 : M g2 = M (ekey c a) → g2 = ekey c a)
    (hinj31 : M g3 = M (ekey a b) → g3 = ekey a b)
    (hinj32 : M g3 = M (ekey b c) → g3 = ekey b c)
    (hinj33 : M g3 = M (ekey c a) → g3 = ekey c a)
    (hinj41 : M g4 = M (ekey a b) → g4 = ekey a b)
    (hinj42 : M g4 = M (ekey b c) → g4 = ekey b c)
    (hinj43 : M g4 = M (ekey c a) → g4 = ekey c a) :
    (children M (a, b, c)).countP (fun ch =>
      decide (ekey (M g1) (M g2) ∈ edgesOf ch ∧
        ekey (M g3) (M g4) ∈ edgesOf ch)) ≤
      if g1 ∈ edgesOf (a, b, c) ∧ g2 ∈ edgesOf (a, b, c) then 1 else 0 := by
  have hch : children M (a, b, c) =
      [(a, M (ekey a b), M (ekey c a)), (b, M (ekey b c), M (ekey a b)),
       (c, M (ekey c a), M (ekey b c)),
       (M (ekey a b), M (ekey b c), M (ekey c a))] := rfl
  have hio1e := midmid_child1 n M a b c g1 g2 ha hMg1 hMg2 hM1 hM3
    hinj11 hinj13 hinj21 hinj23
  have hio2e := midmid_child1 n M b c a g1 g2 hb hMg1 hMg2 hM2 hM1
    hinj12 hinj11 hinj22 hinj21
  have hio3e := midmid_child1 n M c a b g1 g2 hc hMg1 hMg2 hM3 hM2
    hinj13 hinj12 hinj23 hinj22
  have hio4e := midmid_child4 n M a b c g1 g2 hinj11 hinj12 hinj13
    hinj21 hinj22 hinj23
  have hio1f := midmid_child1 n M a b c g3 g4 ha hMg3 hMg4 hM1 hM3
    hinj31 hinj33 hinj41 hinj43
  have hio2f := midmid_child1 n M b c a g3 g4 hb hMg3 hMg4 hM2 hM1
    hinj32 hinj31 hinj42 hinj41
  have hio3f := midmid_child1 n M c a b g3 g4 hc hMg3 hMg4 hM3 hM2
    hinj33 hinj32 hinj43 hinj42
  have hDmk : ∀ f' : Nat × Nat,
      (f' = ekey a b ∨ f' = ekey b c ∨ f' = ekey c a) →
      f' ∈ edgesOf (a, b, c) := fun f' h => (mem_edgesOf _ _).mpr h
  have d1 : decide ((ekey (M g1) (M g2) ∈
      edgesOf (a, M (ekey a b), M (ekey c a))) ∧
      (ekey (M g3) (M g4) ∈ edgesOf (a, M (ekey a b), M (ekey c a)))) =
      false :=
    decide_eq_false (fun hcc => by
      rcases hio1e.mp hcc.1 with ⟨h1, h2⟩ | ⟨h1, h2⟩ <;>
        rcases hio1f.mp hcc.2 with ⟨h3, h4⟩ | ⟨h3, h4⟩
      · exact hne' (by rw [h1, h2, h3, h4])
      · exact hne' (by rw [h1, h2, h3, h4]; exact ekey_comm _ _)
      · exact hne' (by rw [h1, h2, h3, h4]; exact ekey_comm _ _)
      · exact hne' (by rw [h1, h2, h3, h4]))
  have d2 : decide ((ekey (M g1) (M g2) ∈
      edgesOf (b, M (ekey b c), M (ekey a b))) ∧
      (ekey (M g3) (M g4) ∈ edgesOf (b, M (ekey b c), M (ekey a b)))) =
      false :=
    decide_eq_false (fun hcc => by
      rcases hio2e.mp hcc.1 with ⟨h1, h2⟩ | ⟨h1, h2⟩ <;>
        rcases hio2f.mp hcc.2 with ⟨h3, h4⟩ | ⟨h3, h4⟩
      · exact hne' (by rw [h1, h2, h3, h4])
      · exact hne' (by rw [h1, h2, h3, h4]; exact ekey_comm _ _)
      · exact hne' (by rw [h1, h2, h3, h4]; exact ekey_comm _ _)
      · exact hne' (by rw [h1, h2, h3, h4]))
  have d3 : decide ((ekey (M g1) (M g2) ∈
      edgesOf (c, M (ekey c a), M (ekey b c))) ∧
      (ekey (M g3) (M g4) ∈ edgesOf (c, M (ekey c a), M (ekey b c)))) =
      false :=
    decide_eq_false (fun hcc => by
      rcases hio3e.mp hcc.1 with ⟨h1, h2⟩ | ⟨h1, h2⟩ <;>
        rcases hio3f.mp hcc.2 with ⟨h3, h4⟩ | ⟨h3, h4⟩
      · exact hne' (by rw [h1, h2, h3, h4])
      · exact hne' (by rw [h1, h2, h3, h4]; exact ekey_comm _ _)
      · exact hne' (by rw [h1, h2, h3, h4]; exact ekey_comm _ _)
      · exact hne' (by rw [h1, h2, h3, h4]))
  by_cases hD : g1 ∈ edgesOf (a, b, c) ∧ g2 ∈ edgesOf (a, b, c)
  · rw [if_pos hD]
    by_cases h4 : (ekey (M g1) (M g2) ∈
        edgesOf (M (ekey a b), M (ekey b c), M (ekey c a))) ∧
        (ekey (M g3) (M g4) ∈
          edgesOf (M (ekey a b), M (ekey b c), M (ekey c a)))
    · rw [hch, List.countP_cons, List.countP_cons, List.countP_cons,
        List.countP_cons, List.countP_nil, d1, d2, d3, decide_eq_true h4]
      decide
    · rw [hch, List.countP_cons, List.countP_cons, List.countP_cons,
        List.countP_cons, List.countP_nil, d1, d2, d3, decide_eq_false h4]
      decide
  · rw [if_neg hD]
    have d4 : decide ((ekey (M g1) (M g2) ∈
        edgesOf (M (ekey a b), M (ekey b c), M (ekey c a))) ∧
        (ekey (M g3) (M g4) ∈
          edgesOf (M (ekey a b), M (ekey b c), M (ekey c a)))) = false :=
      decide_eq_false (fun hcc => by
        rcases hio4e.mp hcc.1 with ⟨h1, h2⟩ | ⟨h1, h2⟩ | ⟨h1, h2⟩ |
          ⟨h1, h2⟩ | ⟨h1, h2⟩ | ⟨h1, h2⟩
        · exact hD ⟨hDmk g1 (Or.inl h1), hDmk g2 (Or.inr (Or.inl h2))⟩
        · exact hD ⟨hDmk g1 (Or.inr (Or.inl h1)), hDmk g2 (Or.inl h2)⟩
        · exact hD ⟨hDmk g1 (Or.inr (Or.inl h1)),
            hDmk g2 (Or.inr (Or.inr h2))⟩
        · exact hD ⟨hDmk g1 (Or.inr (Or.inr h1)),
            hDmk g2 (Or.inr (Or.inl h2))⟩
        · exact hD ⟨hDmk g1 (Or.inr (Or.inr h1)), hDmk g2 (Or.inl h2)⟩
        · exact hD ⟨hDmk g1 (Or.inl h1), hDmk g2 (Or.inr (Or.inr h2))⟩)
    rw [hch, List.countP_cons, List.countP_cons, List.countP_cons,
      List.countP_cons, List.countP_nil, d1, d2, d3, d4]
    decide

theorem count_allEdges_countP (idx : List Nat)
    (hd : ∀ t ∈ tri3 idx, t.1 ≠ t.2.1 ∧ t.2.1 ≠ t.2.2 ∧ t.2.2 ≠ t.1)
    (e : Nat × Nat) :
    (allEdges idx).count e =
      (tri3 idx).countP (fun t => decide (e ∈ edgesOf t)) := by
  rw [allEdges, count_flatMap]
  rw [List.map_congr_left (fun t ht => count_edgesOf e t (hd t ht).1
    (hd t ht).2.1 (hd t ht).2.2)]
  rw [sum_map_ite 1]
  omega

set_option maxHeartbeats 1600000 in
theorem topo_step (n n' : Nat) (idx : List Nat) (M : Nat × Nat → Nat)
    (hT : MeshTopo n idx)
    (hfresh : ∀ e ∈ allEdges idx, n ≤ M e ∧ M e < n')
    (hMinj : ∀ e f, e ∈ allEdges idx → f ∈ allEdges idx → M e = M f → e = f)
    (hn : n ≤ n') :
    MeshTopo n' ((tri3 idx).flatMap (splitPat M)) := by
  obtain ⟨hT1, hT2, hT3⟩ := hT
  have htri : tri3 ((tri3 idx).flatMap (splitPat M)) =
      (tri3 idx).flatMap (children M) := tri3_flatMap_splitPat M (tri3 idx)
  have hsub : ∀ t ∈ tri3 idx, ∀ e ∈ edgesOf t, e ∈ allEdges idx :=
    fun t ht e he => List.mem_flatMap.mpr ⟨t, ht, he⟩
  have hE1 : ∀ t ∈ tri3 idx, ekey t.1 t.2.1 ∈ allEdges idx :=
    fun t ht => hsub t ht _ ((mem_edgesOf _ _).mpr (Or.inl rfl))
  have hE2 : ∀ t ∈ tri3 idx, ekey t.2.1 t.2.2 ∈ allEdges idx :=
    fun t ht => hsub t ht _ ((mem_edgesOf _ _).mpr (Or.inr (Or.inl rfl)))
  have hE3 : ∀ t ∈ tri3 idx, ekey t.2.2 t.1 ∈ allEdges idx :=
    fun t ht => hsub t ht _ ((mem_edgesOf _ _).mpr (Or.inr (Or.inr rfl)))
  have hbld : ∀ w : Nat × Nat, w ∈ allEdges idx → ∀ t ∈ tri3 idx,
      (M w = M (ekey t.1 t.2.1) → w = ekey t.1 t.2.1) ∧
      (M w = M (ekey t.2.1 t.2.2) → w = ekey t.2.1 t.2.2) ∧
      (M w = M (ekey t.2.2 t.1) → w = ekey t.2.2 t.1) :=
    fun w hw t ht => ⟨fun h => hMinj w _ hw (hE1 t ht) h,
      fun h => hMinj w _ hw (hE2 t ht) h,
      fun h => hMinj w _ hw (hE3 t ht) h⟩
  have hC1 : ∀ t' ∈ tri3 ((tri3 idx).flatMap (splitPat M)),
      t'.1 < n' ∧ t'.2.1 < n' ∧ t'.2.2 < n' ∧
      t'.1 ≠ t'.2.1 ∧ t'.2.1 ≠ t'.2.2 ∧ t'.2.2 ≠ t'.1 := by
    rw [htri]
    intro t' ht'
    obtain ⟨t, ht, hch⟩ := List.mem_flatMap.mp ht'
    obtain ⟨hA, hB, hC, hab, hbc, hca⟩ := hT1 t ht
    have hf1 := hfresh _ (hE1 t ht)
    have hf2 := hfresh _ (hE2 t ht)
    have hf3 := hfresh _ (hE3 t ht)
    have hm12 : M (ekey t.1 t.2.1) ≠ M (ekey t.2.1 t.2.2) := fun h =>
      edgesOf_ne12 t.1 t.2.1 t.2.2 hab hbc hca
        (hMinj _ _ (hE1 t ht) (hE2 t ht) h)
    have hm23 : M (ekey t.2.1 t.2.2) ≠ M (ekey t.2.2 t.1) := fun h =>
      edgesOf_ne23 t.1 t.2.1 t.2.2 hab hbc hca
        (hMinj _ _ (hE2 t ht) (hE3 t ht) h)
    have hm31 : M (ekey t.2.2 t.1) ≠ M (ekey t.1 t.2.1) := fun h =>
      edgesOf_ne31 t.1 t.2.1 t.2.2 hab hbc hca
        (hMinj _ _ (hE3 t ht) (hE1 t ht) h)
    rcases List.mem_cons.mp hch with rfl | hch
    · exact ⟨lt_of_lt_of_le hA hn, hf1.2, hf3.2,
        Nat.ne_of_lt (lt_of_lt_of_le hA hf1.1), hm31.symm,
        (Nat.ne_of_lt (lt_of_lt_of_le hA hf3.1)).symm⟩
    rcases List.mem_cons.mp hch with rfl | hch
    · exact ⟨lt_of_lt_of_le hB hn, hf2.2, hf1.2,
        Nat.ne_of_lt (lt_of_lt_of_le hB hf2.1), hm12.symm,
        (Nat.ne_of_lt (lt_of_lt_of_le hB hf1.1)).symm⟩
    rcases List.mem_cons.mp hch with rfl | hch
    · exact ⟨lt_of_lt_of_le hC hn, hf3.2, hf2.2,
        Nat.ne_of_lt (lt_of_lt_of_le hC hf3.1), hm23.symm,
        (Nat.ne_of_lt (lt_of_lt_of_le hC hf2.1)).symm⟩
    rcases List.mem_cons.mp hch with rfl | hch
    · exact ⟨hf1.2, hf2.2, hf3.2, hm12, hm23, hm31⟩
    · cases hch
  have hdistinct : ∀ t ∈ tri3 idx,
      t.1 ≠ t.2.1 ∧ t.2.1 ≠ t.2.2 ∧ t.2.2 ≠ t.1 :=
    fun t ht => ⟨(hT1 t ht).2.2.2.1, (hT1 t ht).2.2.2.2.1,
      (hT1 t ht).2.2.2.2.2⟩
  have hdist' : ∀ t' ∈ tri3 ((tri3 idx).flatMap (splitPat M)),
      t'.1 ≠ t'.2.1 ∧ t'.2.1 ≠ t'.2.2 ∧ t'.2.2 ≠ t'.1 :=
    fun t' ht' => ⟨(hC1 t' ht').2.2.2.1, (hC1 t' ht').2.2.2.2.1,
      (hC1 t' ht').2.2.2.2.2⟩
  refine ⟨hC1, ?_, ?_⟩
  · intro e'
    by_cases hex : ∃ t ∈ tri3 idx, ∃ ch ∈ children M t, e' ∈ edgesOf ch
    · obtain ⟨t0, ht0, ch0, hch0, he0⟩ := hex
      obtain ⟨hA0, hB0, hC0, hab0, hbc0, hca0⟩ := hT1 t0 ht0
      rw [count_allEdges_countP _ hdist' e', htri, countP_flatMap]
      rcases decode_child n M t0.1 t0.2.1 t0.2.2 hA0 hB0 hC0 hab0 hbc0 hca0
          e' ch0 hch0 he0 with
        ⟨p, f, hp, hfE, hpend, rfl⟩ | ⟨f, g, hfE, hgE, hfg, rfl⟩
      · have hfAll : f ∈ allEdges idx :=
          hsub t0 ht0 f ((mem_edgesOf _ _).mpr hfE)
        have hMfr := hfresh f hfAll
        have hmapeq : List.map (fun t => (children M t).countP
            (fun ch => decide (ekey p (M f) ∈ edgesOf ch))) (tri3 idx) =
            List.map (fun t => if f ∈ edgesOf t ∧ (p = f.1 ∨ p = f.2)
              then 1 else 0) (tri3 idx) := by
          apply List.map_congr_left
          intro t ht
          obtain ⟨hA, hB, hC, habt, hbct, hcat⟩ := hT1 t ht
          exact cpt_mixed n M t.1 t.2.1 t.2.2 p f hA hB hC habt hbct hcat hp
            hMfr.1 (hfresh _ (hE1 t ht)).1 (hfresh _ (hE2 t ht)).1
            (hfresh _ (hE3 t ht)).1 (hbld f hfAll t ht).1
            (hbld f hfAll t ht).2.1 (hbld f hfAll t ht).2.2
        rw [hmapeq, sum_map_ite 1]
        have hcnt : (tri3 idx).countP (fun t => decide (f ∈ edgesOf t ∧
            (p = f.1 ∨ p = f.2))) =
            (tri3 idx).countP (fun t => decide (f ∈ edgesOf t)) :=
          List.countP_congr (fun t ht => by
            simp only [decide_eq_true_eq]
            exact and_iff_left hpend)
        rw [hcnt, one_mul, ← count_allEdges_countP idx hdistinct f]
        exact hT2 f
      · have hfAll : f ∈ allEdges idx :=
          hsub t0 ht0 f ((mem_edgesOf _ _).mpr hfE)
        have hgAll : g ∈ allEdges idx :=
          hsub t0 ht0 g ((mem_edgesOf _ _).mpr hgE)
        have hMfr := hfresh f hfAll
        have hMgr := hfresh g hgAll
        have hmapeq : List.map (fun t => (children M t).countP
            (fun ch => decide (ekey (M f) (M g) ∈ edgesOf ch))) (tri3 idx) =
            List.map (fun t => if f ∈ edgesOf t ∧ g ∈ edgesOf t
              then 2 else 0) (tri3 idx) := by
          apply List.map_congr_left
          intro t ht
          obtain ⟨hA, hB, hC, habt, hbct, hcat⟩ := hT1 t ht
          exact cpt_midmid n M t.1 t.2.1 t.2.2 f g hA hB hC habt hbct hcat
            hMfr.1 hMgr.1 hfg (hfresh _ (hE1 t ht)).1 (hfresh _ (hE2 t ht)).1
            (hfresh _ (hE3 t ht)).1 (hbld f hfAll t ht).1
            (hbld f hfAll t ht).2.1 (hbld f hfAll t ht).2.2
            (hbld g hgAll t ht).1 (hbld g hgAll t ht).2.1
            (hbld g hgAll t ht).2.2
        rw [hmapeq, sum_map_ite 2]
        have hge : 0 < (tri3 idx).countP (fun t =>
            decide (f ∈ edgesOf t ∧ g ∈ edgesOf t)) :=
          List.countP_pos.mpr ⟨t0, ht0, by
            simp only [decide_eq_true_eq]
            exact ⟨(mem_edgesOf _ _).mpr hfE, (mem_edgesOf _ _).mpr hgE⟩⟩
        have hle := hT3 f g hfg
        have h1 : (tri3 idx).countP (fun t =>
            decide (f ∈ edgesOf t ∧ g ∈ edgesOf t)) = 1 :=
          le_antisymm hle hge
        rw [h1]
        exact Or.inr rfl
    · left
      rw [List.count_eq_zero]
      intro hmem
      have hmem' : e' ∈ (tri3 ((tri3 idx).flatMap (splitPat M))).flatMap
          edgesOf := hmem
      rw [htri] at hmem'
      obtain ⟨ch, hch', he'⟩ := List.mem_flatMap.mp hmem'
      obtain ⟨t, ht, hch⟩ := List.mem_flatMap.mp hch'
      exact hex ⟨t, ht, ch, hch, he'⟩
  · intro e' f' hne
    by_cases hex : ∃ t ∈ tri3 idx, ∃ ch ∈ children M t,
        e' ∈ edgesOf ch ∧ f' ∈ edgesOf ch
    · obtain ⟨t0, ht0, ch0, hch0, he0, hf0⟩ := hex
      obtain ⟨hA0, hB0, hC0, hab0, hbc0, hca0⟩ := hT1 t0 ht0
      rcases decode_child n M t0.1 t0.2.1 t0.2.2 hA0 hB0 hC0 hab0 hbc0 hca0
          e' ch0 hch0 he0 with
        ⟨p, f, hp, hfE, hpend, rfl⟩ | ⟨f, g, hfE, hgE, hfg, rfl⟩ <;>
        rcases decode_child n M t0.1 t0.2.1 t0.2.2 hA0 hB0 hC0 hab0 hbc0 hca0
            f' ch0 hch0 hf0 with
          ⟨p2, f2, hp2, hf2E, hp2end, rfl⟩ | ⟨g3, g4, hg3E, hg4E, hg34, rfl⟩
      · -- inl.inl
        have hfAll : f ∈ allEdges idx :=
          hsub t0 ht0 f ((mem_edgesOf _ _).mpr hfE)
        have hf2All : f2 ∈ allEdges idx :=
          hsub t0 ht0 f2 ((mem_edgesOf _ _).mpr hf2E)
        have hMfr := hfresh f hfAll
        have hMf2r := hfresh f2 hf2All
        have hf1r := hfresh _ (hE1 t0 ht0)
        have hf2r' := hfresh _ (hE2 t0 ht0)
        have hf3r := hfresh _ (hE3 t0 ht0)
        have hpp : p2 = p := by
          rcases List.mem_cons.mp hch0 with rfl | hch
          · exact (mixed_child1_corner n M t0.1 t0.2.1 t0.2.2 p2 f2 hA0 hp2
              hMf2r.1 hf1r.1 hf3r.1 hf0).trans
              (mixed_child1_corner n M t0.1 t0.2.1 t0.2.2 p f hA0 hp
                hMfr.1 hf1r.1 hf3r.1 he0).symm
          rcases List.mem_cons.mp hch with rfl | hch
          · exact (mixed_child1_corner n M t0.2.1 t0.2.2 t0.1 p2 f2 hB0 hp2
              hMf2r.1 hf2r'.1 hf1r.1 hf0).trans
              (mixed_child1_corner n M t0.2.1 t0.2.2 t0.1 p f hB0 hp
                hMfr.1 hf2r'.1 hf1r.1 he0).symm
          rcases List.mem_cons.mp hch with rfl | hch
          · exact (mixed_child1_corner n M t0.2.2 t0.1 t0.2.1 p2 f2 hC0 hp2
              hMf2r.1 hf3r.1 hf2r'.1 hf0).trans
              (mixed_child1_corner n M t0.2.2 t0.1 t0.2.1 p f hC0 hp
                hMfr.1 hf3r.1 hf2r'.1 he0).symm
          rcases List.mem_cons.mp hch with rfl | hch
          · exact absurd he0 (mixed_child4 n M t0.1 t0.2.1 t0.2.2 p f hp
              hf1r.1 hf2r'.1 hf3r.1)
          · cases hch
        subst hpp
        have hff2 : f ≠ f2 := fun h => hne (by rw [h])
        have hstep : (List.map (fun t => (children M t).countP (fun ch =>
            decide (ekey p2 (M f) ∈ edgesOf ch ∧
              ekey p2 (M f2) ∈ edgesOf ch))) (tri3 idx)).sum ≤
            (List.map (fun t => if f ∈ edgesOf t ∧ f2 ∈ edgesOf t
              then 1 else 0) (tri3 idx)).sum := by
          apply List.sum_le_sum
          intro t ht
          obtain ⟨hA, hB, hC, habt, hbct, hcat⟩ := hT1 t ht
          exact cpt2_mixed_mixed n M t.1 t.2.1 t.2.2 p2 f f2 hA hB hC
            habt hbct hcat hp hMfr.1 hMf2r.1 (hfresh _ (hE1 t ht)).1
            (hfresh _ (hE2 t ht)).1 (hfresh _ (hE3 t ht)).1
            (hbld f hfAll t ht).1 (hbld f hfAll t ht).2.1
            (hbld f hfAll t ht).2.2 (hbld f2 hf2All t ht).1
            (hbld f2 hf2All t ht).2.1 (hbld f2 hf2All t ht).2.2
        rw [htri, countP_flatMap]
        refine le_trans hstep ?_
        rw [sum_map_ite 1, one_mul]
        exact hT3 f f2 hff2
      · -- inl.inr
        have hg3All : g3 ∈ allEdges idx :=
          hsub t0 ht0 g3 ((mem_edgesOf _ _).mpr hg3E)
        have hg4All : g4 ∈ allEdges idx :=
          hsub t0 ht0 g4 ((mem_edgesOf _ _).mpr hg4E)
        have hfAll : f ∈ allEdges idx :=
          hsub t0 ht0 f ((mem_edgesOf _ _).mpr hfE)
        have hMfr := hfresh f hfAll
        have hMg3r := hfresh g3 hg3All
        have hMg4r := hfresh g4 hg4All
        have hstep : (List.map (fun t => (children M t).countP (fun ch =>
            decide (ekey p (M f) ∈ edgesOf ch ∧
              ekey (M g3) (M g4) ∈ edgesOf ch))) (tri3 idx)).sum ≤
            (List.map (fun t => if g3 ∈ edgesOf t ∧ g4 ∈ edgesOf t
              then 1 else 0) (tri3 idx)).sum := by
          apply List.sum_le_sum
          intro t ht
          obtain ⟨hA, hB, hC, habt, hbct, hcat⟩ := hT1 t ht
          exact cpt2_mixed_midmid n M t.1 t.2.1 t.2.2 p f g3 g4 hA hB hC
            habt hbct hcat hp hMfr.1 hMg3r.1 hMg4r.1 (hfresh _ (hE1 t ht)).1
            (hfresh _ (hE2 t ht)).1 (hfresh _ (hE3 t ht)).1
            (hbld g3 hg3All t ht).1 (hbld g3 hg3All t ht).2.1
            (hbld g3 hg3All t ht).2.2 (hbld g4 hg4All t ht).1
            (hbld g4 hg4All t ht).2.1 (hbld g4 hg4All t ht).2.2
        rw [htri, countP_flatMap]
        refine le_trans hstep ?_
        rw [sum_map_ite 1, one_mul]
        exact hT3 g3 g4 hg34
      · -- inr.inl
        have hfAll : f ∈ allEdges idx :=
          hsub t0 ht0 f ((mem_edgesOf _ _).mpr hfE)
        have hgAll : g ∈ allEdges idx :=
          hsub t0 ht0 g ((mem_edgesOf _ _).mpr hgE)
        have hf2All : f2 ∈ allEdges idx :=
          hsub t0 ht0 f2 ((mem_edgesOf _ _).mpr hf2E)
        have hMfr := hfresh f hfAll
        have hMgr := hfresh g hgAll
        have hMf2r := hfresh f2 hf2All
        have hflip : ((tri3 idx).flatMap (children M)).countP (fun ch =>
            decide (ekey (M f) (M g) ∈ edgesOf ch ∧
              ekey p2 (M f2) ∈ edgesOf ch)) =
            ((tri3 idx).flatMap (children M)).countP (fun ch =>
            decide (ekey p2 (M f2) ∈ edgesOf ch ∧
              ekey (M f) (M g) ∈ edgesOf ch)) :=
          List.countP_congr (fun ch hch => by
            simp only [decide_eq_true_eq]
            exact and_comm)
        have hstep : (List.map (fun t => (children M t).countP (fun ch =>
            decide (ekey p2 (M f2) ∈ edgesOf ch ∧
              ekey (M f) (M g) ∈ edgesOf ch))) (tri3 idx)).sum ≤
            (List.map (fun t => if f ∈ edgesOf t ∧ g ∈ edgesOf t
              then 1 else 0) (tri3 idx)).sum := by
          apply List.sum_le_sum
          intro t ht
          obtain ⟨hA, hB, hC, habt, hbct, hcat⟩ := hT1 t ht
          exact cpt2_mixed_midmid n M t.1 t.2.1 t.2.2 p2 f2 f g hA hB hC
            habt hbct hcat hp2 hMf2r.1 hMfr.1 hMgr.1 (hfresh _ (hE1 t ht)).1
            (hfresh _ (hE2 t ht)).1 (hfresh _ (hE3 t ht)).1
            (hbld f hfAll t ht).1 (hbld f hfAll t ht).2.1
            (hbld f hfAll t ht).2.2 (hbld g hgAll t ht).1
            (hbld g hgAll t ht).2.1 (hbld g hgAll t ht).2.2
        rw [htri, hflip, countP_flatMap]
        refine le_trans hstep ?_
        rw [sum_map_ite 1, one_mul]
        exact hT3 f g hfg
      · -- inr.inr
        have hfAll : f ∈ allEdges idx :=
          hsub t0 ht0 f ((mem_edgesOf _ _).mpr hfE)
        have hgAll : g ∈ allEdges idx :=
          hsub t0 ht0 g ((mem_edgesOf _ _).mpr hgE)
        have hg3All : g3 ∈ allEdges idx :=
          hsub t0 ht0 g3 ((mem_edgesOf _ _).mpr hg3E)
        have hg4All : g4 ∈ allEdges idx :=
          hsub t0 ht0 g4 ((mem_edgesOf _ _).mpr hg4E)
        have hMfr := hfresh f hfAll
        have hMgr := hfresh g hgAll
        have hMg3r := hfresh g3 hg3All
        have hMg4r := hfresh g4 hg4All
        have hstep : (List.map (fun t => (children M t).countP (fun ch =>
            decide (ekey (M f) (M g) ∈ edgesOf ch ∧
              ekey (M g3) (M g4) ∈ edgesOf ch))) (tri3 idx)).sum ≤
            (List.map (fun t => if f ∈ edgesOf t ∧ g ∈ edgesOf t
              then 1 else 0) (tri3 idx)).sum := by
          apply List.sum_le_sum
          intro t ht
          obtain ⟨hA, hB, hC, habt, hbct, hcat⟩ := hT1 t ht
          exact cpt2_midmid_midmid n M t.1 t.2.1 t.2.2 f g g3 g4 hA hB hC
            habt hbct hcat hMfr.1 hMgr.1 hMg3r.1 hMg4r.1
            (hfresh _ (hE1 t ht)).1 (hfresh _ (hE2 t ht)).1
            (hfresh _ (hE3 t ht)).1 hne
            (hbld f hfAll t ht).1 (hbld f hfAll t ht).2.1
            (hbld f hfAll t ht).2.2 (hbld g hgAll t ht).1
            (hbld g hgAll t ht).2.1 (hbld g hgAll t ht).2.2
            (hbld g3 hg3All t ht).1 (hbld g3 hg3All t ht).2.1
            (hbld g3 hg3All t ht).2.2 (hbld g4 hg4All t ht).1
            (hbld g4 hg4All t ht).2.1 (hbld g4 hg4All t ht).2.2
        rw [htri, countP_flatMap]
        refine le_trans hstep ?_
        rw [sum_map_ite 1, one_mul]
        exact hT3 f g hfg
    · refine le_trans (le_of_eq (List.countP_eq_zero.mpr ?_)) (Nat.zero_le 1)
      intro ch hch hp
      rw [decide_eq_true_eq] at hp
      rw [htri] at hch
      obtain ⟨t, ht, hcht⟩ := List.mem_flatMap.mp hch
      exact hex ⟨t, ht, ch, hcht, hp⟩

theorem countNew_card (ks : List (Nat × Nat)) : ∀ K : List (Nat × Nat),
    countNew K ks = (ks.toFinset \ K.toFinset).card := by
  induction ks with
  | nil => intro K; simp [countNew]
  | cons k ks ih =>
    intro K
    rw [countNew, ih]
    by_cases hk : k ∈ K
    · rw [if_pos hk]
      have h1 : (k :: K).toFinset = K.toFinset := by
        ext x
        simp only [List.toFinset_cons, Finset.mem_insert, List.mem_toFinset]
        constructor
        · rintro (rfl | hx)
          · exact hk
          · exact hx
        · exact Or.inr
      have h2 : (k :: ks).toFinset \ K.toFinset = ks.toFinset \ K.toFinset := by
        ext x
        simp only [List.toFinset_cons, Finset.mem_sdiff, Finset.mem_insert,
          List.mem_toFinset]
        constructor
        · rintro ⟨rfl | hx, hnx⟩
          · exact absurd hk hnx
          · exact ⟨hx, hnx⟩
        · rintro ⟨hx, hnx⟩
          exact ⟨Or.inr hx, hnx⟩
      rw [h1, h2, Nat.zero_add]
    · rw [if_neg hk]
      have h3 : k ∈ (k :: ks).toFinset \ K.toFinset := by
        rw [Finset.mem_sdiff, List.mem_toFinset, List.mem_toFinset]
        exact ⟨List.mem_cons_self k ks, hk⟩
      have h2 : ks.toFinset \ (k :: K).toFinset =
          ((k :: ks).toFinset \ K.toFinset).erase k := by
        ext x
        simp only [List.toFinset_cons, Finset.mem_erase, Finset.mem_sdiff,
          Finset.mem_insert, List.mem_toFinset]
        constructor
        · rintro ⟨hx, hnx⟩
          exact ⟨fun hxk => hnx (Or.inl hxk), Or.inr hx,
            fun hxK => hnx (Or.inr hxK)⟩
        · rintro ⟨hxk, hor, hnx⟩
          rcases hor with rfl | hx
          · exact absurd rfl hxk
          · refine ⟨hx, ?_⟩
            rintro (h | h)
            · exact hxk h
            · exact hnx h
      rw [h2, ← Finset.card_erase_add_one h3]
      exact Nat.add_comm 1 _

theorem count_debeq (a : Nat × Nat) (l : List (Nat × Nat)) :
    l.count a = @List.count _ instBEqOfDecidableEq a l := by
  rw [@List.count_eq_countP, @List.count_eq_countP]
  refine List.countP_congr ?_
  intro x hx
  show (x == a) = true ↔ decide (x = a) = true
  simp only [beq_iff_eq, decide_eq_true_eq]

theorem sum_count_len (L : List (Nat × Nat)) :
    (L.toFinset.sum fun a => @List.count _ instBEqOfDecidableEq a L) =
      L.length := by
  have h1 := Multiset.toFinset_sum_count_eq (L : Multiset (Nat × Nat))
  simp only [Multiset.coe_count] at h1
  exact h1

theorem balanced_length (L : List (Nat × Nat))
    (hb : ∀ e, L.count e = 0 ∨ L.count e = 2) :
    L.length = 2 * L.toFinset.card := by
  have h2 : (L.toFinset.sum fun a => L.count a) = L.length := by
    rw [Finset.sum_congr rfl (fun e _ => count_debeq e L)]
    exact sum_count_len L
  have h3 : (L.toFinset.sum fun a => L.count a) =
      L.toFinset.sum fun _ => 2 := by
    refine Finset.sum_congr rfl (fun e he => ?_)
    rcases hb e with h | h
    · have hp : 0 < L.count e :=
        List.count_pos_iff_mem.mpr (List.mem_toFinset.mp he)
      omega
    · exact h
  rw [← h2, h3, Finset.sum_const, smul_eq_mul]
  exact Nat.mul_comm _ 2

theorem countNew_nil_key (L : List (Nat × Nat)) :
    countNew [] L = L.toFinset.card := by
  rw [countNew_card]
  simp

theorem tri3_length : ∀ idx : List Nat, idx.length % 3 = 0 →
    idx.length = 3 * (tri3 idx).length
  | [], _ => rfl
  | [a], h => by simp at h
  | [a, b], h => by simp at h
  | a :: b :: c :: r, h => by
    have hr : r.length % 3 = 0 := by
      simp only [List.length_cons] at h
      omega
    have ih := tri3_length r hr
    show r.length + 1 + 1 + 1 = 3 * ((tri3 r).length + 1)
    omega

theorem allEdges_length : ∀ idx : List Nat,
    (allEdges idx).length = 3 * (tri3 idx).length
  | [] => rfl
  | [a] => rfl
  | [a, b] => rfl
  | a :: b :: c :: r => by
    have ih := allEdges_length r
    rw [allEdges] at ih ⊢
    show ((edgesOf (a, b, c)) ++ (tri3 r).flatMap edgesOf).length =
      3 * ((tri3 r).length + 1)
    rw [List.length_append, ih]
    show 3 + 3 * (tri3 r).length = 3 * ((tri3 r).length + 1)
    omega

theorem splitPat_flatMap_length (M : Nat × Nat → Nat) :
    ∀ T : List (Nat × Nat × Nat),
    (T.flatMap (splitPat M)).length = 12 * T.length
  | [] => rfl
  | t :: T => by
    rw [List.flatMap_cons, List.length_append, splitPat_flatMap_length M T,
      List.length_cons]
    show 12 + 12 * T.length = 12 * (T.length + 1)
    omega

theorem round_core (vs_len vlen2 : Nat) (I out : List Nat)
    (lk : Nat × Nat → Option Nat)
    (hbound : ∀ k v, lk k = some v → v < vlen2)
    (hinj : ∀ k k2 v, lk k = some v → lk k2 = some v → k = k2)
    (hclass : ∀ k v, lk k = some v → vs_len ≤ v ∧ k ∈ allEdges I)
    (htotal : ∀ e ∈ allEdges I, (lk e).isSome = true)
    (hlen : vlen2 = vs_len + countNew [] (allEdges I))
    (hout : out = (tri3 I).flatMap (splitPat fun e => (lk e).getD 0))
    (hT : MeshTopo vs_len I) (h3 : I.length % 3 = 0) :
    MeshTopo vlen2 out ∧ 2 * vlen2 = 2 * vs_len + I.length ∧
    out.length = 4 * I.length ∧ out.length % 3 = 0 := by
  have hsome : ∀ e ∈ allEdges I, lk e = some ((lk e).getD 0) := by
    intro e he
    obtain ⟨v, hv⟩ := Option.isSome_iff_exists.mp (htotal e he)
    rw [hv]
    rfl
  have hfresh : ∀ e ∈ allEdges I,
      vs_len ≤ (lk e).getD 0 ∧ (lk e).getD 0 < vlen2 := by
    intro e he
    exact ⟨(hclass e _ (hsome e he)).1, hbound e _ (hsome e he)⟩
  have hMinj : ∀ e f, e ∈ allEdges I → f ∈ allEdges I →
      (lk e).getD 0 = (lk f).getD 0 → e = f := by
    intro e f he hf h
    exact hinj e f _ (hsome e he) (h ▸ hsome f hf)
  have hcnt : (allEdges I).length = 2 * countNew [] (allEdges I) := by
    rw [countNew_nil_key]
    exact balanced_length _ hT.2.1
  have hL : (allEdges I).length = I.length := by
    rw [allEdges_length, ← tri3_length I h3]
  have hle : vs_len ≤ vlen2 := by omega
  have htopo : MeshTopo vlen2 out := by
    rw [hout]
    exact topo_step vs_len vlen2 I _ hT hfresh hMinj hle
  have holen : out.length = 4 * I.length := by
    rw [hout, splitPat_flatMap_length]
    have := tri3_length I h3
    omega
  exact ⟨htopo, by omega, holen, by omega⟩

theorem round_step (vs : List Vec3) (I : List Nat)
    (hT : MeshTopo vs.length I) (h3 : I.length % 3 = 0) :
    MeshTopo (subdivideTriangles I vs []).2.1.length
      (subdivideTriangles I vs []).1 ∧
    2 * (subdivideTriangles I vs []).2.1.length = 2 * vs.length + I.length ∧
    (subdivideTriangles I vs []).1.length = 4 * I.length ∧
    (subdivideTriangles I vs []).1.length % 3 = 0 := by
  have hempty1 : ∀ (k : Nat × Nat) (v : Nat),
      ([] : Cache).lookup k = some v → v < vs.length := by
    intro k v h
    simp at h
  have hempty2 : ∀ (k k2 : Nat × Nat) (v : Nat),
      ([] : Cache).lookup k = some v → ([] : Cache).lookup k2 = some v →
      k = k2 := by
    intro k k2 v h h2
    simp at h
  obtain ⟨hmono, hbound, hinj, hclass, htotal, hlen, hout⟩ :=
    subdivideTriangles_mech I vs [] hempty1 hempty2
  refine round_core vs.length (subdivideTriangles I vs []).2.1.length I
    (subdivideTriangles I vs []).1
    (fun e => (subdivideTriangles I vs []).2.2.lookup e)
    hbound hinj ?_ htotal hlen hout hT h3
  intro k v h
  rcases hclass k v h with hc | hc
  · simp at hc
  · exact hc

theorem icosa_len : icosahedronIndices.length = 60 := rfl

theorem icosa_topo : MeshTopo 12 icosahedronIndices := by
  refine ⟨by decide, ?_, ?_⟩
  · intro e
    by_cases he : e ∈ allEdges icosahedronIndices
    · exact Or.inr ((by decide : ∀ x ∈ allEdges icosahedronIndices,
        (allEdges icosahedronIndices).count x = 2) e he)
    · exact Or.inl (List.count_eq_zero.mpr he)
  · intro e f hne
    by_cases he : e ∈ allEdges icosahedronIndices
    · by_cases hf : f ∈ allEdges icosahedronIndices
      · by_contra hgt
        push_neg at hgt
        have h2 : 2 ≤ (tri3 icosahedronIndices).countP
            (fun t => decide (e ∈ edgesOf t ∧ f ∈ edgesOf t)) := hgt
        rw [List.countP_eq_length_filter] at h2
        have hnd : ((tri3 icosahedronIndices).filter
            (fun t => decide (e ∈ edgesOf t ∧ f ∈ edgesOf t))).Nodup :=
          List.Nodup.filter _ (by decide)
        obtain ⟨t1, t2, r, hm⟩ : ∃ t1 t2 r, (tri3 icosahedronIndices).filter
            (fun t => decide (e ∈ edgesOf t ∧ f ∈ edgesOf t)) =
            t1 :: t2 :: r := by
          rcases hl : (tri3 icosahedronIndices).filter
              (fun t => decide (e ∈ edgesOf t ∧ f ∈ edgesOf t)) with
            _ | ⟨t1, _ | ⟨t2, r⟩⟩
          · rw [hl] at h2; simp at h2
          · rw [hl] at h2; simp at h2
          · exact ⟨t1, t2, r, rfl⟩
        rw [hm] at hnd h2
        have ht12 : t1 ≠ t2 := by
          rw [List.nodup_cons] at hnd
          exact fun h => hnd.1 (h ▸ List.mem_cons_self t2 r)
        have hmem1 : t1 ∈ (tri3 icosahedronIndices).filter
            (fun t => decide (e ∈ edgesOf t ∧ f ∈ edgesOf t)) := by
          rw [hm]
          exact List.mem_cons_self _ _
        have hmem2 : t2 ∈ (tri3 icosahedronIndices).filter
            (fun t => decide (e ∈ edgesOf t ∧ f ∈ edgesOf t)) := by
          rw [hm]
          exact List.mem_cons_of_mem _ (List.mem_cons_self _ _)
        rw [List.mem_filter, decide_eq_true_eq] at hmem1 hmem2
        have hshare : ∀ u1 ∈ tri3 icosahedronIndices,
            ∀ u2 ∈ tri3 icosahedronIndices, u1 ≠ u2 →
            (edgesOf u1).countP (fun x => decide (x ∈ edgesOf u2)) ≤ 1 := by
          decide
        have hb := hshare t1 hmem1.1 t2 hmem2.1 ht12
        rw [List.countP_eq_length_filter] at hb
        have hef1 : e ∈ (edgesOf t1).filter
            (fun x => decide (x ∈ edgesOf t2)) := by
          rw [List.mem_filter, decide_eq_true_eq]
          exact ⟨hmem1.2.1, hmem2.2.1⟩
        have hef2 : f ∈ (edgesOf t1).filter
            (fun x => decide (x ∈ edgesOf t2)) := by
          rw [List.mem_filter, decide_eq_true_eq]
          exact ⟨hmem1.2.2, hmem2.2.2⟩
        have hlen2 : 2 ≤ ((edgesOf t1).filter
            (fun x => decide (x ∈ edgesOf t2))).length := by
          rcases hl2 : (edgesOf t1).filter (fun x => decide (x ∈ edgesOf t2))
            with _ | ⟨x, _ | ⟨y, r2⟩⟩
          · rw [hl2] at hef1
            cases hef1
          · rw [hl2] at hef1 hef2
            rw [List.mem_singleton] at hef1 hef2
            exact absurd (hef1.trans hef2.symm) hne
          · simp
        omega
      · refine le_trans (le_of_eq (List.countP_eq_zero.mpr ?_)) (Nat.zero_le 1)
        intro t ht hp
        rw [decide_eq_true_eq] at hp
        exact hf (List.mem_flatMap.mpr ⟨t, ht, hp.2⟩)
    · refine le_trans (le_of_eq (List.countP_eq_zero.mpr ?_)) (Nat.zero_le 1)
      intro t ht hp
      rw [decide_eq_true_eq] at hp
      exact he (List.mem_flatMap.mpr ⟨t, ht, hp.1⟩)

theorem icosa_map_len :
    (icosahedronVertices.map project_to_unit_circle).length = 12 := by
  rw [List.length_map]
  rfl

theorem icosphereRounds_count : ∀ (k : Nat) (vs : List Vec3) (I : List Nat),
    MeshTopo vs.length I → I.length % 3 = 0 →
    MeshTopo (icosphereRounds k (vs, I)).1.length
      (icosphereRounds k (vs, I)).2 ∧
    (icosphereRounds k (vs, I)).2.length % 3 = 0 ∧
    6 * (icosphereRounds k (vs, I)).1.length + I.length =
      6 * vs.length + 4 ^ k * I.length ∧
    (icosphereRounds k (vs, I)).2.length = 4 ^ k * I.length
  | 0, vs, I, hT, h3 => by
    refine ⟨hT, h3, ?_, ?_⟩
    · show 6 * vs.length + I.length = 6 * vs.length + 4 ^ 0 * I.length
      rw [pow_zero, one_mul]
    · show I.length = 4 ^ 0 * I.length
      rw [pow_zero, one_mul]
  | k + 1, vs, I, hT, h3 => by
    obtain ⟨hT1, hc1, hl1, hm1⟩ := round_step vs I hT h3
    have hunf : icosphereRounds (k + 1) (vs, I) =
        icosphereRounds k ((subdivideTriangles I vs []).2.1,
          (subdivideTriangles I vs []).1) := rfl
    obtain ⟨ihT, ihm, ihc, ihl⟩ := icosphereRounds_count k
      (subdivideTriangles I vs []).2.1 (subdivideTriangles I vs []).1 hT1 hm1
    rw [hunf]
    rw [hl1] at ihc ihl
    have hpow : 4 ^ k * (4 * I.length) = 4 ^ (k + 1) * I.length := by
      rw [pow_succ]
      ring
    rw [hpow] at ihc ihl
    exact ⟨ihT, ihm, by omega, ihl⟩

/-- C1: for every in-range `iterations` (the guard admits `0..=8`), the
mesh returned by `create_icosphere(iterations)` has exactly
`20 * 4 ^ iterations` triangles — an index list of length
`3 * (20 * 4 ^ iterations)` — and exactly `10 * 4 ^ iterations + 2`
vertices, the vertex count relying on the per-round index cache
deduplicating the midpoint of every edge shared by two triangle
slots. -/
theorem claim_C1 (iterations : Nat) (m : Mesh)
    (h : create_icosphere iterations = some m) :
    m.indices.length = 3 * (20 * 4 ^ iterations) ∧
    m.vertices.length = 10 * 4 ^ iterations + 2 := by
  rw [create_icosphere] at h
  by_cases hle : iterations ≤ 8
  · rw [if_pos hle, Option.some.injEq] at h
    subst h
    have hbase : MeshTopo
        (icosahedronVertices.map project_to_unit_circle).length
        icosahedronIndices := by
      rw [icosa_map_len]
      exact icosa_topo
    have h3 : icosahedronIndices.length % 3 = 0 := by decide
    obtain ⟨_, _, hvert, hidx⟩ := icosphereRounds_count iterations
      (icosahedronVertices.map project_to_unit_circle) icosahedronIndices
      hbase h3
    constructor
    · show (icosphereRounds iterations
        (icosahedronVertices.map project_to_unit_circle,
          icosahedronIndices)).2.length = 3 * (20 * 4 ^ iterations)
      rw [hidx, icosa_len]
      ring
    · show (icosphereRounds iterations
        (icosahedronVertices.map project_to_unit_circle,
          icosahedronIndices)).1.length = 10 * 4 ^ iterations + 2
      rw [icosa_len, icosa_map_len] at hvert
      omega
  · rw [if_neg hle] at h
    cases h

theorem claim_C1_witness :
    (icosphereMesh 0).indices.length = 3 * (20 * 4 ^ 0) ∧
    (icosphereMesh 0).vertices.length = 10 * 4 ^ 0 + 2 :=
  claim_C1 0 (icosphereMesh 0) rfl

end Dice
